import Mathlib

/-!
Round-robin scheduler kernel (`kernel.c`)

A shallow embedding of `kernel.c`: the PID queues (linked lists with a head and a
tail pointer, living in a heap of `PID_QUEUE_ELT` cells), the semaphores, the
round-robin dispatcher and the four interrupt handlers.

Conventions of the embedding.

* C `int` values are mathematical integers (`Int`): the development covers the runs
  in which no `int` overflows.
* The heap of queue cells is a list indexed by address.  `malloc` returns the next
  unused address; `free` leaves the cell's contents in place (the code reads
  `q->head->next` right after `free(q->head)`).
* Indexing `process_table` or `semaphores` outside their bounds, and dereferencing a
  null or dangling cell pointer, have no defined behaviour in C; the embedding ends
  the run with a `Result.fault` naming the access.
* `exit(n)` ends the run with `Result.exit n`.
* `printf` appends a `TraceLine` to the state's `trace`; the driver calls append a
  `DevReq` to `devlog`.
* `hardware.h`, `drivers.h` and `kernel.h` are not part of the sources: the constants
  they define are the fields of `Config`; `clock`, `R1`, `R2`, `R3` are arguments of
  the handlers; `current_pid` is a field of the state.
-/

namespace Kernel

/-! ## Constants -/

/-- Constants of the missing headers: the size of the process table, the idle
sentinel PID and the six trap opcodes. -/
structure Config where
  MAX_NUMBER_OF_PROCESSES : Nat
  IDLE_PROCESS : Int
  DISK_READ : Int
  DISK_WRITE : Int
  KEYBOARD_READ : Int
  FORK_PROGRAM : Int
  END_PROGRAM : Int
  SEMAPHORE_OP : Int
  deriving Repr, DecidableEq

/-- Source `#define NUMBER_OF_SEMAPHORES 16` -/
def NUMBER_OF_SEMAPHORES : Nat := 16

/-- Source `#define INITIAL_SEMAPHORE_VALUE 1` -/
def INITIAL_SEMAPHORE_VALUE : Int := 1

/-- Source `#define QUANTUM 40` -/
def QUANTUM : Int := 40

/-! ## Data model -/

/-- Source `typedef enum { RUNNING, READY, BLOCKED , UNINITIALIZED } PROCESS_STATE;` -/
inductive PROCESS_STATE where
  | RUNNING
  | READY
  | BLOCKED
  | UNINITIALIZED
  deriving Repr, DecidableEq

/-- Source `struct process_table_entry` -/
structure PROCESS_TABLE_ENTRY where
  state : PROCESS_STATE
  total_CPU_time_used : Int
  deriving Repr, DecidableEq

/-- Source `struct PID_queue_elt`: a heap cell; `next = none` is the null pointer. -/
structure PID_QUEUE_ELT where
  next : Option Nat
  pid : Int
  deriving Repr, DecidableEq

/-- Source `PID_QUEUE`: head and tail pointers into the heap. -/
structure PID_QUEUE where
  head : Option Nat
  tail : Option Nat
  deriving Repr, DecidableEq

/-- The heap of queue cells, indexed by address. -/
abbrev Heap := List PID_QUEUE_ELT

/-- Source `struct semaphore`; the `PID_QUEUE` that `q` points to is stored in place. -/
structure SEMAPHORE where
  value : Int
  q : PID_QUEUE
  deriving Repr, DecidableEq

/-- The undefined accesses the code can attempt. -/
inductive Fault where
  | process_table (i : Int)
  | semaphores (i : Int)
  | null_deref
  deriving Repr, DecidableEq

/-- Outcome of running a piece of kernel code on a state of type `σ`. -/
inductive Result (σ : Type) where
  | ok (s : σ)
  | exit (code : Int) (s : σ)
  | fault (f : Fault)
  deriving Repr, DecidableEq

/-- Sequencing: continue only after a normal return. -/
def Result.bind {σ τ : Type} (r : Result σ) (k : σ → Result τ) (e : σ → τ) : Result τ :=
  match r with
  | .ok s => k s
  | .exit c s => .exit c (e s)
  | .fault f => .fault f

/-- Apply a function to the state carried by a result. -/
def Result.map {σ τ : Type} (f : σ → τ) : Result σ → Result τ
  | .ok s => .ok (f s)
  | .exit c s => .exit c (f s)
  | .fault x => .fault x

/-! ## PID queues -/

/-- Source `enqueue(pid, q)` on the heap `h`: allocate a cell, link it after the tail (or
make it head and tail when `q->head == NULL`).  `none` is a null or dangling
`q->tail` dereference. -/
def enqueue (pid : Int) (q : PID_QUEUE) (h : Heap) : Option (PID_QUEUE × Heap) :=
  let new_tail := h.length
  let h1 := h ++ [{ next := none, pid := pid }]
  match q.head with
  | none => some ({ head := some new_tail, tail := some new_tail }, h1)
  | some _ =>
    match q.tail with
    | none => none
    | some t =>
      match h1[t]? with
      | none => none
      | some c =>
        let h2 := h1.set t { c with next := some new_tail }
        some ({ q with tail := (h2[t]?).bind (fun c => c.next) }, h2)

/-- Source `dequeue(q)`: the idle sentinel when `q->head == NULL`, otherwise the head's PID,
with `q->head` advanced to `q->head->next`; `q->tail` is not touched.  `none` is a
dangling `q->head` dereference. -/
def dequeue (IDLE_PROCESS : Int) (q : PID_QUEUE) (h : Heap) : Option (Int × PID_QUEUE) :=
  match q.head with
  | none => some (IDLE_PROCESS, q)
  | some a =>
    match h[a]? with
    | none => none
    | some c => some (c.pid, { q with head := c.next })

/-- The PIDs reachable from pointer `p`, following `next` at most `fuel` times. -/
def pidsFrom (h : Heap) : Nat → Option Nat → List Int
  | 0, _ => []
  | _ + 1, none => []
  | fuel + 1, some a =>
    match h[a]? with
    | none => []
    | some c => c.pid :: pidsFrom h fuel c.next

/-- The contents of a queue: the PIDs reachable from its head. -/
def contents (h : Heap) (q : PID_QUEUE) : List Int :=
  pidsFrom h h.length q.head

/-- Predicate `Seg h p cs`: starting at pointer `p`, the heap holds exactly the cells `cs`
(address and PID), linked in order by increasing addresses and ending in null. -/
def Seg (h : Heap) : Option Nat → List (Nat × Int) → Prop
  | p, [] => p = none
  | p, (a, x) :: rest =>
    p = some a ∧ (h[a]?).map (fun c => c.pid) = some x ∧
      (∀ b, (h[a]?).bind (fun c => c.next) = some b → a < b) ∧
      Seg h ((h[a]?).bind (fun c => c.next)) rest

/-- Predicate `Rep h q cs`: the queue `q` is the linked list of cells `cs`, and when it is not
empty its tail pointer is the address of the last cell. -/
def Rep (h : Heap) (q : PID_QUEUE) (cs : List (Nat × Int)) : Prop :=
  Seg h q.head cs ∧ (cs ≠ [] → q.tail = (cs.getLast?).map Prod.fst)

/-- The empty queue of `initialize_kernel`: `head = tail = NULL`. -/
def emptyQueue : PID_QUEUE := { head := none, tail := none }

/-- One line of the trace output, one constructor per `printf` of the source. -/
inductive TraceLine where
  | runs (t pid : Int)
  | idle (t : Int)
  | disk_read (t pid : Int)
  | disk_write (t pid : Int)
  | keyboard_read (t pid : Int)
  | disk_interrupt (t pid : Int)
  | keyboard_interrupt (t pid : Int)
  | sem_up (t pid sem : Int)
  | sem_down (t pid sem : Int)
  | fork (t pid : Int)
  | exits (t pid total : Int)
  | no_more_processes
  | deadlock
  deriving Repr, DecidableEq

/-- The text each trace line stands for (without the final newline). -/
def TraceLine.render : TraceLine → String
  | .runs t pid => s!"Time {t}: Process {pid} runs"
  | .idle t => s!"Time {t}: Processor is idle"
  | .disk_read t pid => s!"Time {t}: Process {pid} issues disk read request"
  | .disk_write t pid => s!"Time {t}: Process {pid} issues disk write request"
  | .keyboard_read t pid => s!"Time {t}: Process {pid} issues keyboard read request"
  | .disk_interrupt t pid => s!"Time {t}: Handled DISK_INTERRUPT for pid {pid}"
  | .keyboard_interrupt t pid => s!"Time {t}: Handled KEYBOARD_INTERRUPT for pid {pid}"
  | .sem_up t pid sem => s!"Time {t}: Process {pid} issues UP operation on semaphore {sem}"
  | .sem_down t pid sem => s!"Time {t}: Process {pid} issues DOWN operation on semaphore {sem}"
  | .fork t pid => s!"Time {t}: Creating process entry for pid {pid}"
  | .exits t pid total => s!"Time {t}: Process {pid} exits.  Total CPU time = {total}"
  | .no_more_processes => "-- No more processes to execute --"
  | .deadlock => "deadlock"

/-- A request issued to a device driver (`drivers.h`). -/
inductive DevReq where
  | disk_read_req (pid arg : Int)
  | disk_write_req (pid : Int)
  | keyboard_read_req (pid : Int)
  deriving Repr, DecidableEq

/-- The global variables of `kernel.c`, the harness variable `current_pid`, the heap
of queue cells, and the output produced so far. -/
structure KState where
  process_table : List PROCESS_TABLE_ENTRY
  idle_process_running : Bool
  heap : Heap
  rq : PID_QUEUE
  semaphores : List SEMAPHORE
  current_quantum_start_time : Int
  outstanding_requests : Int
  num_processes : Int
  current_pid : Int
  trace : List TraceLine
  devlog : List DevReq
  deriving Repr, DecidableEq

/-- Read `a[i]` for a C index `i`; `none` when `i` is outside the array. -/
def arrGet {α : Type} (a : List α) (i : Int) : Option α :=
  if 0 ≤ i then a[i.toNat]? else none

/-- Source `process_table[i].state = st`; `none` when `i` is outside the table. -/
def setState (tbl : List PROCESS_TABLE_ENTRY) (i : Int) (st : PROCESS_STATE) :
    Option (List PROCESS_TABLE_ENTRY) :=
  match arrGet tbl i with
  | none => none
  | some e => some (tbl.set i.toNat { e with state := st })

/-- Source `process_table[i].total_CPU_time_used += d`; `none` when `i` is outside the table. -/
def addTime (tbl : List PROCESS_TABLE_ENTRY) (i : Int) (d : Int) :
    Option (List PROCESS_TABLE_ENTRY) :=
  match arrGet tbl i with
  | none => none
  | some e => some (tbl.set i.toNat { e with total_CPU_time_used := e.total_CPU_time_used + d })

/-- Source `printf`: append a line to the trace. -/
def KState.printf (s : KState) (l : TraceLine) : KState :=
  { s with trace := s.trace ++ [l] }

/-! ## Dispatcher and semaphores -/

/-- Source `round_robin()` at time `clock`. -/
def round_robin (cfg : Config) (clock : Int) (s : KState) : Result KState :=
  match dequeue cfg.IDLE_PROCESS s.rq s.heap with
  | none => .fault .null_deref
  | some (pid, rq1) =>
    let s1 : KState := { s with rq := rq1, current_pid := pid }
    if pid = cfg.IDLE_PROCESS then
      if s1.outstanding_requests = 0 then
        .exit 1 (s1.printf .deadlock)
      else
        let s2 : KState := if s1.idle_process_running = false then s1.printf (.idle clock) else s1
        .ok { s2 with idle_process_running := true }
    else
      let s2 : KState := s1.printf (.runs clock pid)
      match setState s2.process_table pid .RUNNING with
      | none => .fault (.process_table pid)
      | some t =>
        .ok { s2 with idle_process_running := false, process_table := t,
                      current_quantum_start_time := clock }

/-- Source `up(sem)`. -/
def up (cfg : Config) (sem : Int) (s : KState) : Result KState :=
  match arrGet s.semaphores sem with
  | none => .fault (.semaphores sem)
  | some e =>
    if e.value = 0 then
      match e.q.head with
      | none => .ok { s with semaphores := s.semaphores.set sem.toNat { e with value := e.value + 1 } }
      | some _ =>
        match dequeue cfg.IDLE_PROCESS e.q s.heap with
        | none => .fault .null_deref
        | some (pid, q1) =>
          match setState s.process_table pid .READY with
          | none => .fault (.process_table pid)
          | some t =>
            match enqueue pid s.rq s.heap with
            | none => .fault .null_deref
            | some (rq1, h1) =>
              .ok { s with semaphores := s.semaphores.set sem.toNat { e with q := q1 },
                           process_table := t, rq := rq1, heap := h1 }
    else
      .ok { s with semaphores := s.semaphores.set sem.toNat { e with value := e.value + 1 } }

/-- Source `down(sem)` at time `clock`. -/
def down (cfg : Config) (clock : Int) (sem : Int) (s : KState) : Result KState :=
  match arrGet s.semaphores sem with
  | none => .fault (.semaphores sem)
  | some e =>
    if e.value = 0 then
      match setState s.process_table s.current_pid .BLOCKED with
      | none => .fault (.process_table s.current_pid)
      | some t1 =>
        match addTime t1 s.current_pid (clock - s.current_quantum_start_time) with
        | none => .fault (.process_table s.current_pid)
        | some t2 =>
          match enqueue s.current_pid e.q s.heap with
          | none => .fault .null_deref
          | some (q1, h1) =>
            round_robin cfg clock
              { s with process_table := t2, heap := h1,
                       semaphores := s.semaphores.set sem.toNat { e with q := q1 } }
    else
      .ok { s with semaphores := s.semaphores.set sem.toNat { e with value := e.value - 1 } }

/-! ## Interrupt handlers -/

/-- Source `handle_clock_interrupt()` at time `clock`. -/
def handle_clock_interrupt (cfg : Config) (clock : Int) (s : KState) : Result KState :=
  if clock - s.current_quantum_start_time ≥ QUANTUM then
    match addTime s.process_table s.current_pid (clock - s.current_quantum_start_time) with
    | none => .fault (.process_table s.current_pid)
    | some t1 =>
      match setState t1 s.current_pid .READY with
      | none => .fault (.process_table s.current_pid)
      | some t2 =>
        match enqueue s.current_pid s.rq s.heap with
        | none => .fault .null_deref
        | some (rq1, h1) =>
          round_robin cfg clock { s with process_table := t2, rq := rq1, heap := h1 }
  else
    .ok s

/-- Source `handle_disk_interrupt()` at time `clock` with operand `R1`. -/
def handle_disk_interrupt (cfg : Config) (clock R1 : Int) (s : KState) : Result KState :=
  let s1 : KState := { s with outstanding_requests := s.outstanding_requests - 1 }
  let s2 : KState := s1.printf (.disk_interrupt clock R1)
  match setState s2.process_table R1 .READY with
  | none => .fault (.process_table R1)
  | some t =>
    match enqueue R1 s2.rq s2.heap with
    | none => .fault .null_deref
    | some (rq1, h1) =>
      let s3 : KState := { s2 with process_table := t, rq := rq1, heap := h1 }
      if s3.current_pid = cfg.IDLE_PROCESS then round_robin cfg clock s3 else .ok s3

/-- Source `handle_keyboard_interrupt()` at time `clock` with operand `R1`. -/
def handle_keyboard_interrupt (cfg : Config) (clock R1 : Int) (s : KState) : Result KState :=
  let s1 : KState := { s with outstanding_requests := s.outstanding_requests - 1 }
  let s2 : KState := s1.printf (.keyboard_interrupt clock R1)
  match setState s2.process_table R1 .READY with
  | none => .fault (.process_table R1)
  | some t =>
    match enqueue R1 s2.rq s2.heap with
    | none => .fault .null_deref
    | some (rq1, h1) =>
      let s3 : KState := { s2 with process_table := t, rq := rq1, heap := h1 }
      if s3.current_pid = cfg.IDLE_PROCESS then round_robin cfg clock s3 else .ok s3

/-- Source `handle_trap()` at time `clock` with operands `R1`, `R2`, `R3`.  The `switch`
tries the case labels in source order and has no `default`. -/
def handle_trap (cfg : Config) (clock R1 R2 R3 : Int) (s : KState) : Result KState :=
  if R1 = cfg.DISK_READ then
    let s1 : KState := { s with outstanding_requests := s.outstanding_requests + 1 }
    let s2 : KState := s1.printf (.disk_read clock s1.current_pid)
    let s3 : KState := { s2 with devlog := s2.devlog ++ [.disk_read_req s2.current_pid R2] }
    match setState s3.process_table s3.current_pid .BLOCKED with
    | none => .fault (.process_table s3.current_pid)
    | some t1 =>
      match addTime t1 s3.current_pid (clock - s3.current_quantum_start_time) with
      | none => .fault (.process_table s3.current_pid)
      | some t2 => round_robin cfg clock { s3 with process_table := t2 }
  else if R1 = cfg.DISK_WRITE then
    let s1 : KState := s.printf (.disk_write clock s.current_pid)
    .ok { s1 with devlog := s1.devlog ++ [.disk_write_req s1.current_pid] }
  else if R1 = cfg.KEYBOARD_READ then
    let s1 : KState := { s with outstanding_requests := s.outstanding_requests + 1 }
    let s2 : KState := s1.printf (.keyboard_read clock s1.current_pid)
    let s3 : KState := { s2 with devlog := s2.devlog ++ [.keyboard_read_req s2.current_pid] }
    match setState s3.process_table s3.current_pid .BLOCKED with
    | none => .fault (.process_table s3.current_pid)
    | some t1 =>
      match addTime t1 s3.current_pid (clock - s3.current_quantum_start_time) with
      | none => .fault (.process_table s3.current_pid)
      | some t2 =>
        round_robin cfg clock { s3 with process_table := t2, current_quantum_start_time := clock }
  else if R1 = cfg.FORK_PROGRAM then
    let s1 : KState := { s with num_processes := s.num_processes + 1 }
    let s2 : KState := s1.printf (.fork clock R2)
    match setState s2.process_table R2 .READY with
    | none => .fault (.process_table R2)
    | some t =>
      match enqueue R2 s2.rq s2.heap with
      | none => .fault .null_deref
      | some (rq1, h1) => .ok { s2 with process_table := t, rq := rq1, heap := h1 }
  else if R1 = cfg.END_PROGRAM then
    let s1 : KState := { s with num_processes := s.num_processes - 1 }
    match addTime s1.process_table s1.current_pid (clock - s1.current_quantum_start_time) with
    | none => .fault (.process_table s1.current_pid)
    | some t1 =>
      let s2 : KState := { s1 with process_table := t1, current_quantum_start_time := clock }
      match arrGet s2.process_table s2.current_pid with
      | none => .fault (.process_table s2.current_pid)
      | some e =>
        let s3 : KState := s2.printf (.exits clock s2.current_pid e.total_CPU_time_used)
        if s3.num_processes = 0 then
          .exit 0 (s3.printf .no_more_processes)
        else
          match setState s3.process_table s3.current_pid .UNINITIALIZED with
          | none => .fault (.process_table s3.current_pid)
          | some t2 => round_robin cfg clock { s3 with process_table := t2 }
  else if R1 = cfg.SEMAPHORE_OP then
    if R3 ≠ 0 then
      up cfg R2 (s.printf (.sem_up clock s.current_pid R2))
    else
      down cfg clock R2 (s.printf (.sem_down clock s.current_pid R2))
  else
    .ok s

/-- Source `initialize_kernel()` at time `clock`; the harness has set `current_pid` to 0 and
the heap holds no queue cell yet. -/
def initialize_kernel (cfg : Config) (clock : Int) : Result KState :=
  let tbl : List PROCESS_TABLE_ENTRY :=
    List.replicate cfg.MAX_NUMBER_OF_PROCESSES { state := .UNINITIALIZED, total_CPU_time_used := 0 }
  match setState tbl 0 .RUNNING with
  | none => .fault (.process_table 0)
  | some t =>
    .ok { process_table := t
          idle_process_running := false
          heap := []
          rq := emptyQueue
          semaphores := List.replicate NUMBER_OF_SEMAPHORES
            { value := INITIAL_SEMAPHORE_VALUE, q := emptyQueue }
          current_quantum_start_time := clock
          outstanding_requests := 0
          num_processes := 1
          current_pid := 0
          trace := []
          devlog := [] }

/-! ## Runs -/

/-- An event delivered by the harness, with the operands it leaves in `R1..R3`. -/
inductive Event where
  | trap (R1 R2 R3 : Int)
  | clock_interrupt
  | disk_interrupt (R1 : Int)
  | keyboard_interrupt (R1 : Int)
  deriving Repr, DecidableEq

/-- The interrupt table filled by `initialize_kernel`: the handler of each event. -/
def deliver (cfg : Config) (clock : Int) (e : Event) (s : KState) : Result KState :=
  match e with
  | .trap R1 R2 R3 => handle_trap cfg clock R1 R2 R3 s
  | .clock_interrupt => handle_clock_interrupt cfg clock s
  | .disk_interrupt R1 => handle_disk_interrupt cfg clock R1 s
  | .keyboard_interrupt R1 => handle_keyboard_interrupt cfg clock R1 s

/-- Run a list of timed events, stopping at the first one that does not return. -/
def run (cfg : Config) : List (Int × Event) → KState → Result KState
  | [], s => .ok s
  | (clock, e) :: rest, s =>
    match deliver cfg clock e s with
    | .ok s1 => run cfg rest s1
    | r => r

/-- Boot, then run a list of timed events. -/
def bootAndRun (cfg : Config) (clock0 : Int) (evs : List (Int × Event)) : Result KState :=
  match initialize_kernel cfg clock0 with
  | .ok s => run cfg evs s
  | r => r

/-- The states reachable from boot by handler invocations that return normally and
whose events satisfy `adm` in the state they are delivered to. -/
inductive ReachableVia (cfg : Config) (adm : KState → Int → Event → Prop) : KState → Prop where
  | boot (clock : Int) (s : KState) :
      initialize_kernel cfg clock = .ok s → ReachableVia cfg adm s
  | step (s : KState) (clock : Int) (e : Event) (s1 : KState) :
      ReachableVia cfg adm s → adm s clock e → deliver cfg clock e s = .ok s1 →
      ReachableVia cfg adm s1

/-- The states reachable from boot by any handler invocations. -/
def Reachable (cfg : Config) : KState → Prop :=
  ReachableVia cfg (fun _ _ _ => True)

/-- The case labels of `handle_trap` are pairwise different (a C `switch` does not
compile otherwise). -/
def Config.distinctOpcodes (cfg : Config) : Prop :=
  [cfg.DISK_READ, cfg.DISK_WRITE, cfg.KEYBOARD_READ, cfg.FORK_PROGRAM, cfg.END_PROGRAM,
    cfg.SEMAPHORE_OP].Nodup

/-- The idle sentinel is not an index of the process table. -/
def Config.idleOutside (cfg : Config) : Prop :=
  ¬ (0 ≤ cfg.IDLE_PROCESS ∧ cfg.IDLE_PROCESS < cfg.MAX_NUMBER_OF_PROCESSES)

instance (cfg : Config) : Decidable cfg.distinctOpcodes := by
  unfold Config.distinctOpcodes; infer_instance

instance (cfg : Config) : Decidable cfg.idleOutside := by
  unfold Config.idleOutside; infer_instance

/-- A configuration used in examples: 4 table entries, sentinel 99, opcodes 0..5. -/
def cfg0 : Config :=
  { MAX_NUMBER_OF_PROCESSES := 4, IDLE_PROCESS := 99, DISK_READ := 0, DISK_WRITE := 1,
    KEYBOARD_READ := 2, FORK_PROGRAM := 3, END_PROGRAM := 4, SEMAPHORE_OP := 5 }

/-! ## List-level view

The same kernel with every queue replaced by the list of PIDs it holds.  The
theorems `*_view` below show that, on states whose queues are well-formed linked
lists (`WF`), each handler of the code acts on the view exactly as its list-level
counterpart; the invariants are then proved on lists. -/

namespace Abs

/-- A semaphore seen as its value and the list of waiting PIDs. -/
structure Sem where
  value : Int
  waiting : List Int
  deriving Repr, DecidableEq

/-- The kernel state with list-valued queues and no heap. -/
structure State where
  process_table : List PROCESS_TABLE_ENTRY
  idle_process_running : Bool
  rq : List Int
  semaphores : List Sem
  current_quantum_start_time : Int
  outstanding_requests : Int
  num_processes : Int
  current_pid : Int
  trace : List TraceLine
  devlog : List DevReq
  deriving Repr, DecidableEq

/-- List-level `printf`. -/
def State.printf (s : State) (l : TraceLine) : State :=
  { s with trace := s.trace ++ [l] }

/-- List-level `round_robin`. -/
def round_robin (cfg : Config) (clock : Int) (s : State) : Result State :=
  let pid := (s.rq.head?).getD cfg.IDLE_PROCESS
  let s1 : State := { s with rq := s.rq.tail, current_pid := pid }
  if pid = cfg.IDLE_PROCESS then
    if s1.outstanding_requests = 0 then
      .exit 1 (s1.printf .deadlock)
    else
      let s2 : State := if s1.idle_process_running = false then s1.printf (.idle clock) else s1
      .ok { s2 with idle_process_running := true }
  else
    let s2 : State := s1.printf (.runs clock pid)
    match setState s2.process_table pid .RUNNING with
    | none => .fault (.process_table pid)
    | some t =>
      .ok { s2 with idle_process_running := false, process_table := t,
                    current_quantum_start_time := clock }

/-- List-level `up`. -/
def up (sem : Int) (s : State) : Result State :=
  match arrGet s.semaphores sem with
  | none => .fault (.semaphores sem)
  | some e =>
    if e.value = 0 then
      match e.waiting with
      | [] => .ok { s with semaphores := s.semaphores.set sem.toNat { e with value := e.value + 1 } }
      | pid :: rest =>
        match setState s.process_table pid .READY with
        | none => .fault (.process_table pid)
        | some t =>
          .ok { s with semaphores := s.semaphores.set sem.toNat { e with waiting := rest },
                       process_table := t, rq := s.rq ++ [pid] }
    else
      .ok { s with semaphores := s.semaphores.set sem.toNat { e with value := e.value + 1 } }

/-- List-level `down`. -/
def down (cfg : Config) (clock : Int) (sem : Int) (s : State) : Result State :=
  match arrGet s.semaphores sem with
  | none => .fault (.semaphores sem)
  | some e =>
    if e.value = 0 then
      match setState s.process_table s.current_pid .BLOCKED with
      | none => .fault (.process_table s.current_pid)
      | some t1 =>
        match addTime t1 s.current_pid (clock - s.current_quantum_start_time) with
        | none => .fault (.process_table s.current_pid)
        | some t2 =>
          round_robin cfg clock
            { s with process_table := t2,
                     semaphores := s.semaphores.set sem.toNat
                       { e with waiting := e.waiting ++ [s.current_pid] } }
    else
      .ok { s with semaphores := s.semaphores.set sem.toNat { e with value := e.value - 1 } }

/-- List-level `handle_clock_interrupt`. -/
def handle_clock_interrupt (cfg : Config) (clock : Int) (s : State) : Result State :=
  if clock - s.current_quantum_start_time ≥ QUANTUM then
    match addTime s.process_table s.current_pid (clock - s.current_quantum_start_time) with
    | none => .fault (.process_table s.current_pid)
    | some t1 =>
      match setState t1 s.current_pid .READY with
      | none => .fault (.process_table s.current_pid)
      | some t2 =>
        round_robin cfg clock { s with process_table := t2, rq := s.rq ++ [s.current_pid] }
  else
    .ok s

/-- List-level device-completion handler; `line` is the trace line of the device. -/
def handle_device_interrupt (cfg : Config) (clock R1 : Int) (line : TraceLine) (s : State) :
    Result State :=
  let s1 : State := { s with outstanding_requests := s.outstanding_requests - 1 }
  let s2 : State := s1.printf line
  match setState s2.process_table R1 .READY with
  | none => .fault (.process_table R1)
  | some t =>
    let s3 : State := { s2 with process_table := t, rq := s2.rq ++ [R1] }
    if s3.current_pid = cfg.IDLE_PROCESS then round_robin cfg clock s3 else .ok s3

/-- List-level `handle_disk_interrupt`. -/
def handle_disk_interrupt (cfg : Config) (clock R1 : Int) (s : State) : Result State :=
  handle_device_interrupt cfg clock R1 (.disk_interrupt clock R1) s

/-- List-level `handle_keyboard_interrupt`. -/
def handle_keyboard_interrupt (cfg : Config) (clock R1 : Int) (s : State) : Result State :=
  handle_device_interrupt cfg clock R1 (.keyboard_interrupt clock R1) s

/-- List-level `handle_trap`. -/
def handle_trap (cfg : Config) (clock R1 R2 R3 : Int) (s : State) : Result State :=
  if R1 = cfg.DISK_READ then
    let s1 : State := { s with outstanding_requests := s.outstanding_requests + 1 }
    let s2 : State := s1.printf (.disk_read clock s1.current_pid)
    let s3 : State := { s2 with devlog := s2.devlog ++ [.disk_read_req s2.current_pid R2] }
    match setState s3.process_table s3.current_pid .BLOCKED with
    | none => .fault (.process_table s3.current_pid)
    | some t1 =>
      match addTime t1 s3.current_pid (clock - s3.current_quantum_start_time) with
      | none => .fault (.process_table s3.current_pid)
      | some t2 => round_robin cfg clock { s3 with process_table := t2 }
  else if R1 = cfg.DISK_WRITE then
    let s1 : State := s.printf (.disk_write clock s.current_pid)
    .ok { s1 with devlog := s1.devlog ++ [.disk_write_req s1.current_pid] }
  else if R1 = cfg.KEYBOARD_READ then
    let s1 : State := { s with outstanding_requests := s.outstanding_requests + 1 }
    let s2 : State := s1.printf (.keyboard_read clock s1.current_pid)
    let s3 : State := { s2 with devlog := s2.devlog ++ [.keyboard_read_req s2.current_pid] }
    match setState s3.process_table s3.current_pid .BLOCKED with
    | none => .fault (.process_table s3.current_pid)
    | some t1 =>
      match addTime t1 s3.current_pid (clock - s3.current_quantum_start_time) with
      | none => .fault (.process_table s3.current_pid)
      | some t2 =>
        round_robin cfg clock { s3 with process_table := t2, current_quantum_start_time := clock }
  else if R1 = cfg.FORK_PROGRAM then
    let s1 : State := { s with num_processes := s.num_processes + 1 }
    let s2 : State := s1.printf (.fork clock R2)
    match setState s2.process_table R2 .READY with
    | none => .fault (.process_table R2)
    | some t => .ok { s2 with process_table := t, rq := s2.rq ++ [R2] }
  else if R1 = cfg.END_PROGRAM then
    let s1 : State := { s with num_processes := s.num_processes - 1 }
    match addTime s1.process_table s1.current_pid (clock - s1.current_quantum_start_time) with
    | none => .fault (.process_table s1.current_pid)
    | some t1 =>
      let s2 : State := { s1 with process_table := t1, current_quantum_start_time := clock }
      match arrGet s2.process_table s2.current_pid with
      | none => .fault (.process_table s2.current_pid)
      | some e =>
        let s3 : State := s2.printf (.exits clock s2.current_pid e.total_CPU_time_used)
        if s3.num_processes = 0 then
          .exit 0 (s3.printf .no_more_processes)
        else
          match setState s3.process_table s3.current_pid .UNINITIALIZED with
          | none => .fault (.process_table s3.current_pid)
          | some t2 => round_robin cfg clock { s3 with process_table := t2 }
  else if R1 = cfg.SEMAPHORE_OP then
    if R3 ≠ 0 then
      up R2 (s.printf (.sem_up clock s.current_pid R2))
    else
      down cfg clock R2 (s.printf (.sem_down clock s.current_pid R2))
  else
    .ok s

/-- List-level `deliver`. -/
def deliver (cfg : Config) (clock : Int) (e : Event) (s : State) : Result State :=
  match e with
  | .trap R1 R2 R3 => handle_trap cfg clock R1 R2 R3 s
  | .clock_interrupt => handle_clock_interrupt cfg clock s
  | .disk_interrupt R1 => handle_disk_interrupt cfg clock R1 s
  | .keyboard_interrupt R1 => handle_keyboard_interrupt cfg clock R1 s

end Abs

/-- The semaphores with each wait queue read off the heap. -/
def semView (h : Heap) (sems : List SEMAPHORE) : List Abs.Sem :=
  sems.map (fun e => { value := e.value, waiting := contents h e.q })

/-- The list-level view of a kernel state. -/
def view (s : KState) : Abs.State :=
  { process_table := s.process_table
    idle_process_running := s.idle_process_running
    rq := contents s.heap s.rq
    semaphores := semView s.heap s.semaphores
    current_quantum_start_time := s.current_quantum_start_time
    outstanding_requests := s.outstanding_requests
    num_processes := s.num_processes
    current_pid := s.current_pid
    trace := s.trace
    devlog := s.devlog }

/-- The ready queue and the semaphore queues are well-formed linked lists over the
heap `h`, and no two of them share a cell. -/
def WFq (h : Heap) (rq : PID_QUEUE) (sems : List SEMAPHORE) : Prop :=
  ∃ (rc : List (Nat × Int)) (own : Nat → List (Nat × Int)),
    Rep h rq rc ∧ (∀ i e, sems[i]? = some e → Rep h e.q (own i)) ∧
    (∀ i, sems.length ≤ i → own i = []) ∧
    (∀ i, ∀ c ∈ own i, ∀ d ∈ rc, c.1 ≠ d.1) ∧
    (∀ i j, i ≠ j → ∀ c ∈ own i, ∀ d ∈ own j, c.1 ≠ d.1)

/-- Well-formedness of the queues of a kernel state. -/
def WF (s : KState) : Prop := WFq s.heap s.rq s.semaphores

/-- The ready queue of a state, as a list of PIDs. -/
def readyQueue (s : KState) : List Int := contents s.heap s.rq

/-- The wait queue of semaphore `i`, as a list of PIDs (empty when `i` is out of range). -/
def waitQueue (s : KState) (i : Int) : List Int :=
  match arrGet s.semaphores i with
  | none => []
  | some e => contents s.heap e.q

/-- The value of semaphore `i` (when `i` is in range). -/
def semValue (s : KState) (i : Int) : Option Int :=
  (arrGet s.semaphores i).map (fun e => e.value)

/-- The state of process `i` (when `i` is in the table). -/
def procState (s : KState) (i : Int) : Option PROCESS_STATE :=
  (arrGet s.process_table i).map (fun e => e.state)

/-- The accumulated CPU time of process `i` (when `i` is in the table). -/
def cpuTime (s : KState) (i : Int) : Option Int :=
  (arrGet s.process_table i).map (fun e => e.total_CPU_time_used)

/-! ## Properties of states and runs -/

/-- Every semaphore has a non-negative value, and a positive value only with an
empty wait queue (list-level state). -/
def Abs.SemInv (a : Abs.State) : Prop :=
  ∀ e ∈ a.semaphores, 0 ≤ e.value ∧ (0 < e.value → e.waiting = [])

/-- Every `RUNNING` entry of the table `tbl` sits at index `cur`. -/
def RunningIsCurrent (tbl : List PROCESS_TABLE_ENTRY) (cur : Int) : Prop :=
  ∀ i e, arrGet tbl i = some e → e.state = .RUNNING → i = cur

/-- Every `RUNNING` entry is the current process, and the table has its boot size
(list-level state). -/
def Abs.RunInv (cfg : Config) (a : Abs.State) : Prop :=
  RunningIsCurrent a.process_table a.current_pid ∧
    a.process_table.length = cfg.MAX_NUMBER_OF_PROCESSES

/-- No entry of the table `tbl` is `RUNNING`. -/
def NoRunning (tbl : List PROCESS_TABLE_ENTRY) : Prop :=
  ∀ i e, arrGet tbl i = some e → e.state ≠ .RUNNING

/-- Two states agree on everything but the trace, the device log and
`current_quantum_start_time`. -/
def sameSched (a b : KState) : Prop :=
  a.process_table = b.process_table ∧ a.heap = b.heap ∧ a.rq = b.rq ∧
    a.semaphores = b.semaphores ∧ a.outstanding_requests = b.outstanding_requests ∧
    a.num_processes = b.num_processes ∧ a.idle_process_running = b.idle_process_running ∧
    a.current_pid = b.current_pid

/-- Events whose semaphore id, if they carry one, lies in `0..15`. -/
def semIdsInRange (cfg : Config) : KState → Int → Event → Prop
  | _, _, .trap R1 R2 _ => R1 = cfg.SEMAPHORE_OP → 0 ≤ R2 ∧ R2 < NUMBER_OF_SEMAPHORES
  | _, _, _ => True

/-- Events whose PID operand, if they carry one, is an index of the process table
and whose semaphore id, if they carry one, lies in `0..15`. -/
def operandsInRange (cfg : Config) : KState → Int → Event → Prop
  | _, _, .trap R1 R2 _ =>
    (R1 = cfg.SEMAPHORE_OP → 0 ≤ R2 ∧ R2 < NUMBER_OF_SEMAPHORES) ∧
      (R1 = cfg.FORK_PROGRAM → 0 ≤ R2 ∧ R2 < cfg.MAX_NUMBER_OF_PROCESSES)
  | _, _, .disk_interrupt R1 => 0 ≤ R1 ∧ R1 < cfg.MAX_NUMBER_OF_PROCESSES
  | _, _, .keyboard_interrupt R1 => 0 ≤ R1 ∧ R1 < cfg.MAX_NUMBER_OF_PROCESSES
  | _, _, .clock_interrupt => True

/-- The states `handle_disk_interrupt` passes through, statement by statement (source
lines 192 to 199), up to the first undefined access: after `outstanding_requests--`,
after the `printf`, after the table write, after `enqueue`, and after `round_robin`
when it is called. -/
def handle_disk_interrupt_points (cfg : Config) (clock R1 : Int) (s : KState) : List KState :=
  let s1 : KState := { s with outstanding_requests := s.outstanding_requests - 1 }
  let s2 : KState := s1.printf (.disk_interrupt clock R1)
  match setState s2.process_table R1 .READY with
  | none => [s1, s2]
  | some t =>
    let s3 : KState := { s2 with process_table := t }
    match enqueue R1 s3.rq s3.heap with
    | none => [s1, s2, s3]
    | some (rq1, h1) =>
      let s4 : KState := { s3 with rq := rq1, heap := h1 }
      if s4.current_pid = cfg.IDLE_PROCESS then
        match round_robin cfg clock s4 with
        | .ok s5 => [s1, s2, s3, s4, s5]
        | .exit _ s5 => [s1, s2, s3, s4, s5]
        | .fault _ => [s1, s2, s3, s4]
      else [s1, s2, s3, s4]

/-- The six case labels of `handle_trap`. -/
def Config.opcodes (cfg : Config) : List Int :=
  [cfg.DISK_READ, cfg.DISK_WRITE, cfg.KEYBOARD_READ, cfg.FORK_PROGRAM, cfg.END_PROGRAM,
    cfg.SEMAPHORE_OP]

/-! ## Example states (configuration `cfg0`) -/

/-- The semaphores at boot. -/
def exSems : List SEMAPHORE :=
  List.replicate NUMBER_OF_SEMAPHORES { value := INITIAL_SEMAPHORE_VALUE, q := emptyQueue }

/-- The state after boot at time 0. -/
def exBoot : KState :=
  { process_table := [⟨.RUNNING, 0⟩, ⟨.UNINITIALIZED, 0⟩, ⟨.UNINITIALIZED, 0⟩, ⟨.UNINITIALIZED, 0⟩]
    idle_process_running := false
    heap := []
    rq := emptyQueue
    semaphores := exSems
    current_quantum_start_time := 0
    outstanding_requests := 0
    num_processes := 1
    current_pid := 0
    trace := []
    devlog := [] }

/-- State `exBoot` after process 0 has forked process 1 at time 0. -/
def exFork : KState :=
  { exBoot with
    process_table := [⟨.RUNNING, 0⟩, ⟨.READY, 0⟩, ⟨.UNINITIALIZED, 0⟩, ⟨.UNINITIALIZED, 0⟩]
    heap := [⟨none, 1⟩]
    rq := ⟨some 0, some 0⟩
    num_processes := 2
    trace := [.fork 0 1] }

/-- State `exFork` after process 0 has done `down(3)` at time 5 (semaphore 3 drops to 0). -/
def exDown : KState :=
  { exFork with
    semaphores := exSems.set 3 { value := 0, q := emptyQueue }
    trace := [.fork 0 1, .sem_down 5 0 3] }

/-- State `exDown` after process 0 has done `down(3)` again at time 10: it is blocked on
semaphore 3 and process 1 runs. -/
def exBlocked : KState :=
  { exDown with
    process_table := [⟨.BLOCKED, 10⟩, ⟨.RUNNING, 0⟩, ⟨.UNINITIALIZED, 0⟩, ⟨.UNINITIALIZED, 0⟩]
    heap := [⟨none, 1⟩, ⟨none, 0⟩]
    rq := ⟨none, some 0⟩
    semaphores := exSems.set 3 { value := 0, q := ⟨some 1, some 1⟩ }
    current_quantum_start_time := 10
    current_pid := 1
    trace := [.fork 0 1, .sem_down 5 0 3, .sem_down 10 0 3, .runs 10 1] }

/-- State `exBoot` after process 0 has issued `DISK_READ` at time 7: the processor is idle
with one request outstanding. -/
def exIdle : KState :=
  { exBoot with
    process_table := [⟨.BLOCKED, 7⟩, ⟨.UNINITIALIZED, 0⟩, ⟨.UNINITIALIZED, 0⟩, ⟨.UNINITIALIZED, 0⟩]
    idle_process_running := true
    outstanding_requests := 1
    current_pid := 99
    trace := [.disk_read 7 0, .idle 7]
    devlog := [.disk_read_req 0 0] }

/-! ## Admissible events, and the invariants of proper runs -/

/-- The state of each table index, as a function (`none` outside the table). -/
def stateFn (tbl : List PROCESS_TABLE_ENTRY) (i : Int) : Option PROCESS_STATE :=
  (arrGet tbl i).map (fun e => e.state)

/-- The number of table entries whose state is not `UNINITIALIZED`. -/
def liveCount (tbl : List PROCESS_TABLE_ENTRY) : Int :=
  ((tbl.filter (fun e => decide (e.state ≠ .UNINITIALIZED))).length : Int)

/-- One step of the scan for `pendingRequest`: a read request of `p` opens a pending
request, a completion for `p` closes it. -/
def pendingStep (p : Int) (b : Bool) : TraceLine → Bool
  | .disk_read _ q => if q = p then true else b
  | .keyboard_read _ q => if q = p then true else b
  | .disk_interrupt _ q => if q = p then false else b
  | .keyboard_interrupt _ q => if q = p then false else b
  | _ => b

/-- Process `p` has issued a disk or keyboard read that has not completed yet, as
recorded by the trace `tr`. -/
def pendingRequest (tr : List TraceLine) (p : Int) : Bool :=
  tr.foldl (pendingStep p) false

/-- A `FORK_PROGRAM` trap names an in-range PID whose entry is `UNINITIALIZED`. -/
def forkNamesUninit (cfg : Config) (tbl : List PROCESS_TABLE_ENTRY) : Event → Prop
  | .trap R1 R2 _ => R1 = cfg.FORK_PROGRAM → stateFn tbl R2 = some .UNINITIALIZED
  | _ => True

/-- A completion interrupt names a process that is `BLOCKED` on a read request it
issued and that has not completed yet. -/
def completionNamesPending (tbl : List PROCESS_TABLE_ENTRY) (tr : List TraceLine) :
    Event → Prop
  | .disk_interrupt R1 => stateFn tbl R1 = some .BLOCKED ∧ pendingRequest tr R1 = true
  | .keyboard_interrupt R1 => stateFn tbl R1 = some .BLOCKED ∧ pendingRequest tr R1 = true
  | _ => True

/-- A trap is issued while `current_pid` is a `RUNNING` process. -/
def trapByRunning (tbl : List PROCESS_TABLE_ENTRY) (cur : Int) : Event → Prop
  | .trap _ _ _ => stateFn tbl cur = some .RUNNING
  | _ => True

/-- Admissible events of C13: forks name an uninitialized in-range PID, completions
name a process blocked on a pending request. -/
def readyQueueUse (cfg : Config) (s : KState) (_clock : Int) (e : Event) : Prop :=
  forkNamesUninit cfg s.process_table e ∧ completionNamesPending s.process_table s.trace e

/-- Admissible events of C20: those of `readyQueueUse`, with every trap issued by the
running process. -/
def properUse (cfg : Config) (s : KState) (_clock : Int) (e : Event) : Prop :=
  forkNamesUninit cfg s.process_table e ∧ completionNamesPending s.process_table s.trace e ∧
    trapByRunning s.process_table s.current_pid e

/-- Admissible events of C17 as stated: forks name an uninitialized in-range PID and
every trap is issued by the running process; completions are not restricted. -/
def liveCountUse (cfg : Config) (s : KState) (_clock : Int) (e : Event) : Prop :=
  forkNamesUninit cfg s.process_table e ∧ trapByRunning s.process_table s.current_pid e

/-- The queue discipline, over a state function `σ`, a ready queue, the semaphores
and a trace: queued PIDs are `READY` and distinct; waiting PIDs are `BLOCKED`, distinct
within a wait queue and across wait queues; a process with a pending read request is
`BLOCKED` and on no wait queue. -/
def QInv (σ : Int → Option PROCESS_STATE) (rq : List Int) (sems : List Abs.Sem)
    (tr : List TraceLine) : Prop :=
  (∀ p ∈ rq, σ p = some .READY) ∧ rq.Nodup ∧
    (∀ e ∈ sems, ∀ w ∈ e.waiting, σ w = some .BLOCKED) ∧
    (∀ e ∈ sems, e.waiting.Nodup) ∧
    (∀ (i j : Nat) (ei ej : Abs.Sem), i ≠ j → sems[i]? = some ei → sems[j]? = some ej →
      ∀ w ∈ ei.waiting, w ∉ ej.waiting) ∧
    (∀ p, pendingRequest tr p = true → σ p = some .BLOCKED ∧ ∀ e ∈ sems, p ∉ e.waiting)

/-- The invariant of proper runs (list-level state): the queue discipline, the
current process is the idle sentinel or `RUNNING`, the table has its boot size, and
`num_processes` counts the live entries. -/
def Abs.QueueInv (cfg : Config) (a : Abs.State) : Prop :=
  QInv (stateFn a.process_table) a.rq a.semaphores a.trace ∧
    (a.current_pid = cfg.IDLE_PROCESS ∨ stateFn a.process_table a.current_pid = some .RUNNING) ∧
    a.process_table.length = cfg.MAX_NUMBER_OF_PROCESSES ∧
    a.num_processes = liveCount a.process_table

/-- The invariant behind C18 (list-level state): two idle lines of the trace have a
"runs" line between them; while the idle flag is clear every idle line is followed
by a "runs" line; and the flag is set exactly when `current_pid` is the sentinel. -/
def Abs.IdleInv (cfg : Config) (a : Abs.State) : Prop :=
  (∀ (i j : Nat) (t u : Int), i < j → a.trace[i]? = some (.idle t) →
      a.trace[j]? = some (.idle u) →
      ∃ (k : Nat) (v pid : Int), i < k ∧ k < j ∧ a.trace[k]? = some (.runs v pid)) ∧
    (a.idle_process_running = false → ∀ (i : Nat) (t : Int), a.trace[i]? = some (.idle t) →
      ∃ (k : Nat) (v pid : Int), i < k ∧ a.trace[k]? = some (.runs v pid)) ∧
    (a.idle_process_running = true ↔ a.current_pid = cfg.IDLE_PROCESS)

theorem Seg_lt {h : Heap} : ∀ {cs : List (Nat × Int)} {p : Option Nat}, Seg h p cs →
    ∀ c ∈ cs, c.1 < h.length := by
  intro cs
  induction cs with
  | nil => intro p _ c hc; simp at hc
  | cons c0 rest ih =>
    obtain ⟨a, x⟩ := c0
    intro p hs c hc
    obtain ⟨_, hpid, _, hrest⟩ := hs
    rcases List.mem_cons.1 hc with rfl | hc
    · by_contra hlt
      have : h[a]? = none := List.getElem?_eq_none (by omega)
      simp [this] at hpid
    · exact ih hrest c hc

theorem Seg_ge {h : Heap} : ∀ {cs : List (Nat × Int)} {a : Nat}, Seg h (some a) cs →
    ∀ c ∈ cs, a ≤ c.1 := by
  intro cs
  induction cs with
  | nil => intro a _ c hc; simp at hc
  | cons c0 rest ih =>
    obtain ⟨a0, x⟩ := c0
    intro a hs c hc
    obtain ⟨hp, _, hinc, hrest⟩ := hs
    have ha : a = a0 := by simpa using hp
    subst ha
    rcases List.mem_cons.1 hc with rfl | hc
    · exact le_refl _
    · cases hn : (h[a]?).bind (fun c => c.next) with
      | none =>
        rw [hn] at hrest
        cases rest with
        | nil => simp at hc
        | cons c1 r => obtain ⟨a1, x1⟩ := c1; exact absurd hrest.1 (by simp)
      | some b =>
        rw [hn] at hrest
        have := ih hrest c hc
        have := hinc b hn
        omega

theorem Seg_length {h : Heap} : ∀ {cs : List (Nat × Int)} {a : Nat}, Seg h (some a) cs →
    cs.length + a ≤ h.length := by
  intro cs
  induction cs with
  | nil => intro a hs; exact absurd hs (by simp [Seg])
  | cons c0 rest ih =>
    obtain ⟨a0, x⟩ := c0
    intro a hs
    have hlt := Seg_lt hs (a0, x) (List.mem_cons_self _ _)
    obtain ⟨hp, _, hinc, hrest⟩ := hs
    have ha : a = a0 := by simpa using hp
    subst ha
    cases hn : (h[a]?).bind (fun c => c.next) with
    | none =>
      rw [hn] at hrest
      cases rest with
      | nil => simp at hlt ⊢; omega
      | cons c1 r => obtain ⟨a1, x1⟩ := c1; exact absurd hrest.1 (by simp)
    | some b =>
      rw [hn] at hrest
      have := ih hrest
      have := hinc b hn
      simp only [List.length_cons]
      omega

theorem Seg_length_le {h : Heap} {cs : List (Nat × Int)} {p : Option Nat} (hs : Seg h p cs) :
    cs.length ≤ h.length := by
  cases p with
  | none =>
    cases cs with
    | nil => simp
    | cons c r => obtain ⟨a, x⟩ := c; exact absurd hs.1 (by simp)
  | some a => have := Seg_length hs; omega

theorem pidsFrom_of_Seg {h : Heap} : ∀ {cs : List (Nat × Int)} {p : Option Nat} {fuel : Nat},
    Seg h p cs → cs.length ≤ fuel → pidsFrom h fuel p = cs.map Prod.snd := by
  intro cs
  induction cs with
  | nil =>
    intro p fuel hs _
    have : p = none := hs
    subst this
    cases fuel <;> simp [pidsFrom]
  | cons c0 rest ih =>
    obtain ⟨a, x⟩ := c0
    intro p fuel hs hf
    obtain ⟨hp, hpid, _, hrest⟩ := hs
    subst hp
    cases fuel with
    | zero => simp at hf
    | succ fuel =>
      cases hc : h[a]? with
      | none => simp [hc] at hpid
      | some c =>
        simp only [hc, Option.map_some', Option.some.injEq] at hpid
        simp only [hc, Option.some_bind] at hrest
        simp only [pidsFrom, hc, List.map_cons, hpid]
        rw [ih hrest (by simpa using hf)]

theorem contents_of_Rep {h : Heap} {q : PID_QUEUE} {cs : List (Nat × Int)} (hr : Rep h q cs) :
    contents h q = cs.map Prod.snd :=
  pidsFrom_of_Seg hr.1 (Seg_length_le hr.1)

theorem Seg_unique {h : Heap} : ∀ {cs cs' : List (Nat × Int)} {p : Option Nat},
    Seg h p cs → Seg h p cs' → cs = cs' := by
  intro cs
  induction cs with
  | nil =>
    intro cs' p hs hs'
    have : p = none := hs
    subst this
    cases cs' with
    | nil => rfl
    | cons c r => obtain ⟨a, x⟩ := c; exact absurd hs'.1 (by simp)
  | cons c0 rest ih =>
    obtain ⟨a, x⟩ := c0
    intro cs' p hs hs'
    obtain ⟨hp, hpid, _, hrest⟩ := hs
    subst hp
    cases cs' with
    | nil => exact absurd hs' (by simp [Seg])
    | cons c r =>
      obtain ⟨a', x'⟩ := c
      obtain ⟨hp', hpid', _, hrest'⟩ := hs'
      have ha : a = a' := by simpa using hp'
      subst ha
      have hx : x = x' := by rw [hpid] at hpid'; simpa using hpid'
      subst hx
      rw [ih hrest hrest']

theorem Seg_append_heap {h : Heap} (l : Heap) : ∀ {cs : List (Nat × Int)} {p : Option Nat},
    Seg h p cs → Seg (h ++ l) p cs := by
  intro cs
  induction cs with
  | nil => intro p hs; exact hs
  | cons c0 rest ih =>
    obtain ⟨a, x⟩ := c0
    intro p hs
    have hlt := Seg_lt hs (a, x) (List.mem_cons_self _ _)
    obtain ⟨hp, hpid, hinc, hrest⟩ := hs
    have hget : (h ++ l)[a]? = h[a]? := List.getElem?_append_left hlt
    refine ⟨hp, ?_, ?_, ?_⟩
    · rw [hget]; exact hpid
    · rw [hget]; exact hinc
    · rw [hget]; exact ih hrest

theorem Seg_set_frame {h : Heap} (t : Nat) (v : PID_QUEUE_ELT) :
    ∀ {cs : List (Nat × Int)} {p : Option Nat},
    Seg h p cs → (∀ c ∈ cs, c.1 ≠ t) → Seg (h.set t v) p cs := by
  intro cs
  induction cs with
  | nil => intro p hs _; exact hs
  | cons c0 rest ih =>
    obtain ⟨a, x⟩ := c0
    intro p hs hne
    obtain ⟨hp, hpid, hinc, hrest⟩ := hs
    have hat : t ≠ a := fun e => hne (a, x) (List.mem_cons_self _ _) e.symm
    have hget : (h.set t v)[a]? = h[a]? := List.getElem?_set_ne hat
    refine ⟨hp, ?_, ?_, ?_⟩
    · rw [hget]; exact hpid
    · rw [hget]; exact hinc
    · rw [hget]; exact ih hrest (fun c hc => hne c (List.mem_cons_of_mem _ hc))

theorem Seg_snoc {h : Heap} (pid : Int) (t : Nat) (c : PID_QUEUE_ELT)
    (hc : (h ++ [({ next := none, pid := pid } : PID_QUEUE_ELT)])[t]? = some c) :
    ∀ {cs : List (Nat × Int)} {p : Option Nat}, Seg h p cs →
    (cs.getLast?).map Prod.fst = some t →
    Seg ((h ++ [({ next := none, pid := pid } : PID_QUEUE_ELT)]).set t
      { c with next := some h.length }) p (cs ++ [(h.length, pid)]) := by
  intro cs
  induction cs with
  | nil => intro p _ hl; simp at hl
  | cons c0 rest ih =>
    obtain ⟨a, x⟩ := c0
    intro p hs hl
    have hlt := Seg_lt hs (a, x) (List.mem_cons_self _ _)
    have hs0 := hs
    obtain ⟨hp, hpid, hinc, hrest⟩ := hs
    have hga : (h ++ [({ next := none, pid := pid } : PID_QUEUE_ELT)])[a]? = h[a]? :=
      List.getElem?_append_left hlt
    cases rest with
    | nil =>
      have hta : a = t := by simpa using hl
      subst hta
      have hnone : (h[a]?).bind (fun c => c.next) = none := hrest
      have hlen : (h ++ [({ next := none, pid := pid } : PID_QUEUE_ELT)]).length = h.length + 1 := by
        simp
      have hget : ((h ++ [({ next := none, pid := pid } : PID_QUEUE_ELT)]).set a
          { c with next := some h.length })[a]? = some { c with next := some h.length } := by
        rw [List.getElem?_set_self (by omega)]
      have hgl : ((h ++ [({ next := none, pid := pid } : PID_QUEUE_ELT)]).set a
          { c with next := some h.length })[h.length]? = some { next := none, pid := pid } := by
        rw [List.getElem?_set_ne (by omega)]
        simp
      rw [hga] at hc
      refine ⟨hp, ?_, ?_, ?_⟩
      · rw [hget]; rw [hc] at hpid; simpa using hpid
      · rw [hget]; intro b hb; simp at hb; omega
      · rw [hget]
        show Seg _ (some h.length) [(h.length, pid)]
        refine ⟨rfl, ?_, ?_, ?_⟩
        · rw [hgl]; rfl
        · rw [hgl]; intro b hb; simp at hb
        · rw [hgl]; rfl
    | cons c1 r =>
      obtain ⟨a1, x1⟩ := c1
      have hl' : (((a1, x1) :: r).getLast?).map Prod.fst = some t := by
        simpa [List.getLast?_cons_cons] using hl
      have hb : (h[a]?).bind (fun c => c.next) = some a1 := hrest.1
      have hab := hinc a1 hb
      -- the last cell lies at or after a1, hence differs from a
      have hmem : ∃ y, (t, y) ∈ (a1, x1) :: r := by
        cases hgl : ((a1, x1) :: r).getLast? with
        | none => rw [hgl] at hl'; simp at hl'
        | some z =>
          rw [hgl] at hl'
          have hz : z.1 = t := by simpa using hl'
          exact ⟨z.2, by rw [← hz]; exact List.mem_of_getLast?_eq_some hgl⟩
      obtain ⟨y, hy⟩ := hmem
      rw [hb] at hrest
      have hge := Seg_ge hrest (t, y) hy
      have hta : t ≠ a := by simp at hge; omega
      have hget : ((h ++ [({ next := none, pid := pid } : PID_QUEUE_ELT)]).set t
          { c with next := some h.length })[a]? = h[a]? := by
        rw [List.getElem?_set_ne hta, hga]
      refine ⟨hp, ?_, ?_, ?_⟩
      · rw [hget]; exact hpid
      · rw [hget]; exact hinc
      · rw [hget, hb]; exact ih hrest hl'

/-- Specification of `enqueue` on a well-formed queue: it appends one cell at the fresh address. -/
theorem enqueue_spec {h : Heap} {q : PID_QUEUE} {cs : List (Nat × Int)} (pid : Int)
    (hr : Rep h q cs) :
    ∃ q1 h1, enqueue pid q h = some (q1, h1) ∧ Rep h1 q1 (cs ++ [(h.length, pid)]) ∧
      h1.length = h.length + 1 ∧
      ∀ (p : Option Nat) (cs1 : List (Nat × Int)), Seg h p cs1 →
        (∀ c ∈ cs1, ∀ d ∈ cs, c.1 ≠ d.1) → Seg h1 p cs1 := by
  obtain ⟨hseg, htail⟩ := hr
  cases cs with
  | nil =>
    have hh : q.head = none := hseg
    refine ⟨{ head := some h.length, tail := some h.length },
      h ++ [{ next := none, pid := pid }], by simp [enqueue, hh], ⟨?_, ?_⟩, by simp, ?_⟩
    · show Seg _ (some h.length) [(h.length, pid)]
      refine ⟨rfl, ?_, ?_, ?_⟩ <;> simp [Seg]
    · intro _; simp
    · intro p cs1 hs _; exact Seg_append_heap _ hs
  | cons c0 rest =>
    obtain ⟨a, x⟩ := c0
    have hh : q.head = some a := hseg.1
    have ht := htail (by simp)
    cases hgl : ((a, x) :: rest).getLast? with
    | none => simp at hgl
    | some z =>
      rw [hgl] at ht
      have hzmem := List.mem_of_getLast?_eq_some hgl
      have hzlt := Seg_lt hseg z hzmem
      have hlen : (h ++ [({ next := none, pid := pid } : PID_QUEUE_ELT)]).length = h.length + 1 := by
        simp
      obtain ⟨c, hc⟩ : ∃ c, (h ++ [({ next := none, pid := pid } : PID_QUEUE_ELT)])[z.1]? = some c :=
        ⟨_, List.getElem?_eq_getElem (by omega)⟩
      have hsn := Seg_snoc pid z.1 c hc hseg (by rw [hgl]; rfl)
      have hrd : (((h ++ [({ next := none, pid := pid } : PID_QUEUE_ELT)]).set z.1
          { c with next := some h.length })[z.1]?).bind (fun c => c.next) = some h.length := by
        rw [List.getElem?_set_self (by omega)]
        rfl
      refine ⟨{ q with tail := some h.length },
        (h ++ [({ next := none, pid := pid } : PID_QUEUE_ELT)]).set z.1
          { c with next := some h.length }, ?_, ⟨hsn, ?_⟩, by simp, ?_⟩
      · simp only [enqueue, hh, ht, Option.map_some', hc, hrd]
      · intro _
        show some h.length = Option.map Prod.fst (((a, x) :: rest) ++ [(h.length, pid)]).getLast?
        rw [List.getLast?_append]
        rfl
      · intro p cs1 hs hdis
        exact Seg_set_frame _ _ (Seg_append_heap _ hs) (fun c hc => hdis c hc z hzmem)

/-- Specification of `dequeue` on a well-formed queue: the sentinel on the empty queue, otherwise the
first PID; the heap is not changed. -/
theorem dequeue_spec {h : Heap} {q : PID_QUEUE} {cs : List (Nat × Int)} (idle : Int)
    (hr : Rep h q cs) :
    ∃ q1, dequeue idle q h = some ((cs.head?.map Prod.snd).getD idle, q1) ∧
      Rep h q1 cs.tail ∧ (cs = [] → q1 = q) := by
  obtain ⟨hseg, htail⟩ := hr
  cases cs with
  | nil =>
    have hh : q.head = none := hseg
    exact ⟨q, by simp [dequeue, hh], ⟨hseg, by simp⟩, fun _ => rfl⟩
  | cons c0 rest =>
    obtain ⟨a, x⟩ := c0
    obtain ⟨hp, hpid, _, hrest⟩ := hseg
    cases hc : h[a]? with
    | none => simp [hc] at hpid
    | some c =>
      simp only [hc, Option.map_some', Option.some.injEq] at hpid
      simp only [hc, Option.some_bind] at hrest
      refine ⟨{ q with head := c.next }, by simp [dequeue, hp, hc, hpid], ⟨hrest, ?_⟩, by simp⟩
      intro hne
      have := htail (by simp)
      cases rest with
      | nil => exact absurd rfl hne
      | cons c1 r => simpa [List.getLast?_cons_cons] using this

theorem Rep_emptyQueue (h : Heap) : Rep h emptyQueue [] :=
  ⟨rfl, fun hne => absurd rfl hne⟩

/-! ## Queues of a kernel state: frame lemmas -/

theorem arrGet_eq_some {α : Type} {a : List α} {i : Int} {x : α} (h : arrGet a i = some x) :
    0 ≤ i ∧ a[i.toNat]? = some x := by
  unfold arrGet at h
  split at h
  · exact ⟨by assumption, h⟩
  · simp at h

theorem arrGet_map {α β : Type} (f : α → β) (a : List α) (i : Int) :
    arrGet (a.map f) i = (arrGet a i).map f := by
  unfold arrGet
  split <;> simp

theorem arrGet_semView (h : Heap) (sems : List SEMAPHORE) (i : Int) :
    arrGet (semView h sems) i
      = (arrGet sems i).map (fun e => ({ value := e.value, waiting := contents h e.q } : Abs.Sem)) :=
  arrGet_map _ _ _

theorem Rep_head_none_iff {h : Heap} {q : PID_QUEUE} {cs : List (Nat × Int)} (hr : Rep h q cs) :
    q.head = none ↔ cs = [] := by
  cases cs with
  | nil => exact ⟨fun _ => rfl, fun _ => hr.1⟩
  | cons c r =>
    obtain ⟨a, x⟩ := c
    have : q.head = some a := hr.1.1
    simp [this]

theorem semView_congr {h h1 : Heap} {sems : List SEMAPHORE}
    (hc : ∀ (i : Nat) (e : SEMAPHORE), sems[i]? = some e → contents h1 e.q = contents h e.q) :
    semView h1 sems = semView h sems := by
  unfold semView
  apply List.map_congr_left
  intro e he
  obtain ⟨i, hi⟩ := List.getElem?_of_mem he
  rw [hc i e hi]

theorem semView_set {h h1 : Heap} {sems : List SEMAPHORE} (n : Nat) (e1 : SEMAPHORE)
    (hc : ∀ (i : Nat) (e : SEMAPHORE), i ≠ n → sems[i]? = some e → contents h1 e.q = contents h e.q) :
    semView h1 (sems.set n e1)
      = (semView h sems).set n { value := e1.value, waiting := contents h1 e1.q } := by
  unfold semView
  apply List.ext_getElem?
  intro i
  by_cases hin : i = n
  · subst hin
    by_cases hlt : i < sems.length
    · rw [List.getElem?_map, List.getElem?_set_self (by simpa using hlt),
        List.getElem?_set_self (by simpa using hlt)]
      rfl
    · rw [List.getElem?_eq_none (by simpa using hlt), List.getElem?_eq_none (by simpa using hlt)]
  · rw [List.getElem?_map, List.getElem?_set_ne (Ne.symm hin), List.getElem?_set_ne (Ne.symm hin),
      List.getElem?_map]
    cases hg : sems[i]? with
    | none => rfl
    | some e => simp [hc i e hin hg]

theorem WFq_enq_rq {h : Heap} {rq : PID_QUEUE} {sems : List SEMAPHORE} (pid : Int)
    (hw : WFq h rq sems) :
    ∃ rq1 h1, enqueue pid rq h = some (rq1, h1) ∧ WFq h1 rq1 sems ∧
      contents h1 rq1 = contents h rq ++ [pid] ∧ semView h1 sems = semView h sems := by
  obtain ⟨rc, own, hrq, hsem, hout, hd1, hd2⟩ := hw
  obtain ⟨rq1, h1, he, hr1, hlen, hframe⟩ := enqueue_spec pid hrq
  have hsem1 : ∀ i e, sems[i]? = some e → Rep h1 e.q (own i) := by
    intro i e hi
    have hr := hsem i e hi
    exact ⟨hframe _ _ hr.1 (fun c hc d hd => hd1 i c hc d hd), hr.2⟩
  refine ⟨rq1, h1, he, ⟨rc ++ [(h.length, pid)], own, hr1, hsem1, hout, ?_, hd2⟩, ?_, ?_⟩
  · intro i c hc d hd
    rcases List.mem_append.1 hd with hd | hd
    · exact hd1 i c hc d hd
    · have hlt : c.1 < h.length := by
        by_cases hi : i < sems.length
        · exact Seg_lt (hsem i _ (List.getElem?_eq_getElem hi)).1 c hc
        · rw [hout i (by omega)] at hc
          simp at hc
      simp at hd
      subst hd
      simp
      omega
  · rw [contents_of_Rep hr1, contents_of_Rep hrq]; simp
  · exact semView_congr (fun i e hi => by
      rw [contents_of_Rep (hsem1 i e hi), contents_of_Rep (hsem i e hi)])


theorem WFq_deq_rq {h : Heap} {rq : PID_QUEUE} {sems : List SEMAPHORE} (idle : Int)
    (hw : WFq h rq sems) :
    ∃ rq1, dequeue idle rq h = some (((contents h rq).head?).getD idle, rq1) ∧
      WFq h rq1 sems ∧ contents h rq1 = (contents h rq).tail := by
  obtain ⟨rc, own, hrq, hsem, hout, hd1, hd2⟩ := hw
  obtain ⟨rq1, hd, hr1, _⟩ := dequeue_spec idle hrq
  refine ⟨rq1, ?_, ⟨rc.tail, own, hr1, hsem, hout, ?_, hd2⟩, ?_⟩
  · rw [hd, contents_of_Rep hrq]
    cases rc <;> rfl
  · intro i c hc d hd
    exact hd1 i c hc d (List.mem_of_mem_tail hd)
  · rw [contents_of_Rep hr1, contents_of_Rep hrq]
    cases rc <;> rfl

theorem getElem?_set_cases {α : Type} (l : List α) (n i : Nat) (x y : α)
    (h : (l.set n x)[i]? = some y) : (i = n ∧ y = x ∧ n < l.length) ∨ (i ≠ n ∧ l[i]? = some y) := by
  by_cases hin : i = n
  · subst hin
    by_cases hlt : i < l.length
    · rw [List.getElem?_set_self hlt] at h
      exact Or.inl ⟨rfl, by simpa using h.symm, hlt⟩
    · rw [List.getElem?_eq_none (by simpa using hlt)] at h
      simp at h
  · rw [List.getElem?_set_ne (Ne.symm hin)] at h
    exact Or.inr ⟨hin, h⟩

theorem WFq_enq_sem {h : Heap} {rq : PID_QUEUE} {sems : List SEMAPHORE} (pid : Int)
    {i : Int} {e : SEMAPHORE} (hw : WFq h rq sems) (hi : arrGet sems i = some e) :
    ∃ q1 h1, enqueue pid e.q h = some (q1, h1) ∧
      WFq h1 rq (sems.set i.toNat { e with q := q1 }) ∧
      contents h1 rq = contents h rq ∧
      semView h1 (sems.set i.toNat { e with q := q1 })
        = (semView h sems).set i.toNat { value := e.value, waiting := contents h e.q ++ [pid] } := by
  obtain ⟨rc, own, hrq, hsem, hout, hd1, hd2⟩ := hw
  obtain ⟨_, hget⟩ := arrGet_eq_some hi
  have hre := hsem _ e hget
  obtain ⟨q1, h1, he, hr1, hlen, hframe⟩ := enqueue_spec pid hre
  have hnlt : i.toNat < sems.length := by
    by_contra hge
    rw [List.getElem?_eq_none (by omega)] at hget
    simp at hget
  have hlt : ∀ j, ∀ c ∈ own j, c.1 < h.length := by
    intro j c hc
    by_cases hj : j < sems.length
    · exact Seg_lt (hsem j _ (List.getElem?_eq_getElem hj)).1 c hc
    · rw [hout j (by omega)] at hc
      simp at hc
  have hrq1 : Rep h1 rq rc :=
    ⟨hframe _ _ hrq.1 (fun c hc d hd => (hd1 _ d hd c hc).symm), hrq.2⟩
  have hother : ∀ j e', j ≠ i.toNat → sems[j]? = some e' → Rep h1 e'.q (own j) := by
    intro j e' hj hg
    have hr := hsem j e' hg
    exact ⟨hframe _ _ hr.1 (fun c hc d hd => hd2 j _ hj c hc d hd), hr.2⟩
  refine ⟨q1, h1, he, ⟨rc, Function.update own i.toNat (own i.toNat ++ [(h.length, pid)]),
    hrq1, ?_, ?_, ?_, ?_⟩, ?_, ?_⟩
  · intro j e' hg
    rcases getElem?_set_cases _ _ _ _ _ hg with ⟨hj, he', _⟩ | ⟨hj, hg'⟩
    · subst hj; subst he'
      simpa using hr1
    · rw [Function.update_noteq hj]
      exact hother j e' hj hg'
  · intro j hj
    have : j ≠ i.toNat := by simp at hj; omega
    rw [Function.update_noteq this]
    exact hout j (by simpa using hj)
  · intro j c hc d hd
    by_cases hj : j = i.toNat
    · subst hj
      simp only [Function.update_same, List.mem_append, List.mem_singleton] at hc
      rcases hc with hc | hc
      · exact hd1 _ c hc d hd
      · subst hc
        have := Seg_lt hrq.1 d hd
        simp; omega
    · rw [Function.update_noteq hj] at hc
      exact hd1 j c hc d hd
  · intro j k hjk c hc d hd
    by_cases hj : j = i.toNat
    · subst hj
      rw [Function.update_noteq (Ne.symm hjk)] at hd
      simp only [Function.update_same, List.mem_append, List.mem_singleton] at hc
      rcases hc with hc | hc
      · exact hd2 _ k hjk c hc d hd
      · subst hc
        have := hlt k d hd
        simp; omega
    · rw [Function.update_noteq hj] at hc
      by_cases hk : k = i.toNat
      · subst hk
        simp only [Function.update_same, List.mem_append, List.mem_singleton] at hd
        rcases hd with hd | hd
        · exact hd2 j _ hjk c hc d hd
        · subst hd
          have := hlt j c hc
          simp; omega
      · rw [Function.update_noteq hk] at hd
        exact hd2 j k hjk c hc d hd
  · rw [contents_of_Rep hrq1, contents_of_Rep hrq]
  · rw [semView_set (h := h) i.toNat _ (fun j e' hj hg => by
      rw [contents_of_Rep (hother j e' hj hg), contents_of_Rep (hsem j e' hg)])]
    simp only
    rw [contents_of_Rep hr1, contents_of_Rep hre]
    simp

theorem WFq_deq_sem {h : Heap} {rq : PID_QUEUE} {sems : List SEMAPHORE} (idle : Int)
    {i : Int} {e : SEMAPHORE} (hw : WFq h rq sems) (hi : arrGet sems i = some e) :
    ∃ q1, dequeue idle e.q h = some (((contents h e.q).head?).getD idle, q1) ∧
      WFq h rq (sems.set i.toNat { e with q := q1 }) ∧
      semView h (sems.set i.toNat { e with q := q1 })
        = (semView h sems).set i.toNat { value := e.value, waiting := (contents h e.q).tail } := by
  obtain ⟨rc, own, hrq, hsem, hout, hd1, hd2⟩ := hw
  obtain ⟨_, hget⟩ := arrGet_eq_some hi
  have hre := hsem _ e hget
  obtain ⟨q1, hd, hr1, _⟩ := dequeue_spec idle hre
  refine ⟨q1, ?_, ⟨rc, Function.update own i.toNat (own i.toNat).tail, hrq, ?_, ?_, ?_, ?_⟩, ?_⟩
  · rw [hd, contents_of_Rep hre]
    cases own i.toNat <;> rfl
  · intro j e' hg
    rcases getElem?_set_cases _ _ _ _ _ hg with ⟨hj, he', _⟩ | ⟨hj, hg'⟩
    · subst hj; subst he'
      simpa using hr1
    · rw [Function.update_noteq hj]
      exact hsem j e' hg'
  · intro j hj
    have hnlt : i.toNat < sems.length := by
      by_contra hge
      rw [List.getElem?_eq_none (by omega)] at hget
      simp at hget
    have : j ≠ i.toNat := by simp at hj; omega
    rw [Function.update_noteq this]
    exact hout j (by simpa using hj)
  · intro j c hc d hd
    by_cases hj : j = i.toNat
    · subst hj
      simp only [Function.update_same] at hc
      exact hd1 _ c (List.mem_of_mem_tail hc) d hd
    · rw [Function.update_noteq hj] at hc
      exact hd1 j c hc d hd
  · intro j k hjk c hc d hd
    by_cases hj : j = i.toNat
    · subst hj
      rw [Function.update_noteq (Ne.symm hjk)] at hd
      simp only [Function.update_same] at hc
      exact hd2 _ k hjk c (List.mem_of_mem_tail hc) d hd
    · rw [Function.update_noteq hj] at hc
      by_cases hk : k = i.toNat
      · subst hk
        simp only [Function.update_same] at hd
        exact hd2 j _ hjk c hc d (List.mem_of_mem_tail hd)
      · rw [Function.update_noteq hk] at hd
        exact hd2 j k hjk c hc d hd
  · rw [semView_set (h := h) i.toNat _ (fun j e' _ _ => rfl)]
    simp only
    rw [contents_of_Rep hr1, contents_of_Rep hre]
    cases own i.toNat <;> rfl

theorem WFq_set_value {h : Heap} {rq : PID_QUEUE} {sems : List SEMAPHORE} (v : Int)
    {i : Int} {e : SEMAPHORE} (hw : WFq h rq sems) (hi : arrGet sems i = some e) :
    WFq h rq (sems.set i.toNat { e with value := v }) ∧
      semView h (sems.set i.toNat { e with value := v })
        = (semView h sems).set i.toNat { value := v, waiting := contents h e.q } := by
  obtain ⟨rc, own, hrq, hsem, hout, hd1, hd2⟩ := hw
  obtain ⟨_, hget⟩ := arrGet_eq_some hi
  refine ⟨⟨rc, own, hrq, ?_, ?_, hd1, hd2⟩, ?_⟩
  · intro j e' hg
    rcases getElem?_set_cases _ _ _ _ _ hg with ⟨hj, he', _⟩ | ⟨hj, hg'⟩
    · subst hj; subst he'
      exact hsem _ e hget
    · exact hsem j e' hg'
  · intro j hj
    exact hout j (by simpa using hj)
  · rw [semView_set (h := h) i.toNat _ (fun j e' _ _ => rfl)]

theorem waiting_nil_iff {h : Heap} {rq : PID_QUEUE} {sems : List SEMAPHORE}
    {i : Int} {e : SEMAPHORE} (hw : WFq h rq sems) (hi : arrGet sems i = some e) :
    e.q.head = none ↔ contents h e.q = [] := by
  obtain ⟨rc, own, hrq, hsem, hout, hd1, hd2⟩ := hw
  obtain ⟨_, hget⟩ := arrGet_eq_some hi
  have hre := hsem _ e hget
  rw [Rep_head_none_iff hre, contents_of_Rep hre]
  simp

/-! ## The handlers act on the list-level view as their list-level counterparts -/

theorem round_robin_view (cfg : Config) (clock : Int) (s : KState) (hw : WF s) :
    (round_robin cfg clock s).map view = Abs.round_robin cfg clock (view s) ∧
      ∀ s1, round_robin cfg clock s = .ok s1 → WF s1 := by
  obtain ⟨rq1, hd, hw1, hc⟩ := WFq_deq_rq cfg.IDLE_PROCESS hw
  unfold round_robin Abs.round_robin
  simp only [hd]
  have hv : (view s).rq = contents s.heap s.rq := rfl
  simp only [hv]
  by_cases hidle : ((contents s.heap s.rq).head?).getD cfg.IDLE_PROCESS = cfg.IDLE_PROCESS
  · simp only [hidle, if_true]
    by_cases hout : s.outstanding_requests = 0
    · have hv2 : (view s).outstanding_requests = 0 := hout
      simp only [hout, hv2, if_true]
      refine ⟨?_, fun s1 h => by cases h⟩
      simp [Result.map, view, KState.printf, Abs.State.printf, hc, hout]
    · have hv2 : ¬ (view s).outstanding_requests = 0 := hout
      simp only [hout, hv2, if_false]
      refine ⟨?_, ?_⟩
      · by_cases hi : s.idle_process_running = false <;>
          simp [Result.map, view, KState.printf, Abs.State.printf, hc, hi]
      · intro s1 h
        injection h with h
        subst h
        by_cases hi : s.idle_process_running = false <;>
          simpa [WF, KState.printf, hi] using hw1
  · simp only [hidle, if_false]
    have hpt : (view s).process_table = s.process_table := rfl
    simp only [KState.printf, Abs.State.printf, hpt]
    cases hs : setState s.process_table
        (((contents s.heap s.rq).head?).getD cfg.IDLE_PROCESS) .RUNNING with
    | none => exact ⟨rfl, fun s1 h => by cases h⟩
    | some t =>
      refine ⟨?_, ?_⟩
      · simp [Result.map, view, hc]
      · intro s1 h
        injection h with h
        subst h
        exact hw1


theorem up_view (cfg : Config) (sem : Int) (s : KState) (hw : WF s) :
    (up cfg sem s).map view = Abs.up sem (view s) ∧
      ∀ s1, up cfg sem s = .ok s1 → WF s1 := by
  unfold up Abs.up
  have hsv : (view s).semaphores = semView s.heap s.semaphores := rfl
  rw [hsv, arrGet_semView]
  cases hg : arrGet s.semaphores sem with
  | none => exact ⟨rfl, fun s1 h => by cases h⟩
  | some e =>
    simp only [Option.map_some']
    by_cases hv : e.value = 0
    · rw [if_pos hv, if_pos hv]
      have hnil := waiting_nil_iff hw hg
      cases hh : e.q.head with
      | none =>
        have hcn := hnil.1 hh
        simp only [hcn]
        obtain ⟨hw1, hsv1⟩ := WFq_set_value (e.value + 1) hw hg
        refine ⟨?_, fun s1 h => by injection h with h; subst h; exact hw1⟩
        simp only [Result.map, view, hsv1, hsv, hcn]
      | some a =>
        obtain ⟨q1, hd, hw1, hsv1⟩ := WFq_deq_sem cfg.IDLE_PROCESS hw hg
        simp only [hd]
        cases hcs : contents s.heap e.q with
        | nil => rw [hnil.2 hcs] at hh; cases hh
        | cons pid rest =>
          simp only [List.head?_cons, Option.getD_some]
          have hpt : (view s).process_table = s.process_table := rfl
          rw [hpt]
          cases hst : setState s.process_table pid .READY with
          | none => exact ⟨rfl, fun s1 h => by cases h⟩
          | some t =>
            simp only
            obtain ⟨rq1, h1, he, hw2, hc2, hsv2⟩ := WFq_enq_rq pid hw1
            simp only [he]
            refine ⟨?_, fun s1 h => by injection h with h; subst h; exact hw2⟩
            simp only [Result.map, view, hc2, hsv2, hsv1, hcs, List.tail_cons]
    · rw [if_neg hv, if_neg hv]
      obtain ⟨hw1, hsv1⟩ := WFq_set_value (e.value + 1) hw hg
      refine ⟨?_, fun s1 h => by injection h with h; subst h; exact hw1⟩
      simp only [Result.map, view, hsv1, hsv]

theorem down_view (cfg : Config) (clock sem : Int) (s : KState) (hw : WF s) :
    (down cfg clock sem s).map view = Abs.down cfg clock sem (view s) ∧
      ∀ s1, down cfg clock sem s = .ok s1 → WF s1 := by
  unfold down Abs.down
  have hsv : (view s).semaphores = semView s.heap s.semaphores := rfl
  rw [hsv, arrGet_semView]
  cases hg : arrGet s.semaphores sem with
  | none => exact ⟨rfl, fun s1 h => by cases h⟩
  | some e =>
    simp only [Option.map_some']
    by_cases hv : e.value = 0
    · rw [if_pos hv, if_pos hv]
      have hpt : (view s).process_table = s.process_table := rfl
      have hcp : (view s).current_pid = s.current_pid := rfl
      have hqs : (view s).current_quantum_start_time = s.current_quantum_start_time := rfl
      rw [hpt, hcp, hqs]
      cases hs1 : setState s.process_table s.current_pid .BLOCKED with
      | none => exact ⟨rfl, fun s1 h => by cases h⟩
      | some t1 =>
        simp only
        cases hs2 : addTime t1 s.current_pid (clock - s.current_quantum_start_time) with
        | none => exact ⟨rfl, fun s1 h => by cases h⟩
        | some t2 =>
          simp only
          obtain ⟨q1, h1, he, hw1, hc1, hsv1⟩ := WFq_enq_sem s.current_pid hw hg
          simp only [he]
          have hrr := round_robin_view cfg clock
            { s with process_table := t2, heap := h1,
                     semaphores := s.semaphores.set sem.toNat { e with q := q1 } } hw1
          refine ⟨?_, hrr.2⟩
          rw [hrr.1]
          congr 1
          simp only [view, hc1, hsv1, hsv]
    · rw [if_neg hv, if_neg hv]
      obtain ⟨hw1, hsv1⟩ := WFq_set_value (e.value - 1) hw hg
      refine ⟨?_, fun s1 h => by injection h with h; subst h; exact hw1⟩
      simp only [Result.map, view, hsv1, hsv]

theorem handle_clock_interrupt_view (cfg : Config) (clock : Int) (s : KState) (hw : WF s) :
    (handle_clock_interrupt cfg clock s).map view = Abs.handle_clock_interrupt cfg clock (view s) ∧
      ∀ s1, handle_clock_interrupt cfg clock s = .ok s1 → WF s1 := by
  unfold handle_clock_interrupt Abs.handle_clock_interrupt
  have hpt : (view s).process_table = s.process_table := rfl
  have hcp : (view s).current_pid = s.current_pid := rfl
  have hqs : (view s).current_quantum_start_time = s.current_quantum_start_time := rfl
  rw [hpt, hcp, hqs]
  by_cases hq : clock - s.current_quantum_start_time ≥ QUANTUM
  · rw [if_pos hq, if_pos hq]
    cases hs1 : addTime s.process_table s.current_pid (clock - s.current_quantum_start_time) with
    | none => exact ⟨rfl, fun s1 h => by cases h⟩
    | some t1 =>
      simp only
      cases hs2 : setState t1 s.current_pid .READY with
      | none => exact ⟨rfl, fun s1 h => by cases h⟩
      | some t2 =>
        simp only
        obtain ⟨rq1, h1, he, hw1, hc1, hsv1⟩ := WFq_enq_rq s.current_pid hw
        simp only [he]
        have hrr := round_robin_view cfg clock
          { s with process_table := t2, rq := rq1, heap := h1 } hw1
        refine ⟨?_, hrr.2⟩
        rw [hrr.1]
        congr 1
        simp only [view, hc1, hsv1]
  · rw [if_neg hq, if_neg hq]
    exact ⟨rfl, fun s1 h => by injection h with h; subst h; exact hw⟩

theorem handle_disk_interrupt_view (cfg : Config) (clock R1 : Int) (s : KState) (hw : WF s) :
    (handle_disk_interrupt cfg clock R1 s).map view
        = Abs.handle_disk_interrupt cfg clock R1 (view s) ∧
      ∀ s1, handle_disk_interrupt cfg clock R1 s = .ok s1 → WF s1 := by
  unfold handle_disk_interrupt Abs.handle_disk_interrupt Abs.handle_device_interrupt
  simp only [KState.printf, Abs.State.printf]
  have hpt : (view s).process_table = s.process_table := rfl
  have hcp : (view s).current_pid = s.current_pid := rfl
  rw [hpt, hcp]
  cases hs1 : setState s.process_table R1 .READY with
  | none => exact ⟨rfl, fun s1 h => by cases h⟩
  | some t =>
    simp only
    obtain ⟨rq1, h1, he, hw1, hc1, hsv1⟩ := WFq_enq_rq R1 hw
    simp only [he]
    by_cases hi : s.current_pid = cfg.IDLE_PROCESS
    · rw [if_pos hi, if_pos hi]
      have hrr := round_robin_view cfg clock
        { s with outstanding_requests := s.outstanding_requests - 1,
                 trace := s.trace ++ [.disk_interrupt clock R1],
                 process_table := t, rq := rq1, heap := h1 } hw1
      refine ⟨?_, hrr.2⟩
      rw [hrr.1]
      congr 1
      simp only [view, hc1, hsv1]
    · rw [if_neg hi, if_neg hi]
      refine ⟨?_, fun s1 h => by injection h with h; subst h; exact hw1⟩
      simp only [Result.map, view, hc1, hsv1]

theorem handle_keyboard_interrupt_view (cfg : Config) (clock R1 : Int) (s : KState) (hw : WF s) :
    (handle_keyboard_interrupt cfg clock R1 s).map view
        = Abs.handle_keyboard_interrupt cfg clock R1 (view s) ∧
      ∀ s1, handle_keyboard_interrupt cfg clock R1 s = .ok s1 → WF s1 := by
  unfold handle_keyboard_interrupt Abs.handle_keyboard_interrupt Abs.handle_device_interrupt
  simp only [KState.printf, Abs.State.printf]
  have hpt : (view s).process_table = s.process_table := rfl
  have hcp : (view s).current_pid = s.current_pid := rfl
  rw [hpt, hcp]
  cases hs1 : setState s.process_table R1 .READY with
  | none => exact ⟨rfl, fun s1 h => by cases h⟩
  | some t =>
    simp only
    obtain ⟨rq1, h1, he, hw1, hc1, hsv1⟩ := WFq_enq_rq R1 hw
    simp only [he]
    by_cases hi : s.current_pid = cfg.IDLE_PROCESS
    · rw [if_pos hi, if_pos hi]
      have hrr := round_robin_view cfg clock
        { s with outstanding_requests := s.outstanding_requests - 1,
                 trace := s.trace ++ [.keyboard_interrupt clock R1],
                 process_table := t, rq := rq1, heap := h1 } hw1
      refine ⟨?_, hrr.2⟩
      rw [hrr.1]
      congr 1
      simp only [view, hc1, hsv1]
    · rw [if_neg hi, if_neg hi]
      refine ⟨?_, fun s1 h => by injection h with h; subst h; exact hw1⟩
      simp only [Result.map, view, hc1, hsv1]


theorem handle_trap_view (cfg : Config) (clock R1 R2 R3 : Int) (s : KState) (hw : WF s) :
    (handle_trap cfg clock R1 R2 R3 s).map view = Abs.handle_trap cfg clock R1 R2 R3 (view s) ∧
      ∀ s1, handle_trap cfg clock R1 R2 R3 s = .ok s1 → WF s1 := by
  unfold handle_trap Abs.handle_trap
  simp only [KState.printf, Abs.State.printf]
  have hpt : (view s).process_table = s.process_table := rfl
  have hcp : (view s).current_pid = s.current_pid := rfl
  have hqs : (view s).current_quantum_start_time = s.current_quantum_start_time := rfl
  have hnp : (view s).num_processes = s.num_processes := rfl
  rw [hpt, hcp, hqs, hnp]
  by_cases h1 : R1 = cfg.DISK_READ
  · rw [if_pos h1, if_pos h1]
    cases hs1 : setState s.process_table s.current_pid .BLOCKED with
    | none => exact ⟨rfl, fun s1 h => by cases h⟩
    | some t1 =>
      simp only
      cases hs2 : addTime t1 s.current_pid (clock - s.current_quantum_start_time) with
      | none => exact ⟨rfl, fun s1 h => by cases h⟩
      | some t2 =>
        simp only
        have hrr := round_robin_view cfg clock
          { s with outstanding_requests := s.outstanding_requests + 1,
                   trace := s.trace ++ [.disk_read clock s.current_pid],
                   devlog := s.devlog ++ [.disk_read_req s.current_pid R2],
                   process_table := t2 } hw
        exact ⟨hrr.1, hrr.2⟩
  rw [if_neg h1, if_neg h1]
  by_cases h2 : R1 = cfg.DISK_WRITE
  · rw [if_pos h2, if_pos h2]
    exact ⟨rfl, fun s1 h => by injection h with h; subst h; exact hw⟩
  rw [if_neg h2, if_neg h2]
  by_cases h3 : R1 = cfg.KEYBOARD_READ
  · rw [if_pos h3, if_pos h3]
    cases hs1 : setState s.process_table s.current_pid .BLOCKED with
    | none => exact ⟨rfl, fun s1 h => by cases h⟩
    | some t1 =>
      simp only
      cases hs2 : addTime t1 s.current_pid (clock - s.current_quantum_start_time) with
      | none => exact ⟨rfl, fun s1 h => by cases h⟩
      | some t2 =>
        simp only
        have hrr := round_robin_view cfg clock
          { s with outstanding_requests := s.outstanding_requests + 1,
                   trace := s.trace ++ [.keyboard_read clock s.current_pid],
                   devlog := s.devlog ++ [.keyboard_read_req s.current_pid],
                   process_table := t2, current_quantum_start_time := clock } hw
        exact ⟨hrr.1, hrr.2⟩
  rw [if_neg h3, if_neg h3]
  by_cases h4 : R1 = cfg.FORK_PROGRAM
  · rw [if_pos h4, if_pos h4]
    cases hs1 : setState s.process_table R2 .READY with
    | none => exact ⟨rfl, fun s1 h => by cases h⟩
    | some t =>
      simp only
      obtain ⟨rq1, h1, he, hw1, hc1, hsv1⟩ := WFq_enq_rq R2 hw
      simp only [he]
      refine ⟨?_, fun s1 h => by injection h with h; subst h; exact hw1⟩
      simp only [Result.map, view, hc1, hsv1]
  rw [if_neg h4, if_neg h4]
  by_cases h5 : R1 = cfg.END_PROGRAM
  · rw [if_pos h5, if_pos h5]
    cases hs1 : addTime s.process_table s.current_pid (clock - s.current_quantum_start_time) with
    | none => exact ⟨rfl, fun s1 h => by cases h⟩
    | some t1 =>
      simp only
      cases hs2 : arrGet t1 s.current_pid with
      | none => exact ⟨rfl, fun s1 h => by cases h⟩
      | some e =>
        simp only
        by_cases hn : s.num_processes - 1 = 0
        · rw [if_pos hn, if_pos hn]
          exact ⟨rfl, fun s1 h => by cases h⟩
        · rw [if_neg hn, if_neg hn]
          cases hs3 : setState t1 s.current_pid .UNINITIALIZED with
          | none => exact ⟨rfl, fun s1 h => by cases h⟩
          | some t2 =>
            simp only
            have hrr := round_robin_view cfg clock
              { s with num_processes := s.num_processes - 1,
                       current_quantum_start_time := clock,
                       trace := s.trace ++ [.exits clock s.current_pid e.total_CPU_time_used],
                       process_table := t2 } hw
            exact ⟨hrr.1, hrr.2⟩
  rw [if_neg h5, if_neg h5]
  by_cases h6 : R1 = cfg.SEMAPHORE_OP
  · rw [if_pos h6, if_pos h6]
    by_cases h7 : R3 ≠ 0
    · rw [if_pos h7, if_pos h7]
      exact up_view cfg R2 { s with trace := s.trace ++ [.sem_up clock s.current_pid R2] } hw
    · rw [if_neg h7, if_neg h7]
      exact down_view cfg clock R2
        { s with trace := s.trace ++ [.sem_down clock s.current_pid R2] } hw
  rw [if_neg h6, if_neg h6]
  exact ⟨rfl, fun s1 h => by injection h with h; subst h; exact hw⟩

theorem deliver_view (cfg : Config) (clock : Int) (e : Event) (s : KState) (hw : WF s) :
    (deliver cfg clock e s).map view = Abs.deliver cfg clock e (view s) ∧
      ∀ s1, deliver cfg clock e s = .ok s1 → WF s1 := by
  cases e with
  | trap R1 R2 R3 => exact handle_trap_view cfg clock R1 R2 R3 s hw
  | clock_interrupt => exact handle_clock_interrupt_view cfg clock s hw
  | disk_interrupt R1 => exact handle_disk_interrupt_view cfg clock R1 s hw
  | keyboard_interrupt R1 => exact handle_keyboard_interrupt_view cfg clock R1 s hw

theorem WFq_empty (h : Heap) (n : Nat) (v : Int) :
    WFq h emptyQueue (List.replicate n { value := v, q := emptyQueue }) := by
  refine ⟨[], fun _ => [], Rep_emptyQueue h, ?_, fun _ _ => rfl, ?_, ?_⟩
  · intro i e hi
    have hmem : e ∈ List.replicate n ({ value := v, q := emptyQueue } : SEMAPHORE) :=
      List.getElem?_mem hi
    rw [List.eq_of_mem_replicate hmem]
    exact Rep_emptyQueue h
  · intro i c hc; simp at hc
  · intro i j _ c hc; simp at hc

theorem initialize_kernel_WF (cfg : Config) (clock : Int) (s : KState)
    (h : initialize_kernel cfg clock = .ok s) : WF s := by
  unfold initialize_kernel at h
  dsimp only at h
  split at h
  · cases h
  · injection h with h
    subst h
    exact WFq_empty [] _ _

theorem ReachableVia_WF {cfg : Config} {adm : KState → Int → Event → Prop} {s : KState}
    (hr : ReachableVia cfg adm s) : WF s := by
  induction hr with
  | boot clock s h => exact initialize_kernel_WF cfg clock s h
  | step s clock e s1 _ _ hd ih => exact (deliver_view cfg clock e s ih).2 s1 hd

theorem deliver_ok_view {cfg : Config} {clock : Int} {e : Event} {s s1 : KState} (hw : WF s)
    (hd : deliver cfg clock e s = .ok s1) : Abs.deliver cfg clock e (view s) = .ok (view s1) := by
  rw [← (deliver_view cfg clock e s hw).1, hd]
  rfl

/-! ## Invariants of reachable states, proved on the list-level view -/

/-- An invariant of the list-level kernel holds of the view of every reachable state. -/
theorem ReachableVia_view_inv {cfg : Config} {adm : KState → Int → Event → Prop}
    (P : Abs.State → Prop)
    (hinit : ∀ clock s, initialize_kernel cfg clock = .ok s → P (view s))
    (hstep : ∀ a clock e a1, P a → Abs.deliver cfg clock e a = .ok a1 → P a1)
    {s : KState} (hr : ReachableVia cfg adm s) : P (view s) := by
  induction hr with
  | boot clock s h => exact hinit clock s h
  | step s clock e s1 hr0 _ hd ih =>
    exact hstep _ clock e _ ih (deliver_ok_view (ReachableVia_WF hr0) hd)

theorem initialize_kernel_ok {cfg : Config} {clock : Int} {s : KState}
    (h : initialize_kernel cfg clock = .ok s) :
    ∃ t, setState (List.replicate cfg.MAX_NUMBER_OF_PROCESSES
        ({ state := .UNINITIALIZED, total_CPU_time_used := 0 } : PROCESS_TABLE_ENTRY)) 0 .RUNNING
          = some t ∧
      s = { process_table := t, idle_process_running := false, heap := [], rq := emptyQueue,
            semaphores := List.replicate NUMBER_OF_SEMAPHORES
              { value := INITIAL_SEMAPHORE_VALUE, q := emptyQueue },
            current_quantum_start_time := clock, outstanding_requests := 0, num_processes := 1,
            current_pid := 0, trace := [], devlog := [] } := by
  unfold initialize_kernel at h
  dsimp only at h
  split at h
  · cases h
  · rename_i t ht
    injection h with h
    exact ⟨t, ht, h.symm⟩

theorem Abs.round_robin_semaphores {cfg : Config} {clock : Int} {a a1 : Abs.State}
    (h : Abs.round_robin cfg clock a = .ok a1) : a1.semaphores = a.semaphores := by
  unfold Abs.round_robin at h
  dsimp only at h
  split at h
  · split at h
    · cases h
    · injection h with h
      subst h
      split <;> rfl
  · split at h
    · cases h
    · injection h with h
      subst h
      rfl

theorem SemInv_set {l : List Abs.Sem} (n : Nat) (x : Abs.Sem)
    (hl : ∀ e ∈ l, 0 ≤ e.value ∧ (0 < e.value → e.waiting = []))
    (hx : 0 ≤ x.value ∧ (0 < x.value → x.waiting = [])) :
    ∀ e ∈ l.set n x, 0 ≤ e.value ∧ (0 < e.value → e.waiting = []) := by
  intro e he
  rcases List.mem_or_eq_of_mem_set he with he | he
  · exact hl e he
  · exact he ▸ hx

theorem arrGet_mem {α : Type} {a : List α} {i : Int} {x : α} (h : arrGet a i = some x) : x ∈ a :=
  List.getElem?_mem (arrGet_eq_some h).2

theorem Abs.up_SemInv {sem : Int} {a a1 : Abs.State} (hi : Abs.SemInv a)
    (h : Abs.up sem a = .ok a1) : Abs.SemInv a1 := by
  unfold Abs.up at h
  split at h
  · cases h
  · rename_i e hg
    have he := hi e (arrGet_mem hg)
    split at h
    · rename_i hv
      split at h
      · rename_i hw
        injection h with h
        subst h
        exact SemInv_set _ _ hi ⟨by simp [hv], fun _ => hw⟩
      · split at h
        · cases h
        · injection h with h
          subst h
          exact SemInv_set _ _ hi ⟨by simp [hv], fun hp => by simp [hv] at hp⟩
    · rename_i hv
      injection h with h
      subst h
      refine SemInv_set _ _ hi ⟨by have := he.1; simp only; omega, fun _ => ?_⟩
      exact he.2 (by have := he.1; omega)

theorem Abs.down_SemInv {cfg : Config} {clock sem : Int} {a a1 : Abs.State} (hi : Abs.SemInv a)
    (h : Abs.down cfg clock sem a = .ok a1) : Abs.SemInv a1 := by
  unfold Abs.down at h
  split at h
  · cases h
  · rename_i e hg
    have he := hi e (arrGet_mem hg)
    split at h
    · rename_i hv
      split at h
      · cases h
      · split at h
        · cases h
        · have := Abs.round_robin_semaphores h
          unfold Abs.SemInv
          rw [this]
          exact SemInv_set _ _ hi ⟨by simp [hv], fun hp => by simp [hv] at hp⟩
    · rename_i hv
      injection h with h
      subst h
      refine SemInv_set _ _ hi ⟨by have := he.1; simp only; omega, fun hp => ?_⟩
      exact he.2 (by have := he.1; omega)

theorem Abs.handle_trap_semaphores_or {cfg : Config} {clock R1 R2 R3 : Int} {a a1 : Abs.State}
    (h : Abs.handle_trap cfg clock R1 R2 R3 a = .ok a1) :
    a1.semaphores = a.semaphores ∨
      (∃ l, Abs.up R2 { a with trace := l } = .ok a1) ∨
      (∃ l, Abs.down cfg clock R2 { a with trace := l } = .ok a1) := by
  unfold Abs.handle_trap at h
  simp only [Abs.State.printf] at h
  split at h
  · split at h
    · cases h
    · split at h
      · cases h
      · exact Or.inl (by rw [Abs.round_robin_semaphores h])
  split at h
  · injection h with h; subst h; exact Or.inl rfl
  split at h
  · split at h
    · cases h
    · split at h
      · cases h
      · exact Or.inl (by rw [Abs.round_robin_semaphores h])
  split at h
  · split at h
    · cases h
    · injection h with h; subst h; exact Or.inl rfl
  split at h
  · split at h
    · cases h
    · split at h
      · cases h
      · split at h
        · cases h
        · split at h
          · cases h
          · exact Or.inl (by rw [Abs.round_robin_semaphores h])
  split at h
  · split at h
    · exact Or.inr (Or.inl ⟨_, h⟩)
    · exact Or.inr (Or.inr ⟨_, h⟩)
  · injection h with h; subst h; exact Or.inl rfl

theorem Abs.handle_device_interrupt_semaphores {cfg : Config} {clock R1 : Int} {line : TraceLine}
    {a a1 : Abs.State} (h : Abs.handle_device_interrupt cfg clock R1 line a = .ok a1) :
    a1.semaphores = a.semaphores := by
  unfold Abs.handle_device_interrupt at h
  simp only [Abs.State.printf] at h
  split at h
  · cases h
  · split at h
    · rw [Abs.round_robin_semaphores h]
    · injection h with h; subst h; rfl

theorem Abs.handle_clock_interrupt_semaphores {cfg : Config} {clock : Int}
    {a a1 : Abs.State} (h : Abs.handle_clock_interrupt cfg clock a = .ok a1) :
    a1.semaphores = a.semaphores := by
  unfold Abs.handle_clock_interrupt at h
  split at h
  · split at h
    · cases h
    · split at h
      · cases h
      · rw [Abs.round_robin_semaphores h]
  · injection h with h; subst h; rfl

theorem Abs.deliver_SemInv {cfg : Config} {clock : Int} {e : Event} {a a1 : Abs.State}
    (hi : Abs.SemInv a) (h : Abs.deliver cfg clock e a = .ok a1) : Abs.SemInv a1 := by
  cases e with
  | trap R1 R2 R3 =>
    rcases Abs.handle_trap_semaphores_or h with hs | ⟨l, hu⟩ | ⟨l, hd⟩
    · unfold Abs.SemInv; rw [hs]; exact hi
    · exact Abs.up_SemInv (a := { a with trace := l }) hi hu
    · exact Abs.down_SemInv (a := { a with trace := l }) hi hd
  | clock_interrupt =>
    unfold Abs.SemInv; rw [Abs.handle_clock_interrupt_semaphores h]; exact hi
  | disk_interrupt R1 =>
    unfold Abs.SemInv; rw [Abs.handle_device_interrupt_semaphores h]; exact hi
  | keyboard_interrupt R1 =>
    unfold Abs.SemInv; rw [Abs.handle_device_interrupt_semaphores h]; exact hi

theorem view_SemInv_init {cfg : Config} {clock : Int} {s : KState}
    (h : initialize_kernel cfg clock = .ok s) : Abs.SemInv (view s) := by
  obtain ⟨t, _, hs⟩ := initialize_kernel_ok h
  subst hs
  intro e he
  simp only [view, semView, List.mem_map] at he
  obtain ⟨e0, he0, rfl⟩ := he
  rw [List.eq_of_mem_replicate he0]
  simp [INITIAL_SEMAPHORE_VALUE, contents, emptyQueue, pidsFrom]

theorem semaphores_length {cfg : Config} {adm : KState → Int → Event → Prop} {s : KState}
    (hr : ReachableVia cfg adm s) : (view s).semaphores.length = NUMBER_OF_SEMAPHORES := by
  refine ReachableVia_view_inv (fun a => a.semaphores.length = NUMBER_OF_SEMAPHORES) ?_ ?_ hr
  · intro clock s h
    obtain ⟨t, _, hs⟩ := initialize_kernel_ok h
    subst hs
    simp [view, semView]
  · intro a clock e a1 ha h
    cases e with
    | trap R1 R2 R3 =>
      rcases Abs.handle_trap_semaphores_or h with hs | ⟨l, hu⟩ | ⟨l, hd⟩
      · rw [hs]; exact ha
      · unfold Abs.up at hu
        split at hu
        · cases hu
        · split at hu
          · split at hu
            · injection hu with hu; subst hu; simpa using ha
            · split at hu
              · cases hu
              · injection hu with hu; subst hu; simpa using ha
          · injection hu with hu; subst hu; simpa using ha
      · unfold Abs.down at hd
        split at hd
        · cases hd
        · split at hd
          · split at hd
            · cases hd
            · split at hd
              · cases hd
              · rw [Abs.round_robin_semaphores hd]; simpa using ha
          · injection hd with hd; subst hd; simpa using ha
    | clock_interrupt => rw [Abs.handle_clock_interrupt_semaphores h]; exact ha
    | disk_interrupt R1 => rw [Abs.handle_device_interrupt_semaphores h]; exact ha
    | keyboard_interrupt R1 => rw [Abs.handle_device_interrupt_semaphores h]; exact ha

theorem arrGet_set {α : Type} (a : List α) (i j : Int) (x y : α) (hi : arrGet a i = some x) :
    arrGet (a.set i.toNat y) j = if j = i then some y else arrGet a j := by
  obtain ⟨hi0, hget⟩ := arrGet_eq_some hi
  have hlt : i.toNat < a.length := by
    by_contra hge
    rw [List.getElem?_eq_none (by omega)] at hget
    cases hget
  unfold arrGet
  by_cases hj0 : 0 ≤ j
  · rw [if_pos hj0, if_pos hj0]
    by_cases hji : j = i
    · subst hji
      rw [if_pos rfl, List.getElem?_set_self hlt]
    · rw [if_neg hji, List.getElem?_set_ne (by omega)]
  · rw [if_neg hj0, if_neg hj0]
    have : j ≠ i := by omega
    rw [if_neg this]

theorem setState_some {tbl t : List PROCESS_TABLE_ENTRY} {i : Int} {st : PROCESS_STATE}
    (h : setState tbl i st = some t) :
    ∃ e, arrGet tbl i = some e ∧ t = tbl.set i.toNat { e with state := st } := by
  unfold setState at h
  split at h
  · cases h
  · rename_i e he
    injection h with h
    exact ⟨e, he, h.symm⟩

theorem addTime_some {tbl t : List PROCESS_TABLE_ENTRY} {i d : Int}
    (h : addTime tbl i d = some t) :
    ∃ e, arrGet tbl i = some e ∧
      t = tbl.set i.toNat { e with total_CPU_time_used := e.total_CPU_time_used + d } := by
  unfold addTime at h
  split at h
  · cases h
  · rename_i e he
    injection h with h
    exact ⟨e, he, h.symm⟩

theorem setState_length {tbl t : List PROCESS_TABLE_ENTRY} {i : Int} {st : PROCESS_STATE}
    (h : setState tbl i st = some t) : t.length = tbl.length := by
  obtain ⟨e, _, rfl⟩ := setState_some h
  simp

theorem addTime_length {tbl t : List PROCESS_TABLE_ENTRY} {i d : Int}
    (h : addTime tbl i d = some t) : t.length = tbl.length := by
  obtain ⟨e, _, rfl⟩ := addTime_some h
  simp

theorem arrGet_setState {tbl t : List PROCESS_TABLE_ENTRY} {i : Int} {st : PROCESS_STATE}
    (h : setState tbl i st = some t) (j : Int) :
    arrGet t j = if j = i then (arrGet tbl i).map (fun e => { e with state := st })
      else arrGet tbl j := by
  obtain ⟨e, he, rfl⟩ := setState_some h
  rw [arrGet_set _ _ _ _ _ he, he]
  rfl

theorem arrGet_addTime {tbl t : List PROCESS_TABLE_ENTRY} {i d : Int}
    (h : addTime tbl i d = some t) (j : Int) :
    arrGet t j = if j = i then
        (arrGet tbl i).map (fun e => { e with total_CPU_time_used := e.total_CPU_time_used + d })
      else arrGet tbl j := by
  obtain ⟨e, he, rfl⟩ := addTime_some h
  rw [arrGet_set _ _ _ _ _ he, he]
  rfl

theorem addTime_state {tbl t : List PROCESS_TABLE_ENTRY} {i d : Int}
    (h : addTime tbl i d = some t) (j : Int) :
    (arrGet t j).map (fun e => e.state) = (arrGet tbl j).map (fun e => e.state) := by
  rw [arrGet_addTime h]
  split
  · rename_i hji
    subst hji
    cases arrGet tbl j <;> rfl
  · rfl

theorem arrGet_lt {α : Type} {a : List α} {i : Int} {x : α} (h : arrGet a i = some x) :
    0 ≤ i ∧ i < a.length := by
  obtain ⟨hi0, hget⟩ := arrGet_eq_some h
  refine ⟨hi0, ?_⟩
  by_contra hge
  rw [List.getElem?_eq_none (by omega)] at hget
  cases hget

theorem NoRunning_addTime {tbl t : List PROCESS_TABLE_ENTRY} {i d : Int}
    (h : addTime tbl i d = some t) (hn : NoRunning tbl) : NoRunning t := by
  intro j e he hr
  have := addTime_state h j
  rw [he] at this
  cases hg : arrGet tbl j with
  | none => rw [hg] at this; cases this
  | some e0 =>
    rw [hg] at this
    simp only [Option.map_some', Option.some.injEq] at this
    exact hn j e0 hg (by rw [← this]; exact hr)

theorem RunningIsCurrent_addTime {tbl t : List PROCESS_TABLE_ENTRY} {i d cur : Int}
    (h : addTime tbl i d = some t) (hn : RunningIsCurrent tbl cur) : RunningIsCurrent t cur := by
  intro j e he hr
  have := addTime_state h j
  rw [he] at this
  cases hg : arrGet tbl j with
  | none => rw [hg] at this; cases this
  | some e0 =>
    rw [hg] at this
    simp only [Option.map_some', Option.some.injEq] at this
    exact hn j e0 hg (by rw [← this]; exact hr)

/-- Taking the current process out of `RUNNING` leaves no running process. -/
theorem NoRunning_setState_current {tbl t : List PROCESS_TABLE_ENTRY} {cur : Int}
    {st : PROCESS_STATE} (h : setState tbl cur st = some t) (hst : st ≠ .RUNNING)
    (hn : RunningIsCurrent tbl cur) : NoRunning t := by
  intro j e he hr
  rw [arrGet_setState h] at he
  split at he
  · cases hg : arrGet tbl cur with
    | none => rw [hg] at he; cases he
    | some e0 =>
      rw [hg] at he
      simp only [Option.map_some', Option.some.injEq] at he
      subst he
      exact hst hr
  · rename_i hj
    exact hj (hn j e he hr)

theorem NoRunning_setState {tbl t : List PROCESS_TABLE_ENTRY} {i : Int}
    {st : PROCESS_STATE} (h : setState tbl i st = some t) (hst : st ≠ .RUNNING)
    (hn : NoRunning tbl) : NoRunning t := by
  intro j e he hr
  rw [arrGet_setState h] at he
  split at he
  · cases hg : arrGet tbl i with
    | none => rw [hg] at he; cases he
    | some e0 =>
      rw [hg] at he
      simp only [Option.map_some', Option.some.injEq] at he
      subst he
      exact hst hr
  · exact hn j e he hr

theorem RunningIsCurrent_setState {tbl t : List PROCESS_TABLE_ENTRY} {i cur : Int}
    {st : PROCESS_STATE} (h : setState tbl i st = some t) (hst : st ≠ .RUNNING)
    (hn : RunningIsCurrent tbl cur) : RunningIsCurrent t cur := by
  intro j e he hr
  rw [arrGet_setState h] at he
  split at he
  · cases hg : arrGet tbl i with
    | none => rw [hg] at he; cases he
    | some e0 =>
      rw [hg] at he
      simp only [Option.map_some', Option.some.injEq] at he
      subst he
      exact absurd hr hst
  · exact hn j e he hr

theorem RunningIsCurrent_setState_running {tbl t : List PROCESS_TABLE_ENTRY} {pid : Int}
    (h : setState tbl pid .RUNNING = some t) (hn : NoRunning tbl) : RunningIsCurrent t pid := by
  intro j e he hr
  rw [arrGet_setState h] at he
  split at he
  · assumption
  · exact absurd hr (hn j e he)

theorem NoRunning_of_idle {cfg : Config} {tbl : List PROCESS_TABLE_ENTRY}
    (hidle : cfg.idleOutside) (hlen : tbl.length = cfg.MAX_NUMBER_OF_PROCESSES)
    (hn : RunningIsCurrent tbl cfg.IDLE_PROCESS) : NoRunning tbl := by
  intro j e he hr
  have hj := hn j e he hr
  have := arrGet_lt he
  rw [hlen, hj] at this
  exact hidle this

theorem RunningIsCurrent_of_NoRunning {tbl : List PROCESS_TABLE_ENTRY} (cur : Int)
    (hn : NoRunning tbl) : RunningIsCurrent tbl cur :=
  fun j e he hr => absurd hr (hn j e he)

theorem Abs.round_robin_RunInv {cfg : Config} {clock : Int} {a a1 : Abs.State}
    (hn : NoRunning a.process_table)
    (hlen : a.process_table.length = cfg.MAX_NUMBER_OF_PROCESSES)
    (h : Abs.round_robin cfg clock a = .ok a1) : Abs.RunInv cfg a1 := by
  unfold Abs.round_robin at h
  dsimp only at h
  split at h
  · split at h
    · cases h
    · injection h with h
      subst h
      refine ⟨RunningIsCurrent_of_NoRunning _ ?_, ?_⟩
      · split <;> exact hn
      · split <;> exact hlen
  · split at h
    · cases h
    · rename_i t ht
      injection h with h
      subst h
      exact ⟨RunningIsCurrent_setState_running ht hn, (setState_length ht).trans hlen⟩


theorem Abs.up_RunInv {cfg : Config} {sem : Int} {a a1 : Abs.State} (hi : Abs.RunInv cfg a)
    (h : Abs.up sem a = .ok a1) : Abs.RunInv cfg a1 := by
  unfold Abs.up at h
  split at h
  · cases h
  · split at h
    · split at h
      · injection h with h; subst h; exact hi
      · split at h
        · cases h
        · rename_i t ht
          injection h with h
          subst h
          exact ⟨RunningIsCurrent_setState ht (by decide) hi.1, (setState_length ht).trans hi.2⟩
    · injection h with h; subst h; exact hi

theorem Abs.down_RunInv {cfg : Config} {clock sem : Int} {a a1 : Abs.State}
    (hi : Abs.RunInv cfg a) (h : Abs.down cfg clock sem a = .ok a1) : Abs.RunInv cfg a1 := by
  unfold Abs.down at h
  split at h
  · cases h
  · split at h
    · split at h
      · cases h
      · rename_i t1 ht1
        split at h
        · cases h
        · rename_i t2 ht2
          exact Abs.round_robin_RunInv
            (NoRunning_addTime ht2 (NoRunning_setState_current ht1 (by decide) hi.1))
            ((addTime_length ht2).trans ((setState_length ht1).trans hi.2)) h
    · injection h with h; subst h; exact hi

theorem Abs.handle_trap_RunInv {cfg : Config} {clock R1 R2 R3 : Int} {a a1 : Abs.State}
    (hi : Abs.RunInv cfg a) (h : Abs.handle_trap cfg clock R1 R2 R3 a = .ok a1) :
    Abs.RunInv cfg a1 := by
  unfold Abs.handle_trap at h
  simp only [Abs.State.printf] at h
  split at h
  · split at h
    · cases h
    · rename_i t1 ht1
      split at h
      · cases h
      · rename_i t2 ht2
        exact Abs.round_robin_RunInv
          (NoRunning_addTime ht2 (NoRunning_setState_current ht1 (by decide) hi.1))
          ((addTime_length ht2).trans ((setState_length ht1).trans hi.2)) h
  split at h
  · injection h with h; subst h; exact hi
  split at h
  · split at h
    · cases h
    · rename_i t1 ht1
      split at h
      · cases h
      · rename_i t2 ht2
        exact Abs.round_robin_RunInv
          (NoRunning_addTime ht2 (NoRunning_setState_current ht1 (by decide) hi.1))
          ((addTime_length ht2).trans ((setState_length ht1).trans hi.2)) h
  split at h
  · split at h
    · cases h
    · rename_i t ht
      injection h with h
      subst h
      exact ⟨RunningIsCurrent_setState ht (by decide) hi.1, (setState_length ht).trans hi.2⟩
  split at h
  · split at h
    · cases h
    · rename_i t1 ht1
      split at h
      · cases h
      · split at h
        · cases h
        · split at h
          · cases h
          · rename_i t2 ht2
            exact Abs.round_robin_RunInv
              (NoRunning_setState_current ht2 (by decide) (RunningIsCurrent_addTime ht1 hi.1))
              ((setState_length ht2).trans ((addTime_length ht1).trans hi.2)) h
  split at h
  · split at h
    · exact Abs.up_RunInv (a := { a with trace := a.trace ++ [.sem_up clock a.current_pid R2] }) hi h
    · exact Abs.down_RunInv
        (a := { a with trace := a.trace ++ [.sem_down clock a.current_pid R2] }) hi h
  · injection h with h; subst h; exact hi

theorem Abs.handle_clock_interrupt_RunInv {cfg : Config} {clock : Int} {a a1 : Abs.State}
    (hi : Abs.RunInv cfg a) (h : Abs.handle_clock_interrupt cfg clock a = .ok a1) :
    Abs.RunInv cfg a1 := by
  unfold Abs.handle_clock_interrupt at h
  split at h
  · split at h
    · cases h
    · rename_i t1 ht1
      split at h
      · cases h
      · rename_i t2 ht2
        exact Abs.round_robin_RunInv
          (NoRunning_setState_current ht2 (by decide) (RunningIsCurrent_addTime ht1 hi.1))
          ((setState_length ht2).trans ((addTime_length ht1).trans hi.2)) h
  · injection h with h; subst h; exact hi

theorem Abs.handle_device_interrupt_RunInv {cfg : Config} (hidle : cfg.idleOutside)
    {clock R1 : Int} {line : TraceLine} {a a1 : Abs.State}
    (hi : Abs.RunInv cfg a) (h : Abs.handle_device_interrupt cfg clock R1 line a = .ok a1) :
    Abs.RunInv cfg a1 := by
  unfold Abs.handle_device_interrupt at h
  simp only [Abs.State.printf] at h
  split at h
  · cases h
  · rename_i t ht
    have hrc := RunningIsCurrent_setState ht (by decide) hi.1
    have hlen := (setState_length ht).trans hi.2
    split at h
    · rename_i hcur
      rw [hcur] at hrc
      exact Abs.round_robin_RunInv (NoRunning_of_idle hidle hlen hrc) hlen h
    · injection h with h
      subst h
      exact ⟨hrc, hlen⟩

theorem Abs.deliver_RunInv {cfg : Config} (hidle : cfg.idleOutside) {clock : Int} {e : Event}
    {a a1 : Abs.State} (hi : Abs.RunInv cfg a) (h : Abs.deliver cfg clock e a = .ok a1) :
    Abs.RunInv cfg a1 := by
  cases e with
  | trap R1 R2 R3 => exact Abs.handle_trap_RunInv hi h
  | clock_interrupt => exact Abs.handle_clock_interrupt_RunInv hi h
  | disk_interrupt R1 => exact Abs.handle_device_interrupt_RunInv hidle hi h
  | keyboard_interrupt R1 => exact Abs.handle_device_interrupt_RunInv hidle hi h

theorem arrGet_replicate {α : Type} {n : Nat} {x y : α} {i : Int}
    (h : arrGet (List.replicate n x) i = some y) : y = x :=
  List.eq_of_mem_replicate (arrGet_mem h)

theorem view_RunInv_init {cfg : Config} {clock : Int} {s : KState}
    (h : initialize_kernel cfg clock = .ok s) : Abs.RunInv cfg (view s) := by
  obtain ⟨t, ht, hs⟩ := initialize_kernel_ok h
  subst hs
  refine ⟨RunningIsCurrent_setState_running ht ?_, ?_⟩
  · intro j e he hr
    rw [arrGet_replicate he] at hr
    cases hr
  · exact (setState_length ht).trans (by simp)

theorem ReachableVia_RunInv {cfg : Config} (hidle : cfg.idleOutside)
    {adm : KState → Int → Event → Prop} {s : KState} (hr : ReachableVia cfg adm s) :
    Abs.RunInv cfg (view s) :=
  ReachableVia_view_inv (Abs.RunInv cfg) (fun _ _ h => view_RunInv_init h)
    (fun _ _ _ _ hi h => Abs.deliver_RunInv hidle hi h) hr

theorem setState_valid {tbl t : List PROCESS_TABLE_ENTRY} {i : Int} {st : PROCESS_STATE}
    (h : setState tbl i st = some t) : 0 ≤ i ∧ i < (t.length : Int) := by
  obtain ⟨e, he, _⟩ := setState_some h
  rw [setState_length h]
  exact arrGet_lt he

theorem addTime_valid {tbl t : List PROCESS_TABLE_ENTRY} {i d : Int}
    (h : addTime tbl i d = some t) : 0 ≤ i ∧ i < (t.length : Int) := by
  obtain ⟨e, he, _⟩ := addTime_some h
  rw [addTime_length h]
  exact arrGet_lt he

theorem Abs.round_robin_exit {cfg : Config} {clock c : Int} {a a1 : Abs.State}
    (h : Abs.round_robin cfg clock a = .exit c a1) :
    c = 1 ∧ (a.rq.head?).getD cfg.IDLE_PROCESS = cfg.IDLE_PROCESS ∧
      a.outstanding_requests = 0 ∧
      a1 = { a with rq := a.rq.tail, current_pid := (a.rq.head?).getD cfg.IDLE_PROCESS,
                    trace := a.trace ++ [.deadlock] } := by
  unfold Abs.round_robin at h
  dsimp only at h
  split at h
  · rename_i hidle
    split at h
    · rename_i hout
      injection h with hc hs
      exact ⟨hc.symm, hidle, hout, hs.symm⟩
    · cases h
  · split at h <;> cases h

theorem ReachableVia_mono {cfg : Config} {adm adm1 : KState → Int → Event → Prop}
    (h : ∀ s c e, adm s c e → adm1 s c e) {s : KState} (hr : ReachableVia cfg adm s) :
    ReachableVia cfg adm1 s := by
  induction hr with
  | boot clock s hb => exact .boot clock s hb
  | step s clock e s1 _ ha hd ih => exact .step s clock e s1 ih (h _ _ _ ha) hd

theorem exBoot_reachable (adm : KState → Int → Event → Prop) : ReachableVia cfg0 adm exBoot :=
  .boot 0 exBoot (by decide)

theorem exBlocked_reachable : ReachableVia cfg0 (operandsInRange cfg0) exBlocked :=
  .step exDown 10 (.trap 5 3 0) exBlocked
    (.step exFork 5 (.trap 5 3 0) exDown
      (.step exBoot 0 (.trap 3 1 0) exFork (exBoot_reachable _)
        (by simp [operandsInRange, cfg0]) (by decide))
      (by simp [operandsInRange, cfg0, NUMBER_OF_SEMAPHORES]) (by decide))
    (by simp [operandsInRange, cfg0, NUMBER_OF_SEMAPHORES]) (by decide)

theorem exIdle_reachable : ReachableVia cfg0 (operandsInRange cfg0) exIdle :=
  .step exBoot 7 (.trap 0 0 0) exIdle (exBoot_reachable _)
    (by simp [operandsInRange, cfg0]) (by decide)

theorem operandsInRange_semIds (cfg : Config) (s : KState) (c : Int) (e : Event)
    (h : operandsInRange cfg s c e) : semIdsInRange cfg s c e := by
  cases e with
  | trap R1 R2 R3 => exact h.1
  | clock_interrupt => trivial
  | disk_interrupt R1 => trivial
  | keyboard_interrupt R1 => trivial

/-- C1. Semaphore invariant: in every state reachable from `initialize_kernel` by
handler invocations whose semaphore ids lie in 0..15, every semaphore `i` of 0..15
has a value `v ≥ 0`, and `v > 0` implies that its wait queue is empty. -/
theorem semaphore_invariant (cfg : Config) (s : KState)
    (hr : ReachableVia cfg (semIdsInRange cfg) s) (i : Int) (h0 : 0 ≤ i)
    (h1 : i < NUMBER_OF_SEMAPHORES) :
    ∃ v, semValue s i = some v ∧ 0 ≤ v ∧ (0 < v → waitQueue s i = []) := by
  have hinv : Abs.SemInv (view s) :=
    ReachableVia_view_inv Abs.SemInv (fun _ _ h => view_SemInv_init h)
      (fun _ _ _ _ hi h => Abs.deliver_SemInv hi h) hr
  have hlen : s.semaphores.length = NUMBER_OF_SEMAPHORES := by
    have := semaphores_length hr
    simpa [view, semView] using this
  have hlt : i.toNat < s.semaphores.length := by omega
  obtain ⟨e, hg⟩ : ∃ e, arrGet s.semaphores i = some e := by
    unfold arrGet
    rw [if_pos h0, List.getElem?_eq_getElem hlt]
    exact ⟨_, rfl⟩
  have hmem : ({ value := e.value, waiting := contents s.heap e.q } : Abs.Sem)
      ∈ (view s).semaphores := by
    simp only [view, semView, List.mem_map]
    exact ⟨e, arrGet_mem hg, rfl⟩
  have := hinv _ hmem
  refine ⟨e.value, by simp [semValue, hg], this.1, ?_⟩
  intro hv
  simp only [waitQueue, hg]
  exact this.2 hv

/-- Witness for C1: semaphore 3 in `exBlocked`, where process 0 waits on it. -/
theorem semaphore_invariant_witness :
    ReachableVia cfg0 (semIdsInRange cfg0) exBlocked ∧
      semValue exBlocked 3 = some 0 ∧ waitQueue exBlocked 3 = [0] ∧
      ∃ v, semValue exBlocked 3 = some v ∧ 0 ≤ v ∧ (0 < v → waitQueue exBlocked 3 = []) :=
  ⟨ReachableVia_mono (operandsInRange_semIds cfg0) exBlocked_reachable, by decide, by decide,
    semaphore_invariant cfg0 exBlocked
      (ReachableVia_mono (operandsInRange_semIds cfg0) exBlocked_reachable) 3 (by decide)
      (by decide)⟩

/-- C7. Single-runner invariant: in every state reachable from `initialize_kernel` by
handler invocations with in-range PID and semaphore operands (the idle sentinel not
being a table index), at most one process table entry is `RUNNING`, and a `RUNNING`
entry has PID `current_pid`. -/
theorem single_runner (cfg : Config) (hidle : cfg.idleOutside) (s : KState)
    (hr : ReachableVia cfg (operandsInRange cfg) s) :
    (∀ i j, procState s i = some .RUNNING → procState s j = some .RUNNING → i = j) ∧
      (∀ i, procState s i = some .RUNNING → i = s.current_pid) := by
  have hinv := (ReachableVia_RunInv hidle hr).1
  have hcur : ∀ i, procState s i = some .RUNNING → i = s.current_pid := by
    intro i hi
    unfold procState at hi
    cases hg : arrGet s.process_table i with
    | none => rw [hg] at hi; cases hi
    | some e =>
      rw [hg] at hi
      exact hinv i e hg (by simpa using hi)
  exact ⟨fun i j hi hj => (hcur i hi).trans (hcur j hj).symm, hcur⟩

/-- Witness for C7: `exBlocked`, where process 1 is the one running process. -/
theorem single_runner_witness :
    cfg0.idleOutside ∧ ReachableVia cfg0 (operandsInRange cfg0) exBlocked ∧
      procState exBlocked 1 = some .RUNNING ∧
      ((∀ i j, procState exBlocked i = some .RUNNING → procState exBlocked j = some .RUNNING →
          i = j) ∧
        (∀ i, procState exBlocked i = some .RUNNING → i = exBlocked.current_pid)) :=
  ⟨by decide, exBlocked_reachable, by decide,
    single_runner cfg0 (by decide) exBlocked exBlocked_reachable⟩

/-! ## C5: the dispatcher on a non-empty ready queue -/

theorem exFork_reachable : ReachableVia cfg0 (operandsInRange cfg0) exFork :=
  .step exBoot 0 (.trap 3 1 0) exFork (exBoot_reachable _)
    (by simp [operandsInRange, cfg0]) (by decide)

theorem exDown_reachable : ReachableVia cfg0 (operandsInRange cfg0) exDown :=
  .step exFork 5 (.trap 5 3 0) exDown exFork_reachable
    (by simp [operandsInRange, cfg0, NUMBER_OF_SEMAPHORES]) (by decide)

theorem cpuTime_setState {tbl t : List PROCESS_TABLE_ENTRY} {i : Int} {st : PROCESS_STATE}
    (h : setState tbl i st = some t) (j : Int) :
    (arrGet t j).map (fun e => e.total_CPU_time_used)
      = (arrGet tbl j).map (fun e => e.total_CPU_time_used) := by
  rw [arrGet_setState h]
  split
  · rename_i hji
    subst hji
    cases arrGet tbl j <;> rfl
  · rfl

theorem setState_isSome {tbl : List PROCESS_TABLE_ENTRY} {i : Int} (st : PROCESS_STATE)
    (h0 : 0 ≤ i) (h1 : i < tbl.length) : ∃ t, setState tbl i st = some t := by
  have hlt : i.toNat < tbl.length := by omega
  unfold setState arrGet
  rw [if_pos h0, List.getElem?_eq_getElem hlt]
  exact ⟨_, rfl⟩

theorem semValue_view (s : KState) (j : Int) :
    semValue s j = (arrGet (view s).semaphores j).map (fun e => e.value) := by
  show _ = (arrGet (semView s.heap s.semaphores) j).map _
  rw [arrGet_semView]
  unfold semValue
  cases arrGet s.semaphores j <;> rfl

theorem waitQueue_view (s : KState) (j : Int) :
    waitQueue s j = ((arrGet (view s).semaphores j).map (fun e => e.waiting)).getD [] := by
  show _ = ((arrGet (semView s.heap s.semaphores) j).map _).getD []
  rw [arrGet_semView]
  unfold waitQueue
  cases arrGet s.semaphores j <;> rfl

theorem addTime_isSome {tbl : List PROCESS_TABLE_ENTRY} {i : Int} (d : Int)
    (h0 : 0 ≤ i) (h1 : i < tbl.length) : ∃ t, addTime tbl i d = some t := by
  have hlt : i.toNat < tbl.length := by omega
  unfold addTime arrGet
  rw [if_pos h0, List.getElem?_eq_getElem hlt]
  exact ⟨_, rfl⟩

/-- C3. `down(sem)` in a state where process `p` is `RUNNING` with `current_pid = p`
and the semaphore's value `v` is `≥ 0`.  If `v > 0`, the value is decremented by one
and nothing else changes.  If `v = 0`, `down` is the dispatcher run once on a state
`s0` that differs from `s` exactly in this: `p` is `BLOCKED`, its
`total_CPU_time_used` has grown by `clock - current_quantum_start_time`, and `p` is
appended at the tail of the semaphore's wait queue (the value stays 0). -/
theorem down_spec (cfg : Config) (clock sem : Int) (s : KState) (hw : WF s) (p : Int)
    (hcur : s.current_pid = p) (hrun : procState s p = some .RUNNING)
    (v : Int) (hv : semValue s sem = some v) (hv0 : 0 ≤ v) :
    (0 < v → ∃ e, arrGet s.semaphores sem = some e ∧
      down cfg clock sem s
        = .ok { s with semaphores := s.semaphores.set sem.toNat { e with value := v - 1 } } ∧
      ∃ s1, down cfg clock sem s = .ok s1 ∧ semValue s1 sem = some (v - 1) ∧
        (∀ j, j ≠ sem → semValue s1 j = semValue s j) ∧
        (∀ j, waitQueue s1 j = waitQueue s j) ∧ readyQueue s1 = readyQueue s) ∧
    (v = 0 → ∃ s0 t0, down cfg clock sem s = round_robin cfg clock s0 ∧ WF s0 ∧
      procState s0 p = some .BLOCKED ∧ cpuTime s p = some t0 ∧
      cpuTime s0 p = some (t0 + (clock - s.current_quantum_start_time)) ∧
      (∀ j, j ≠ p → arrGet s0.process_table j = arrGet s.process_table j) ∧
      waitQueue s0 sem = waitQueue s sem ++ [p] ∧
      (∀ j, j ≠ sem → waitQueue s0 j = waitQueue s j) ∧
      (∀ j, semValue s0 j = semValue s j) ∧
      readyQueue s0 = readyQueue s ∧
      s0.current_pid = s.current_pid ∧
      s0.current_quantum_start_time = s.current_quantum_start_time ∧
      s0.outstanding_requests = s.outstanding_requests ∧
      s0.num_processes = s.num_processes ∧
      s0.idle_process_running = s.idle_process_running ∧
      s0.trace = s.trace ∧ s0.devlog = s.devlog) := by
  subst hcur
  obtain ⟨e, hg, hev⟩ : ∃ e, arrGet s.semaphores sem = some e ∧ e.value = v := by
    unfold semValue at hv
    cases hg : arrGet s.semaphores sem with
    | none => rw [hg] at hv; cases hv
    | some e => rw [hg] at hv; exact ⟨e, rfl, by simpa using hv⟩
  subst hev
  have hvs : arrGet (view s).semaphores sem
      = some { value := e.value, waiting := contents s.heap e.q } := by
    show arrGet (semView s.heap s.semaphores) sem = _
    rw [arrGet_semView, hg]; rfl
  constructor
  · intro hpos
    have hne : ¬ e.value = 0 := by omega
    have hd : down cfg clock sem s
        = .ok { s with
            semaphores := s.semaphores.set sem.toNat { e with value := e.value - 1 } } := by
      unfold down
      simp only [hg, if_neg hne]
    obtain ⟨_, hsv⟩ := WFq_set_value (e.value - 1) hw hg
    have hview : (view { s with
        semaphores := s.semaphores.set sem.toNat { e with value := e.value - 1 } }).semaphores
          = (view s).semaphores.set sem.toNat
              { value := e.value - 1, waiting := contents s.heap e.q } := hsv
    refine ⟨e, hg, hd, _, hd, ?_, ?_, ?_, rfl⟩
    · rw [semValue_view, hview, arrGet_set _ _ _ _ _ hvs, if_pos rfl]; rfl
    · intro j hj
      rw [semValue_view, semValue_view, hview, arrGet_set _ _ _ _ _ hvs, if_neg hj]
    · intro j
      rw [waitQueue_view, waitQueue_view, hview, arrGet_set _ _ _ _ _ hvs]
      split
      · rename_i hj; subst hj; rw [hvs]; rfl
      · rfl
  · intro hz
    have hez : e.value = 0 := by omega
    obtain ⟨e0, he0, hst0⟩ : ∃ e0, arrGet s.process_table s.current_pid = some e0 ∧
        e0.state = .RUNNING := by
      unfold procState at hrun
      cases hg0 : arrGet s.process_table s.current_pid with
      | none => rw [hg0] at hrun; cases hrun
      | some e0 => rw [hg0] at hrun; exact ⟨e0, rfl, by simpa using hrun⟩
    obtain ⟨hp0, hp1⟩ := arrGet_lt he0
    obtain ⟨t1, ht1⟩ := setState_isSome .BLOCKED hp0 hp1
    obtain ⟨t2, ht2⟩ := addTime_isSome (clock - s.current_quantum_start_time) hp0
      (by rw [setState_length ht1]; exact hp1)
    obtain ⟨q1, h1, he, hw1, hc1, hsv1⟩ := WFq_enq_sem s.current_pid hw hg
    have hview : (view { s with
        process_table := t2, heap := h1,
        semaphores := s.semaphores.set sem.toNat { e with q := q1 } }).semaphores
          = (view s).semaphores.set sem.toNat
              { value := e.value, waiting := contents s.heap e.q ++ [s.current_pid] } := hsv1
    have hget1 : arrGet t1 s.current_pid = some { e0 with state := .BLOCKED } := by
      rw [arrGet_setState ht1, if_pos rfl, he0]; rfl
    refine ⟨{ s with
        process_table := t2, heap := h1,
        semaphores := s.semaphores.set sem.toNat { e with q := q1 } }, e0.total_CPU_time_used,
      ?_, hw1, ?_, ?_, ?_, ?_, ?_, ?_, ?_, hc1, rfl, rfl, rfl, rfl, rfl, rfl, rfl⟩
    · unfold down
      simp only [hg, if_pos hez, ht1, ht2, he]
    · unfold procState
      simp only
      rw [arrGet_addTime ht2, if_pos rfl, hget1]; rfl
    · unfold cpuTime; rw [he0]; rfl
    · unfold cpuTime
      simp only
      rw [arrGet_addTime ht2, if_pos rfl, hget1]; rfl
    · intro j hj
      simp only
      rw [arrGet_addTime ht2, if_neg hj, arrGet_setState ht1, if_neg hj]
    · rw [waitQueue_view, waitQueue_view, hview, arrGet_set _ _ _ _ _ hvs, if_pos rfl, hvs]; rfl
    · intro j hj
      rw [waitQueue_view, waitQueue_view, hview, arrGet_set _ _ _ _ _ hvs, if_neg hj]
    · intro j
      rw [semValue_view, semValue_view, hview, arrGet_set _ _ _ _ _ hvs]
      split
      · rename_i hj; subst hj; rw [hvs]; rfl
      · rfl

/-- Witness for C3, blocking path: process 0 runs in `exDown`, where semaphore 3 is 0. -/
theorem down_spec_witness :
    WF exDown ∧ exDown.current_pid = 0 ∧ procState exDown 0 = some .RUNNING ∧
      semValue exDown 3 = some 0 ∧ down cfg0 10 3 exDown = .ok
        { exBlocked with trace := [.fork 0 1, .sem_down 5 0 3, .runs 10 1] } ∧
      ∃ s0 t0, down cfg0 10 3 exDown = round_robin cfg0 10 s0 ∧ WF s0 ∧
      procState s0 0 = some .BLOCKED ∧ cpuTime exDown 0 = some t0 ∧
      cpuTime s0 0 = some (t0 + (10 - exDown.current_quantum_start_time)) ∧
      (∀ j, j ≠ 0 → arrGet s0.process_table j = arrGet exDown.process_table j) ∧
      waitQueue s0 3 = waitQueue exDown 3 ++ [0] ∧
      (∀ j, j ≠ 3 → waitQueue s0 j = waitQueue exDown j) ∧
      (∀ j, semValue s0 j = semValue exDown j) ∧
      readyQueue s0 = readyQueue exDown ∧
      s0.current_pid = exDown.current_pid ∧
      s0.current_quantum_start_time = exDown.current_quantum_start_time ∧
      s0.outstanding_requests = exDown.outstanding_requests ∧
      s0.num_processes = exDown.num_processes ∧
      s0.idle_process_running = exDown.idle_process_running ∧
      s0.trace = exDown.trace ∧ s0.devlog = exDown.devlog :=
  ⟨ReachableVia_WF exDown_reachable, by decide, by decide, by decide, by decide,
    (down_spec cfg0 10 3 exDown (ReachableVia_WF exDown_reachable) 0 (by decide) (by decide)
      0 (by decide) (by decide)).2 rfl⟩

/-! ## C2: direct transfer by `up` -/

theorem exIdle_reachable_any : Reachable cfg0 exIdle :=
  ReachableVia_mono (fun _ _ _ _ => trivial) exIdle_reachable

/-- The dispatcher treats alike two states that agree on everything but the trace,
the device log and `current_quantum_start_time`. -/
theorem round_robin_sameSched (cfg : Config) (clock : Int) (a b : KState) (hab : sameSched a b) :
    (∀ a1, round_robin cfg clock a = .ok a1 →
      ∃ b1, round_robin cfg clock b = .ok b1 ∧ sameSched a1 b1 ∧
        (a1.current_pid ≠ cfg.IDLE_PROCESS →
          a1.current_quantum_start_time = clock ∧ b1.current_quantum_start_time = clock) ∧
        (a1.current_pid = cfg.IDLE_PROCESS →
          a1.current_quantum_start_time = a.current_quantum_start_time ∧
          b1.current_quantum_start_time = b.current_quantum_start_time)) ∧
    (∀ c a1, round_robin cfg clock a = .exit c a1 →
      ∃ b1, round_robin cfg clock b = .exit c b1 ∧ sameSched a1 b1) ∧
    (∀ f, round_robin cfg clock a = .fault f → round_robin cfg clock b = .fault f) := by
  obtain ⟨pt, idl, heap, rq, sems, st, out, num, cur, tr, dl⟩ := a
  obtain ⟨pt2, idl2, heap2, rq2, sems2, st2, out2, num2, cur2, tr2, dl2⟩ := b
  obtain ⟨hpt, hheap, hrq, hsem, hout, hnum, hidl, hcur⟩ := hab
  simp only at hpt hheap hrq hsem hout hnum hidl hcur
  subst hpt hheap hrq hsem hout hnum hidl hcur
  unfold round_robin
  simp only [KState.printf]
  cases hd : dequeue cfg.IDLE_PROCESS rq heap with
  | none =>
    exact ⟨fun a1 h => (by cases h), fun c a1 h => (by cases h), fun f h => h⟩
  | some r =>
    obtain ⟨pid, rq1⟩ := r
    simp only
    by_cases hi : pid = cfg.IDLE_PROCESS
    · rw [if_pos hi, if_pos hi]
      by_cases ho : out = 0
      · rw [if_pos ho, if_pos ho]
        refine ⟨fun a1 h => (by cases h), ?_, fun f h => (by cases h)⟩
        intro c a1 h
        injection h with hc hs
        subst hc; subst hs
        exact ⟨_, rfl, rfl, rfl, rfl, rfl, rfl, rfl, rfl, rfl⟩
      · rw [if_neg ho, if_neg ho]
        refine ⟨?_, fun c a1 h => (by cases h), fun f h => (by cases h)⟩
        intro a1 h
        injection h with hs
        subst hs
        cases idl <;>
          exact ⟨_, rfl, ⟨rfl, rfl, rfl, rfl, rfl, rfl, rfl, rfl⟩, fun hne => absurd hi hne,
            fun _ => ⟨rfl, rfl⟩⟩
    · rw [if_neg hi, if_neg hi]
      cases hs : setState pt pid .RUNNING with
      | none =>
        exact ⟨fun a1 h => (by cases h), fun c a1 h => (by cases h), fun f h => h⟩
      | some t =>
        refine ⟨?_, fun c a1 h => (by cases h), fun f h => (by cases h)⟩
        intro a1 h
        injection h with h
        subst h
        exact ⟨_, rfl, ⟨rfl, rfl, rfl, rfl, rfl, rfl, rfl, rfl⟩, fun _ => ⟨rfl, rfl⟩,
          fun hc => absurd hc hi⟩

/-- C9 (as amended). `KEYBOARD_READ` against `DISK_READ` from the same state: the two
traps have the same kind of outcome (normal return, halt with the same status,
or the same undefined access) and leave the same process table, queues, semaphores,
`outstanding_requests`, `num_processes`, idle flag and `current_pid`.  When the
dispatcher selects a process both leave `current_quantum_start_time = clock`; when
the processor goes idle, `KEYBOARD_READ` leaves `current_quantum_start_time = clock`
and `DISK_READ` leaves it unchanged. -/
theorem keyboard_read_vs_disk_read (cfg : Config) (hdist : cfg.distinctOpcodes)
    (clock R2 R3 R2d R3d : Int) (s : KState) :
    (∀ sk, handle_trap cfg clock cfg.KEYBOARD_READ R2 R3 s = .ok sk →
      ∃ sd, handle_trap cfg clock cfg.DISK_READ R2d R3d s = .ok sd ∧ sameSched sk sd ∧
        (sk.current_pid ≠ cfg.IDLE_PROCESS →
          sk.current_quantum_start_time = clock ∧ sd.current_quantum_start_time = clock) ∧
        (sk.current_pid = cfg.IDLE_PROCESS →
          sk.current_quantum_start_time = clock ∧
          sd.current_quantum_start_time = s.current_quantum_start_time)) ∧
    (∀ c sk, handle_trap cfg clock cfg.KEYBOARD_READ R2 R3 s = .exit c sk →
      ∃ sd, handle_trap cfg clock cfg.DISK_READ R2d R3d s = .exit c sd ∧ sameSched sk sd) ∧
    (∀ f, handle_trap cfg clock cfg.KEYBOARD_READ R2 R3 s = .fault f →
      handle_trap cfg clock cfg.DISK_READ R2d R3d s = .fault f) := by
  have hne1 : cfg.KEYBOARD_READ ≠ cfg.DISK_READ := by
    intro h; unfold Config.distinctOpcodes at hdist; simp [h] at hdist
  have hne2 : cfg.KEYBOARD_READ ≠ cfg.DISK_WRITE := by
    intro h; unfold Config.distinctOpcodes at hdist; simp [h] at hdist
  unfold handle_trap
  rw [if_neg hne1, if_neg hne2, if_pos rfl, if_pos rfl]
  simp only [KState.printf]
  cases hs1 : setState s.process_table s.current_pid .BLOCKED with
  | none => exact ⟨fun a1 h => (by cases h), fun c a1 h => (by cases h), fun f h => h⟩
  | some t1 =>
    simp only
    cases hs2 : addTime t1 s.current_pid (clock - s.current_quantum_start_time) with
    | none => exact ⟨fun a1 h => (by cases h), fun c a1 h => (by cases h), fun f h => h⟩
    | some t2 =>
      simp only
      exact round_robin_sameSched cfg clock
        { s with outstanding_requests := s.outstanding_requests + 1,
                 trace := s.trace ++ [.keyboard_read clock s.current_pid],
                 devlog := s.devlog ++ [.keyboard_read_req s.current_pid],
                 process_table := t2, current_quantum_start_time := clock }
        { s with outstanding_requests := s.outstanding_requests + 1,
                 trace := s.trace ++ [.disk_read clock s.current_pid],
                 devlog := s.devlog ++ [.disk_read_req s.current_pid R2d],
                 process_table := t2 }
        ⟨rfl, rfl, rfl, rfl, rfl, rfl, rfl, rfl⟩

/-- Witness for C9 (as amended): the two traps issued by process 0 in `exFork`, where
process 1 is ready. -/
theorem keyboard_read_vs_disk_read_witness :
    cfg0.distinctOpcodes ∧
    (∀ sk, handle_trap cfg0 7 cfg0.KEYBOARD_READ 0 0 exFork = .ok sk →
      ∃ sd, handle_trap cfg0 7 cfg0.DISK_READ 0 0 exFork = .ok sd ∧ sameSched sk sd ∧
        (sk.current_pid ≠ cfg0.IDLE_PROCESS →
          sk.current_quantum_start_time = 7 ∧ sd.current_quantum_start_time = 7) ∧
        (sk.current_pid = cfg0.IDLE_PROCESS →
          sk.current_quantum_start_time = 7 ∧
          sd.current_quantum_start_time = exFork.current_quantum_start_time)) ∧
    (∀ c sk, handle_trap cfg0 7 cfg0.KEYBOARD_READ 0 0 exFork = .exit c sk →
      ∃ sd, handle_trap cfg0 7 cfg0.DISK_READ 0 0 exFork = .exit c sd ∧ sameSched sk sd) ∧
    (∀ f, handle_trap cfg0 7 cfg0.KEYBOARD_READ 0 0 exFork = .fault f →
      handle_trap cfg0 7 cfg0.DISK_READ 0 0 exFork = .fault f) :=
  ⟨by decide, keyboard_read_vs_disk_read cfg0 (by decide) 7 0 0 0 0 exFork⟩

/-- Counterexample to C9: process 0 runs alone in `exBoot` (quantum started at 0);
at time 7 `KEYBOARD_READ` leaves `current_quantum_start_time = 7` and `DISK_READ`
leaves it at 0. -/
theorem keyboard_read_not_symmetric :
    exBoot.current_pid = 0 ∧ procState exBoot 0 = some .RUNNING ∧
    handle_trap cfg0 7 cfg0.DISK_READ 0 0 exBoot = .ok exIdle ∧
    handle_trap cfg0 7 cfg0.KEYBOARD_READ 0 0 exBoot = .ok
      { exIdle with current_quantum_start_time := 7
                    trace := [.keyboard_read 7 0, .idle 7]
                    devlog := [.keyboard_read_req 0] } ∧
    exIdle.current_quantum_start_time = 0 := by
  decide

/-! ## C6 (counterexample), C10 and C8: unchecked operands, slot reuse -/

/-- The last of the states `handle_disk_interrupt` passes through is the state it
returns. -/
theorem handle_disk_interrupt_points_last (cfg : Config) (clock R1 : Int) (s s1 : KState)
    (h : handle_disk_interrupt cfg clock R1 s = .ok s1) :
    (handle_disk_interrupt_points cfg clock R1 s).getLast? = some s1 := by
  unfold handle_disk_interrupt at h
  unfold handle_disk_interrupt_points
  simp only [KState.printf] at h ⊢
  cases hs : setState s.process_table R1 .READY with
  | none => rw [hs] at h; cases h
  | some t =>
    rw [hs] at h
    simp only at h ⊢
    cases he : enqueue R1 s.rq s.heap with
    | none => rw [he] at h; cases h
    | some r =>
      obtain ⟨rq1, h1⟩ := r
      rw [he] at h
      simp only at h ⊢
      by_cases hi : s.current_pid = cfg.IDLE_PROCESS
      · rw [if_pos hi] at h ⊢
        rw [h]
        rfl
      · rw [if_neg hi] at h ⊢
        injection h with h
        subst h
        rfl

/-- C10 (as amended). The handlers do not check their operands.  `handle_trap` with an
opcode that is none of the six case labels returns normally and leaves the whole
state, trace included, unchanged.  A PID operand outside the process table
(`FORK_PROGRAM`, disk and keyboard completion) and a semaphore id outside the
semaphore array (`SEMAPHORE_OP`) are used as an index all the same: the handler runs
into the out-of-bounds access and raises no error of its own. -/
theorem operands_unchecked (cfg : Config) (hdist : cfg.distinctOpcodes)
    (clock R1 R2 R3 : Int) (s : KState) :
    (R1 ∉ cfg.opcodes → handle_trap cfg clock R1 R2 R3 s = .ok s) ∧
    (¬ (0 ≤ R2 ∧ R2 < s.process_table.length) →
      handle_trap cfg clock cfg.FORK_PROGRAM R2 R3 s = .fault (.process_table R2)) ∧
    (¬ (0 ≤ R2 ∧ R2 < s.semaphores.length) →
      handle_trap cfg clock cfg.SEMAPHORE_OP R2 R3 s = .fault (.semaphores R2)) ∧
    (¬ (0 ≤ R1 ∧ R1 < s.process_table.length) →
      handle_disk_interrupt cfg clock R1 s = .fault (.process_table R1) ∧
      handle_keyboard_interrupt cfg clock R1 s = .fault (.process_table R1)) := by
  have oob : ∀ {α : Type} (a : List α) (i : Int), ¬ (0 ≤ i ∧ i < a.length) → arrGet a i = none := by
    intro α a i h
    unfold arrGet
    split
    · rename_i h0
      exact List.getElem?_eq_none (by
        have : ¬ i < a.length := fun hlt => h ⟨h0, hlt⟩
        omega)
    · rfl
  unfold Config.distinctOpcodes at hdist
  simp only [List.nodup_cons, List.mem_cons, List.mem_singleton, not_or, List.not_mem_nil,
    not_false_eq_true, List.nodup_nil, and_true] at hdist
  obtain ⟨⟨h12, h13, h14, h15, h16⟩, ⟨h23, h24, h25, h26⟩, ⟨h34, h35, h36⟩, ⟨h45, h46⟩, h56⟩ :=
    hdist
  refine ⟨?_, ?_, ?_, ?_⟩
  · intro hin
    simp only [Config.opcodes, List.mem_cons, List.mem_singleton, not_or, List.not_mem_nil,
      not_false_eq_true, and_true] at hin
    obtain ⟨g1, g2, g3, g4, g5, g6⟩ := hin
    unfold handle_trap
    rw [if_neg g1, if_neg g2, if_neg g3, if_neg g4, if_neg g5, if_neg g6]
  · intro hin
    unfold handle_trap
    rw [if_neg (Ne.symm h14), if_neg (Ne.symm h24), if_neg (Ne.symm h34), if_pos rfl]
    simp only [KState.printf, setState, oob _ _ hin]
  · intro hin
    unfold handle_trap
    rw [if_neg (Ne.symm h16), if_neg (Ne.symm h26), if_neg (Ne.symm h36), if_neg (Ne.symm h46),
      if_neg (Ne.symm h56), if_pos rfl]
    by_cases h3 : R3 ≠ 0
    · rw [if_pos h3]
      simp only [up, KState.printf, oob _ _ hin]
    · rw [if_neg h3]
      simp only [down, KState.printf, oob _ _ hin]
  · intro hin
    constructor
    · simp only [handle_disk_interrupt, KState.printf, setState, oob _ _ hin]
    · simp only [handle_keyboard_interrupt, KState.printf, setState, oob _ _ hin]

/-- Witness for C10 (as amended): opcode 77, PID 9 and semaphore 16 in `exBoot`. -/
theorem operands_unchecked_witness :
    cfg0.distinctOpcodes ∧
    ((77 : Int) ∉ cfg0.opcodes → handle_trap cfg0 3 77 9 0 exBoot = .ok exBoot) ∧
    (¬ (0 ≤ (9 : Int) ∧ (9 : Int) < exBoot.process_table.length) →
      handle_trap cfg0 3 cfg0.FORK_PROGRAM 9 0 exBoot = .fault (.process_table 9)) ∧
    (¬ (0 ≤ (9 : Int) ∧ (9 : Int) < exBoot.semaphores.length) →
      handle_trap cfg0 3 cfg0.SEMAPHORE_OP 9 0 exBoot = .fault (.semaphores 9)) ∧
    (¬ (0 ≤ (77 : Int) ∧ (77 : Int) < exBoot.process_table.length) →
      handle_disk_interrupt cfg0 3 77 exBoot = .fault (.process_table 77) ∧
      handle_keyboard_interrupt cfg0 3 77 exBoot = .fault (.process_table 77)) :=
  ⟨by decide, operands_unchecked cfg0 (by decide) 3 77 9 0 exBoot⟩

/-- Counterexample to C10: in `exBoot`, `handle_trap` with the unknown opcode 77
returns normally with the state unchanged, and the disk completion handler with
PID 9 (the table has 4 entries) indexes the table out of bounds. -/
theorem unknown_opcode_ignored :
    (77 : Int) ∉ cfg0.opcodes ∧ handle_trap cfg0 3 77 0 0 exBoot = .ok exBoot ∧
    exBoot.process_table.length = 4 ∧
    handle_disk_interrupt cfg0 3 9 exBoot = .fault (.process_table 9) := by
  decide

theorem ok_of_map_view {r : Result KState} {a1 : Abs.State} (h : r.map view = .ok a1) :
    ∃ s1, r = .ok s1 ∧ view s1 = a1 := by
  cases r with
  | ok s1 => exact ⟨s1, rfl, by simpa [Result.map] using h⟩
  | exit c s1 => cases h
  | fault f => cases h

theorem stateFn_setState {tbl t : List PROCESS_TABLE_ENTRY} {i : Int} {st : PROCESS_STATE}
    (h : setState tbl i st = some t) (j : Int) :
    stateFn t j = if j = i then some st else stateFn tbl j := by
  unfold stateFn
  rw [arrGet_setState h]
  split
  · obtain ⟨e, he, _⟩ := setState_some h
    rw [he]; rfl
  · rfl

theorem stateFn_addTime {tbl t : List PROCESS_TABLE_ENTRY} {i d : Int}
    (h : addTime tbl i d = some t) (j : Int) : stateFn t j = stateFn tbl j :=
  addTime_state h j

theorem stateFn_setState_eq {tbl t : List PROCESS_TABLE_ENTRY} {i : Int} {st : PROCESS_STATE}
    (h : setState tbl i st = some t) :
    stateFn t = Function.update (stateFn tbl) i (some st) := by
  funext j
  rw [stateFn_setState h]
  by_cases hj : j = i
  · rw [if_pos hj, hj, Function.update_same]
  · rw [if_neg hj, Function.update_noteq hj]

theorem stateFn_addTime_eq {tbl t : List PROCESS_TABLE_ENTRY} {i d : Int}
    (h : addTime tbl i d = some t) : stateFn t = stateFn tbl :=
  funext (stateFn_addTime h)

theorem liveCount_cons (a : PROCESS_TABLE_ENTRY) (r : List PROCESS_TABLE_ENTRY) :
    liveCount (a :: r) = (if a.state = .UNINITIALIZED then 0 else 1) + liveCount r := by
  unfold liveCount
  by_cases h : a.state = .UNINITIALIZED
  · simp [List.filter_cons, h]
  · simp [List.filter_cons, h]
    omega

theorem liveCount_set : ∀ (tbl : List PROCESS_TABLE_ENTRY) (n : Nat)
    (e0 x : PROCESS_TABLE_ENTRY), tbl[n]? = some e0 →
    liveCount (tbl.set n x) = liveCount tbl - (if e0.state = .UNINITIALIZED then 0 else 1)
      + (if x.state = .UNINITIALIZED then 0 else 1) := by
  intro tbl
  induction tbl with
  | nil => intro n e0 x h; simp at h
  | cons a r ih =>
    intro n e0 x h
    cases n with
    | zero =>
      simp only [List.getElem?_cons_zero, Option.some.injEq] at h
      subst h
      rw [List.set_cons_zero, liveCount_cons, liveCount_cons]
      omega
    | succ n =>
      simp only [List.getElem?_cons_succ] at h
      rw [List.set_cons_succ, liveCount_cons, liveCount_cons, ih n e0 x h]
      omega

theorem liveCount_setState {tbl t : List PROCESS_TABLE_ENTRY} {i : Int}
    {st st0 : PROCESS_STATE} (h : setState tbl i st = some t) (h0 : stateFn tbl i = some st0) :
    liveCount t = liveCount tbl - (if st0 = .UNINITIALIZED then 0 else 1)
      + (if st = .UNINITIALIZED then 0 else 1) := by
  obtain ⟨e, he, rfl⟩ := setState_some h
  have hst : e.state = st0 := by
    unfold stateFn at h0
    rw [he] at h0
    simpa using h0
  rw [liveCount_set _ _ e _ (arrGet_eq_some he).2, hst]

theorem liveCount_addTime {tbl t : List PROCESS_TABLE_ENTRY} {i d : Int}
    (h : addTime tbl i d = some t) : liveCount t = liveCount tbl := by
  obtain ⟨e, he, rfl⟩ := addTime_some h
  rw [liveCount_set _ _ e _ (arrGet_eq_some he).2]
  simp only
  omega

theorem pendingRequest_snoc (tr : List TraceLine) (l : TraceLine) (p : Int) :
    pendingRequest (tr ++ [l]) p = pendingStep p (pendingRequest tr p) l := by
  unfold pendingRequest
  rw [List.foldl_append]
  rfl

/-! ### The queue discipline under the elementary state changes -/

/-- What the discipline says about a process that is neither `READY` nor `BLOCKED`:
it is on no queue and has no pending request. -/
theorem QInv_free {σ : Int → Option PROCESS_STATE} {rq : List Int} {sems : List Abs.Sem}
    {tr : List TraceLine} (hq : QInv σ rq sems tr) {c : Int} {st : PROCESS_STATE}
    (hc : σ c = some st) (h1 : st ≠ .READY) (h2 : st ≠ .BLOCKED) :
    c ∉ rq ∧ (∀ e ∈ sems, c ∉ e.waiting) ∧ pendingRequest tr c = false := by
  obtain ⟨hrq, _, hwb, _, _, hpb⟩ := hq
  refine ⟨fun hm => ?_, fun e he hm => ?_, ?_⟩
  · have := hrq c hm
    rw [hc] at this
    exact h1 (Option.some.inj this)
  · have := hwb e he c hm
    rw [hc] at this
    exact h2 (Option.some.inj this)
  · cases hp : pendingRequest tr c with
    | false => rfl
    | true =>
      have := (hpb c hp).1
      rw [hc] at this
      exact absurd (Option.some.inj this) h2

/-- Changing the state of a process that is on no queue, to `BLOCKED` or while it has
no pending request. -/
theorem QInv_update {σ : Int → Option PROCESS_STATE} {rq : List Int} {sems : List Abs.Sem}
    {tr : List TraceLine} (hq : QInv σ rq sems tr) {c : Int} (x : PROCESS_STATE)
    (h1 : c ∉ rq) (h2 : ∀ e ∈ sems, c ∉ e.waiting)
    (h3 : pendingRequest tr c = false ∨ x = .BLOCKED) :
    QInv (Function.update σ c (some x)) rq sems tr := by
  obtain ⟨hrq, hnd, hwb, hwn, hwd, hpb⟩ := hq
  refine ⟨fun p hp => ?_, hnd, fun e he w hw => ?_, hwn, hwd, fun p hp => ⟨?_, (hpb p hp).2⟩⟩
  · rw [Function.update_noteq (fun (e : p = c) => h1 (e ▸ hp))]
    exact hrq p hp
  · rw [Function.update_noteq (fun (e' : w = c) => h2 e he (e' ▸ hw))]
    exact hwb e he w hw
  · by_cases hpc : p = c
    · subst hpc
      rcases h3 with h3 | h3
      · rw [h3] at hp; cases hp
      · rw [Function.update_same, h3]
    · rw [Function.update_noteq hpc]
      exact (hpb p hp).1

/-- Appending a `READY` process that is not queued yet to the ready queue. -/
theorem QInv_rq_snoc {σ : Int → Option PROCESS_STATE} {rq : List Int} {sems : List Abs.Sem}
    {tr : List TraceLine} (hq : QInv σ rq sems tr) {c : Int}
    (hc : σ c = some .READY) (h1 : c ∉ rq) : QInv σ (rq ++ [c]) sems tr := by
  obtain ⟨hrq, hnd, hwb, hwn, hwd, hpb⟩ := hq
  refine ⟨fun p hp => ?_, ?_, hwb, hwn, hwd, hpb⟩
  · rcases List.mem_append.1 hp with hp | hp
    · exact hrq p hp
    · rw [List.mem_singleton.1 hp]; exact hc
  · rw [List.nodup_append]
    refine ⟨hnd, List.nodup_singleton c, ?_⟩
    intro a ha hb
    rw [List.mem_singleton.1 hb] at ha
    exact h1 ha

/-- Marking a process `READY` and queueing it, when it is on no queue and has no
pending request. -/
theorem QInv_make_ready {σ : Int → Option PROCESS_STATE} {rq : List Int}
    {sems : List Abs.Sem} {tr : List TraceLine} (hq : QInv σ rq sems tr) {c : Int}
    (h1 : c ∉ rq) (h2 : ∀ e ∈ sems, c ∉ e.waiting) (h3 : pendingRequest tr c = false) :
    QInv (Function.update σ c (some .READY)) (rq ++ [c]) sems tr :=
  QInv_rq_snoc (QInv_update hq .READY h1 h2 (Or.inl h3)) (Function.update_same _ _ _) h1

/-- Removing the head of the ready queue and marking it `RUNNING`. -/
theorem QInv_dispatch {σ : Int → Option PROCESS_STATE} {h : Int} {rest : List Int}
    {sems : List Abs.Sem} {tr : List TraceLine} (hq : QInv σ (h :: rest) sems tr) :
    QInv (Function.update σ h (some .RUNNING)) rest sems tr := by
  have hh : σ h = some .READY := hq.1 h (List.mem_cons_self _ _)
  have hfree : (∀ e ∈ sems, h ∉ e.waiting) ∧ pendingRequest tr h = false := by
    obtain ⟨_, _, hwb, _, _, hpb⟩ := hq
    refine ⟨fun e he hm => ?_, ?_⟩
    · have := hwb e he h hm
      rw [hh] at this
      cases this
    · cases hp : pendingRequest tr h with
      | false => rfl
      | true =>
        have := (hpb h hp).1
        rw [hh] at this
        cases this
  have hnd := hq.2.1
  have hnot : h ∉ rest := (List.nodup_cons.1 hnd).1
  have hq1 : QInv σ rest sems tr := by
    obtain ⟨hrq, _, hwb, hwn, hwd, hpb⟩ := hq
    exact ⟨fun p hp => hrq p (List.mem_cons_of_mem _ hp), (List.nodup_cons.1 hnd).2, hwb, hwn,
      hwd, hpb⟩
  exact QInv_update hq1 .RUNNING hnot hfree.1 (Or.inl hfree.2)

/-- Dropping the head of the ready queue (the dispatcher going idle). -/
theorem QInv_rq_tail {σ : Int → Option PROCESS_STATE} {rq : List Int}
    {sems : List Abs.Sem} {tr : List TraceLine} (hq : QInv σ rq sems tr) :
    QInv σ rq.tail sems tr := by
  obtain ⟨hrq, hnd, hwb, hwn, hwd, hpb⟩ := hq
  exact ⟨fun p hp => hrq p (List.mem_of_mem_tail hp), hnd.sublist (List.tail_sublist rq), hwb,
    hwn, hwd, hpb⟩

/-- Appending to the trace a line that is neither a read request nor a completion. -/
theorem QInv_trace {σ : Int → Option PROCESS_STATE} {rq : List Int}
    {sems : List Abs.Sem} {tr : List TraceLine} (hq : QInv σ rq sems tr) (l : TraceLine)
    (hl : ∀ p b, pendingStep p b l = b) : QInv σ rq sems (tr ++ [l]) := by
  obtain ⟨hrq, hnd, hwb, hwn, hwd, hpb⟩ := hq
  refine ⟨hrq, hnd, hwb, hwn, hwd, fun p hp => hpb p ?_⟩
  rw [pendingRequest_snoc, hl] at hp
  exact hp

/-- Replacing one semaphore by one whose wait queue is a sublist of the old one. -/
theorem QInv_sem_shrink {σ : Int → Option PROCESS_STATE} {rq : List Int}
    {sems : List Abs.Sem} {tr : List TraceLine} (hq : QInv σ rq sems tr) {i : Int}
    {e e1 : Abs.Sem} (hi : arrGet sems i = some e) (hsub : e1.waiting.Sublist e.waiting) :
    QInv σ rq (sems.set i.toNat e1) tr := by
  obtain ⟨hrq, hnd, hwb, hwn, hwd, hpb⟩ := hq
  obtain ⟨_, hget⟩ := arrGet_eq_some hi
  have hmem : e ∈ sems := List.getElem?_mem hget
  have key : ∀ x ∈ sems.set i.toNat e1, ∃ y ∈ sems, x.waiting.Sublist y.waiting := by
    intro x hx
    rcases List.mem_or_eq_of_mem_set hx with hx | hx
    · exact ⟨x, hx, List.Sublist.refl _⟩
    · exact ⟨e, hmem, hx ▸ hsub⟩
  have keyi : ∀ (k : Nat) (x : Abs.Sem), (sems.set i.toNat e1)[k]? = some x →
      ∃ y, sems[k]? = some y ∧ x.waiting.Sublist y.waiting := by
    intro k x hx
    rcases getElem?_set_cases _ _ _ _ _ hx with ⟨hk, hxe, _⟩ | ⟨_, hx'⟩
    · exact ⟨e, hk ▸ hget, hxe ▸ hsub⟩
    · exact ⟨x, hx', List.Sublist.refl _⟩
  refine ⟨hrq, hnd, ?_, ?_, ?_, ?_⟩
  · intro x hx w hw
    obtain ⟨y, hy, hs⟩ := key x hx
    exact hwb y hy w (hs.subset hw)
  · intro x hx
    obtain ⟨y, hy, hs⟩ := key x hx
    exact (hwn y hy).sublist hs
  · intro k j xk xj hkj hk hj w hw hw'
    obtain ⟨yk, hyk, hsk⟩ := keyi k xk hk
    obtain ⟨yj, hyj, hsj⟩ := keyi j xj hj
    exact hwd k j yk yj hkj hyk hyj w (hsk.subset hw) (hsj.subset hw')
  · intro p hp
    refine ⟨(hpb p hp).1, fun x hx hm => ?_⟩
    obtain ⟨y, hy, hs⟩ := key x hx
    exact (hpb p hp).2 y hy (hs.subset hm)

/-- Appending a `BLOCKED` process that is on no wait queue and has no pending request
to the wait queue of one semaphore. -/
theorem QInv_wait_snoc {σ : Int → Option PROCESS_STATE} {rq : List Int}
    {sems : List Abs.Sem} {tr : List TraceLine} (hq : QInv σ rq sems tr) {i : Int}
    {e : Abs.Sem} (hi : arrGet sems i = some e) {c : Int} (hc : σ c = some .BLOCKED)
    (h2 : ∀ e ∈ sems, c ∉ e.waiting) (h3 : pendingRequest tr c = false) :
    QInv σ rq (sems.set i.toNat { e with waiting := e.waiting ++ [c] }) tr := by
  obtain ⟨hrq, hnd, hwb, hwn, hwd, hpb⟩ := hq
  obtain ⟨_, hget⟩ := arrGet_eq_some hi
  have hmem : e ∈ sems := List.getElem?_mem hget
  have key : ∀ x ∈ sems.set i.toNat { e with waiting := e.waiting ++ [c] },
      ∀ w ∈ x.waiting, w = c ∨ ∃ y ∈ sems, w ∈ y.waiting := by
    intro x hx w hw
    rcases List.mem_or_eq_of_mem_set hx with hx | hx
    · exact Or.inr ⟨x, hx, hw⟩
    · subst hx
      rcases List.mem_append.1 hw with hw | hw
      · exact Or.inr ⟨e, hmem, hw⟩
      · exact Or.inl (List.mem_singleton.1 hw)
  refine ⟨hrq, hnd, ?_, ?_, ?_, ?_⟩
  · intro x hx w hw
    rcases key x hx w hw with h | ⟨y, hy, hwy⟩
    · rw [h]; exact hc
    · exact hwb y hy w hwy
  · intro x hx
    rcases List.mem_or_eq_of_mem_set hx with hx | hx
    · exact hwn x hx
    · subst hx
      show (e.waiting ++ [c]).Nodup
      rw [List.nodup_append]
      refine ⟨hwn e hmem, List.nodup_singleton c, ?_⟩
      intro a ha hb
      rw [List.mem_singleton.1 hb] at ha
      exact h2 e hmem ha
  · intro k j xk xj hkj hk hj w hw hw'
    rcases getElem?_set_cases _ _ _ _ _ hk with ⟨hki, hxe, _⟩ | ⟨hki, hk'⟩
    · rcases getElem?_set_cases _ _ _ _ _ hj with ⟨hji, _, _⟩ | ⟨_, hj'⟩
      · exact hkj (hki.trans hji.symm)
      · subst hxe
        rcases List.mem_append.1 hw with hw | hw
        · exact hwd k j e xj hkj (hki ▸ hget) hj' w hw hw'
        · rw [List.mem_singleton.1 hw] at hw'
          exact h2 xj (List.getElem?_mem hj') hw'
    · rcases getElem?_set_cases _ _ _ _ _ hj with ⟨hji, hxe, _⟩ | ⟨_, hj'⟩
      · subst hxe
        rcases List.mem_append.1 hw' with hw' | hw'
        · exact hwd k j xk e hkj hk' (hji ▸ hget) w hw hw'
        · rw [List.mem_singleton.1 hw'] at hw
          exact h2 xk (List.getElem?_mem hk') hw
      · exact hwd k j xk xj hkj hk' hj' w hw hw'
  · intro p hp
    refine ⟨(hpb p hp).1, fun x hx hm => ?_⟩
    rcases key x hx p hm with h | ⟨y, hy, hwy⟩
    · rw [h, h3] at hp; cases hp
    · exact (hpb p hp).2 y hy hwy

/-- Waking the head of a wait queue: it leaves the wait queue, becomes `READY` and
joins the ready queue. -/
theorem QInv_wake {σ : Int → Option PROCESS_STATE} {rq : List Int}
    {sems : List Abs.Sem} {tr : List TraceLine} (hq : QInv σ rq sems tr) {i : Int}
    {e : Abs.Sem} (hi : arrGet sems i = some e) {w : Int} {rest : List Int}
    (hw : e.waiting = w :: rest) :
    QInv (Function.update σ w (some .READY)) (rq ++ [w])
      (sems.set i.toNat { e with waiting := rest }) tr := by
  obtain ⟨_, hget⟩ := arrGet_eq_some hi
  have hmem : e ∈ sems := List.getElem?_mem hget
  have hwmem : w ∈ e.waiting := by rw [hw]; exact List.mem_cons_self _ _
  have hwb : σ w = some .BLOCKED := hq.2.2.1 e hmem w hwmem
  have hnrq : w ∉ rq := fun hm => by
    have := hq.1 w hm
    rw [hwb] at this
    cases this
  have hnp : pendingRequest tr w = false := by
    cases hp : pendingRequest tr w with
    | false => rfl
    | true => exact absurd hwmem ((hq.2.2.2.2.2 w hp).2 e hmem)
  have hnd : (w :: rest).Nodup := hw ▸ hq.2.2.2.1 e hmem
  have hq1 : QInv σ rq (sems.set i.toNat { e with waiting := rest }) tr :=
    QInv_sem_shrink hq hi (by rw [hw]; exact List.sublist_cons_self w rest)
  have hnw : ∀ x ∈ sems.set i.toNat { e with waiting := rest }, w ∉ x.waiting := by
    intro x hx hm
    obtain ⟨k, hk⟩ := List.getElem?_of_mem hx
    rcases getElem?_set_cases _ _ _ _ _ hk with ⟨_, hxe, _⟩ | ⟨hki, hk'⟩
    · subst hxe
      exact (List.nodup_cons.1 hnd).1 hm
    · exact hq.2.2.2.2.1 i.toNat k e x (Ne.symm hki) hget hk' w hwmem hm
  exact QInv_make_ready hq1 hnrq hnw hnp

/-- A read request by a process on no queue: it is `BLOCKED` and its request is
recorded in the trace. -/
theorem QInv_request {σ : Int → Option PROCESS_STATE} {rq : List Int}
    {sems : List Abs.Sem} {tr : List TraceLine} (hq : QInv σ rq sems tr) {c : Int}
    (l : TraceLine) (hl : ∀ p b, pendingStep p b l = if c = p then true else b)
    (h1 : c ∉ rq) (h2 : ∀ e ∈ sems, c ∉ e.waiting) :
    QInv (Function.update σ c (some .BLOCKED)) rq sems (tr ++ [l]) := by
  obtain ⟨hrq, hnd, hwb, hwn, hwd, hpb⟩ := QInv_update hq .BLOCKED h1 h2 (Or.inr rfl)
  refine ⟨hrq, hnd, hwb, hwn, hwd, fun p hp => ?_⟩
  rw [pendingRequest_snoc, hl] at hp
  by_cases hcp : c = p
  · subst hcp
    exact ⟨Function.update_same _ _ _, h2⟩
  · rw [if_neg hcp] at hp
    exact hpb p hp

/-- A completion for a process that is `BLOCKED` on a pending request: the request
is closed in the trace, the process becomes `READY` and joins the ready queue. -/
theorem QInv_completion {σ : Int → Option PROCESS_STATE} {rq : List Int}
    {sems : List Abs.Sem} {tr : List TraceLine} (hq : QInv σ rq sems tr) {r : Int}
    (l : TraceLine) (hl : ∀ p b, pendingStep p b l = if r = p then false else b)
    (hb : σ r = some .BLOCKED) (hp : pendingRequest tr r = true) :
    QInv (Function.update σ r (some .READY)) (rq ++ [r]) sems (tr ++ [l]) := by
  have hnrq : r ∉ rq := fun hm => by
    have := hq.1 r hm
    rw [hb] at this
    cases this
  have hnw := (hq.2.2.2.2.2 r hp).2
  -- first close the request, then wake
  have hq1 : QInv σ rq sems (tr ++ [l]) := by
    obtain ⟨hrq, hnd, hwb, hwn, hwd, hpb⟩ := hq
    refine ⟨hrq, hnd, hwb, hwn, hwd, fun p hp' => ?_⟩
    rw [pendingRequest_snoc, hl] at hp'
    by_cases hrp : r = p
    · rw [if_pos hrp] at hp'; cases hp'
    · rw [if_neg hrp] at hp'
      exact hpb p hp'
  have hnp : pendingRequest (tr ++ [l]) r = false := by
    rw [pendingRequest_snoc, hl, if_pos rfl]
  exact QInv_make_ready hq1 hnrq hnw hnp

/-! ## C16: `FORK_PROGRAM` does not preempt -/

/-- The list-level `FORK_PROGRAM` trap with an in-range child. -/
theorem Abs.fork_step (cfg : Config) (hdist : cfg.distinctOpcodes) (clock R3 c : Int)
    (a : Abs.State) (hc : 0 ≤ c ∧ c < (a.process_table.length : Int)) :
    ∃ t, setState a.process_table c .READY = some t ∧
      Abs.handle_trap cfg clock cfg.FORK_PROGRAM c R3 a =
        .ok { a with num_processes := a.num_processes + 1, trace := a.trace ++ [.fork clock c],
                     process_table := t, rq := a.rq ++ [c] } := by
  have hne1 : cfg.FORK_PROGRAM ≠ cfg.DISK_READ := by
    intro h; unfold Config.distinctOpcodes at hdist; simp [h] at hdist
  have hne2 : cfg.FORK_PROGRAM ≠ cfg.DISK_WRITE := by
    intro h; unfold Config.distinctOpcodes at hdist; simp [h] at hdist
  have hne3 : cfg.FORK_PROGRAM ≠ cfg.KEYBOARD_READ := by
    intro h; unfold Config.distinctOpcodes at hdist; simp [h] at hdist
  obtain ⟨t, ht⟩ := setState_isSome .READY hc.1 hc.2
  refine ⟨t, ht, ?_⟩
  unfold Abs.handle_trap
  rw [if_neg hne1, if_neg hne2, if_neg hne3, if_pos rfl]
  simp only [Abs.State.printf, ht]

/-- C16. `FORK_PROGRAM` does not preempt: while process `p` is `RUNNING` as
`current_pid`, the trap with an in-range child `c ≠ p` returns normally, marks `c`
`READY`, appends `c` to the ready queue and increments `num_processes`; it leaves
`current_pid`, the `RUNNING` state of `p`, `current_quantum_start_time`, every other
table entry, the accumulated CPU time of `c`, every semaphore (value and wait queue),
`outstanding_requests` and the idle flag unchanged. -/
theorem fork_no_preempt (cfg : Config) (hdist : cfg.distinctOpcodes) (clock R3 : Int)
    (s : KState) (hw : WF s) (p c : Int) (hcur : s.current_pid = p)
    (hrun : procState s p = some .RUNNING)
    (hc : 0 ≤ c ∧ c < (s.process_table.length : Int)) (hne : c ≠ p) :
    ∃ s1, handle_trap cfg clock cfg.FORK_PROGRAM c R3 s = .ok s1 ∧
      procState s1 c = some .READY ∧ readyQueue s1 = readyQueue s ++ [c] ∧
      s1.num_processes = s.num_processes + 1 ∧
      s1.current_pid = p ∧ procState s1 p = some .RUNNING ∧
      s1.current_quantum_start_time = s.current_quantum_start_time ∧
      (∀ j, j ≠ c → arrGet s1.process_table j = arrGet s.process_table j) ∧
      cpuTime s1 c = cpuTime s c ∧
      (∀ i, semValue s1 i = semValue s i ∧ waitQueue s1 i = waitQueue s i) ∧
      s1.outstanding_requests = s.outstanding_requests ∧
      s1.idle_process_running = s.idle_process_running ∧
      s1.trace = s.trace ++ [.fork clock c] := by
  obtain ⟨t, ht, hstep⟩ := Abs.fork_step cfg hdist clock R3 c (view s) hc
  rw [← (handle_trap_view cfg clock cfg.FORK_PROGRAM c R3 s hw).1] at hstep
  obtain ⟨s1, hs1, hv⟩ := ok_of_map_view hstep
  have hpt : s1.process_table = t := congrArg Abs.State.process_table hv
  have hrq : readyQueue s1 = readyQueue s ++ [c] := congrArg Abs.State.rq hv
  have hsem : (view s1).semaphores = (view s).semaphores := by rw [hv]
  have hstate : ∀ j, procState s1 j = if j = c then some .READY else procState s j := by
    intro j
    have := stateFn_setState ht j
    unfold procState
    rw [hpt]
    exact this
  refine ⟨s1, hs1, ?_, hrq, congrArg Abs.State.num_processes hv,
    hcur ▸ congrArg Abs.State.current_pid hv, ?_,
    congrArg Abs.State.current_quantum_start_time hv, ?_, ?_, ?_,
    congrArg Abs.State.outstanding_requests hv,
    congrArg Abs.State.idle_process_running hv, congrArg Abs.State.trace hv⟩
  · rw [hstate, if_pos rfl]
  · rw [hstate, if_neg (Ne.symm hne)]
    exact hrun
  · intro j hj
    rw [hpt, arrGet_setState ht, if_neg hj]
    rfl
  · unfold cpuTime
    rw [hpt]
    exact cpuTime_setState ht c
  · intro i
    rw [semValue_view, semValue_view, waitQueue_view, waitQueue_view, hsem]
    exact ⟨rfl, rfl⟩

/-- Witness for C16: process 0 forks process 1 right after boot. -/
theorem fork_no_preempt_witness :
    cfg0.distinctOpcodes ∧ WF exBoot ∧ exBoot.current_pid = 0 ∧
    procState exBoot 0 = some .RUNNING ∧
    handle_trap cfg0 0 cfg0.FORK_PROGRAM 1 0 exBoot = .ok exFork ∧
    ∃ s1, handle_trap cfg0 0 cfg0.FORK_PROGRAM 1 0 exBoot = .ok s1 ∧
      procState s1 1 = some .READY ∧ readyQueue s1 = readyQueue exBoot ++ [1] ∧
      s1.num_processes = exBoot.num_processes + 1 ∧
      s1.current_pid = 0 ∧ procState s1 0 = some .RUNNING ∧
      s1.current_quantum_start_time = exBoot.current_quantum_start_time ∧
      (∀ j, j ≠ 1 → arrGet s1.process_table j = arrGet exBoot.process_table j) ∧
      cpuTime s1 1 = cpuTime exBoot 1 ∧
      (∀ i, semValue s1 i = semValue exBoot i ∧ waitQueue s1 i = waitQueue exBoot i) ∧
      s1.outstanding_requests = exBoot.outstanding_requests ∧
      s1.idle_process_running = exBoot.idle_process_running ∧
      s1.trace = exBoot.trace ++ [.fork 0 1] :=
  ⟨by decide, ReachableVia_WF (exBoot_reachable (fun _ _ _ => True)), by decide, by decide,
    by decide,
    fork_no_preempt cfg0 (by decide) 0 0 exBoot
      (ReachableVia_WF (exBoot_reachable (fun _ _ _ => True))) 0 1 (by decide) (by decide)
      (by decide) (by decide)⟩

/-! ## C14: device completion -/

/-- The list-level dispatcher, by cases on the PID it takes from the ready queue. -/
theorem Abs.round_robin_eq (cfg : Config) (clock : Int) (a : Abs.State) :
    (a.rq.head?.getD cfg.IDLE_PROCESS = cfg.IDLE_PROCESS ∧
      ((a.outstanding_requests = 0 ∧
          Abs.round_robin cfg clock a =
            .exit 1 { a with rq := a.rq.tail, current_pid := cfg.IDLE_PROCESS,
                             trace := a.trace ++ [.deadlock] }) ∨
        (a.outstanding_requests ≠ 0 ∧
          Abs.round_robin cfg clock a =
            .ok { a with rq := a.rq.tail, current_pid := cfg.IDLE_PROCESS,
                         trace := if a.idle_process_running = false
                           then a.trace ++ [.idle clock] else a.trace,
                         idle_process_running := true }))) ∨
    (∃ h rest, a.rq = h :: rest ∧ h ≠ cfg.IDLE_PROCESS ∧
      ((setState a.process_table h .RUNNING = none ∧
          Abs.round_robin cfg clock a = .fault (.process_table h)) ∨
        (∃ t, setState a.process_table h .RUNNING = some t ∧
          Abs.round_robin cfg clock a =
            .ok { a with rq := rest, current_pid := h, trace := a.trace ++ [.runs clock h],
                         idle_process_running := false, process_table := t,
                         current_quantum_start_time := clock }))) := by
  by_cases hp : a.rq.head?.getD cfg.IDLE_PROCESS = cfg.IDLE_PROCESS
  · left
    refine ⟨hp, ?_⟩
    by_cases ho : a.outstanding_requests = 0
    · left
      refine ⟨ho, ?_⟩
      unfold Abs.round_robin
      simp only [hp, if_true, ho, Abs.State.printf]
    · right
      refine ⟨ho, ?_⟩
      unfold Abs.round_robin
      simp only [hp, if_true, ho, if_false, Abs.State.printf]
      cases a.idle_process_running
      · simp
      · simp
  · right
    cases hrq : a.rq with
    | nil => rw [hrq] at hp; exact absurd rfl hp
    | cons h rest =>
      rw [hrq] at hp
      simp only [List.head?_cons, Option.getD_some] at hp
      refine ⟨h, rest, rfl, hp, ?_⟩
      cases ht : setState a.process_table h .RUNNING with
      | none =>
        left
        refine ⟨rfl, ?_⟩
        unfold Abs.round_robin
        simp only [hrq, List.head?_cons, Option.getD_some, if_neg hp, Abs.State.printf, ht]
      | some t =>
        right
        refine ⟨t, rfl, ?_⟩
        unfold Abs.round_robin
        simp only [hrq, List.head?_cons, Option.getD_some, if_neg hp, Abs.State.printf, ht,
          List.tail_cons]

/-- C19. A clock interrupt while the processor is idle is not harmless once 40 time
units have passed since `current_quantum_start_time`: `handle_clock_interrupt` has no
idle guard and uses `current_pid`, which is the idle sentinel, as a table index.  In
the state `exIdle` (boot at 0, `DISK_READ` by process 0 at 7: processor idle, ready
queue empty, one request outstanding) the interrupt at time 47 accesses
`process_table[99]` in a table of 4 entries, while the interrupt at time 30 changes
nothing.  Were the sentinel a table index (3 here), the same interrupt would return
normally after charging 47 time units to entry 3 and marking it `READY`. -/
theorem clock_interrupt_while_idle_faults :
    cfg0.idleOutside ∧ exIdle.current_pid = cfg0.IDLE_PROCESS ∧ readyQueue exIdle = [] ∧
    0 < exIdle.outstanding_requests ∧ exIdle.process_table.length = 4 ∧
    bootAndRun cfg0 0 [(7, .trap cfg0.DISK_READ 0 0)] = .ok exIdle ∧
    47 - exIdle.current_quantum_start_time ≥ QUANTUM ∧
    handle_clock_interrupt cfg0 47 exIdle = .fault (.process_table 99) ∧
    handle_clock_interrupt cfg0 30 exIdle = .ok exIdle ∧
    bootAndRun { cfg0 with IDLE_PROCESS := 3 } 0 [(7, .trap cfg0.DISK_READ 0 0)]
      = .ok { exIdle with current_pid := 3 } ∧
    arrGet exIdle.process_table 3 = some ⟨.UNINITIALIZED, 0⟩ ∧
    ∃ s1, handle_clock_interrupt { cfg0 with IDLE_PROCESS := 3 } 47
        { exIdle with current_pid := 3 } = .ok s1 ∧
      s1.current_pid = 3 ∧ readyQueue s1 = [] ∧
      arrGet s1.process_table 3 = some ⟨.READY, 47⟩ :=
  ⟨by decide, by decide, by decide, by decide, by decide, by decide, by decide, by decide,
    by decide, by decide, by decide,
    { exIdle with
      current_pid := 3
      process_table := [⟨.BLOCKED, 7⟩, ⟨.UNINITIALIZED, 0⟩, ⟨.UNINITIALIZED, 0⟩, ⟨.READY, 47⟩]
      heap := [⟨none, 3⟩]
      rq := ⟨none, some 0⟩ },
    by decide, by decide, by decide, by decide⟩

/-! ## C18: the idle line -/

theorem getElem?_snoc_old {α : Type} {tr ls : List α} {i : Nat} {x : α}
    (h : (tr ++ ls)[i]? = some x) (hls : x ∉ ls) : tr[i]? = some x := by
  by_cases hi : i < tr.length
  · rwa [List.getElem?_append_left hi] at h
  · rw [List.getElem?_append_right (by omega)] at h
    exact absurd (List.getElem?_mem h) hls

theorem getElem?_snoc_keep {α : Type} {tr : List α} (ls : List α) {i : Nat} {x : α}
    (h : tr[i]? = some x) : (tr ++ ls)[i]? = some x ∧ i < tr.length := by
  have hi : i < tr.length := by
    by_contra hc
    rw [List.getElem?_eq_none (by omega)] at h
    cases h
  exact ⟨by rw [List.getElem?_append_left hi]; exact h, hi⟩

/-- Appending lines none of which is an idle line, with the idle flag and
`current_pid` kept. -/
theorem IdleInv_keep {cfg : Config} {a a0 : Abs.State} (hinv : Abs.IdleInv cfg a)
    (ls : List TraceLine) (hls : ∀ t, TraceLine.idle t ∉ ls)
    (htr : a0.trace = a.trace ++ ls)
    (hf : a0.idle_process_running = a.idle_process_running)
    (hc : a0.current_pid = a.current_pid) : Abs.IdleInv cfg a0 := by
  obtain ⟨h1, h2, h3⟩ := hinv
  refine ⟨?_, ?_, ?_⟩
  · intro i j t u hij hi hj
    rw [htr] at hi hj
    obtain ⟨k, v, pid, hik, hkj, hk⟩ :=
      h1 i j t u hij (getElem?_snoc_old hi (hls t)) (getElem?_snoc_old hj (hls u))
    exact ⟨k, v, pid, hik, hkj, by rw [htr]; exact (getElem?_snoc_keep ls hk).1⟩
  · intro hfl i t hi
    rw [htr] at hi
    obtain ⟨k, v, pid, hik, hk⟩ := h2 (hf ▸ hfl) i t (getElem?_snoc_old hi (hls t))
    exact ⟨k, v, pid, hik, by rw [htr]; exact (getElem?_snoc_keep ls hk).1⟩
  · rw [hf, hc]
    exact h3

/-- The dispatcher going idle and printing the idle line: the flag was clear. -/
theorem IdleInv_idle {cfg : Config} {a a0 : Abs.State} (hinv : Abs.IdleInv cfg a)
    (clock : Int) (hfl : a.idle_process_running = false)
    (htr : a0.trace = a.trace ++ [.idle clock])
    (hf : a0.idle_process_running = true)
    (hc : a0.current_pid = cfg.IDLE_PROCESS) : Abs.IdleInv cfg a0 := by
  obtain ⟨h1, h2, _⟩ := hinv
  refine ⟨?_, ?_, ?_⟩
  · intro i j t u hij hi hj
    rw [htr] at hi hj
    have hjlt : j < (a.trace ++ [TraceLine.idle clock]).length := by
      by_contra hcn
      rw [List.getElem?_eq_none (by omega)] at hj
      cases hj
    rw [List.length_append, List.length_singleton] at hjlt
    have hilt : i < a.trace.length := by omega
    rw [List.getElem?_append_left hilt] at hi
    by_cases hjl : j < a.trace.length
    · rw [List.getElem?_append_left hjl] at hj
      obtain ⟨k, v, pid, hik, hkj, hk⟩ := h1 i j t u hij hi hj
      exact ⟨k, v, pid, hik, hkj, by rw [htr]; exact (getElem?_snoc_keep _ hk).1⟩
    · obtain ⟨k, v, pid, hik, hk⟩ := h2 hfl i t hi
      have hkl := (getElem?_snoc_keep [TraceLine.idle clock] hk)
      exact ⟨k, v, pid, hik, by omega, by rw [htr]; exact hkl.1⟩
  · intro hfl0
    rw [hf] at hfl0
    cases hfl0
  · rw [hf, hc]
    exact ⟨fun _ => rfl, fun _ => rfl⟩

/-- The dispatcher selecting a process and printing its line. -/
theorem IdleInv_runs {cfg : Config} {a a0 : Abs.State} (hinv : Abs.IdleInv cfg a)
    (clock h : Int) (hne : h ≠ cfg.IDLE_PROCESS)
    (htr : a0.trace = a.trace ++ [.runs clock h])
    (hf : a0.idle_process_running = false)
    (hc : a0.current_pid = h) : Abs.IdleInv cfg a0 := by
  obtain ⟨h1, _, _⟩ := hinv
  have hno : ∀ t, TraceLine.idle t ∉ [TraceLine.runs clock h] := by
    intro t hm
    cases List.mem_singleton.1 hm
  refine ⟨?_, ?_, ?_⟩
  · intro i j t u hij hi hj
    rw [htr] at hi hj
    obtain ⟨k, v, pid, hik, hkj, hk⟩ :=
      h1 i j t u hij (getElem?_snoc_old hi (hno t)) (getElem?_snoc_old hj (hno u))
    exact ⟨k, v, pid, hik, hkj, by rw [htr]; exact (getElem?_snoc_keep _ hk).1⟩
  · intro _ i t hi
    rw [htr] at hi
    have hi' := getElem?_snoc_old hi (hno t)
    have hil := (getElem?_snoc_keep [TraceLine.runs clock h] hi').2
    refine ⟨a.trace.length, clock, h, hil, ?_⟩
    rw [htr, List.getElem?_append_right (le_refl _)]
    simp
  · rw [hf, hc]
    exact ⟨fun hx => (by cases hx), fun hx => absurd hx hne⟩

theorem Abs.round_robin_IdleInv {cfg : Config} {clock : Int} {a a1 : Abs.State}
    (hinv : Abs.IdleInv cfg a) (h : Abs.round_robin cfg clock a = .ok a1) :
    Abs.IdleInv cfg a1 := by
  rcases Abs.round_robin_eq cfg clock a with ⟨_, ⟨_, he⟩ | ⟨_, he⟩⟩ | ⟨p, rest, _, hne, ⟨_, he⟩ | ⟨t, _, he⟩⟩
  · rw [he] at h; cases h
  · rw [he] at h
    injection h with h
    subst h
    cases hfl : a.idle_process_running with
    | false => exact IdleInv_idle hinv clock hfl (by simp [hfl]) rfl rfl
    | true =>
      obtain ⟨h1, h2, h3⟩ := hinv
      refine ⟨?_, fun hx => (by cases hx), ⟨fun _ => rfl, fun _ => rfl⟩⟩
      simpa [hfl] using h1
  · rw [he] at h; cases h
  · rw [he] at h
    injection h with h
    subst h
    exact IdleInv_runs hinv clock p hne rfl rfl rfl

theorem Abs.up_IdleInv {cfg : Config} {sem : Int} {a a1 : Abs.State}
    (hinv : Abs.IdleInv cfg a) (h : Abs.up sem a = .ok a1) : Abs.IdleInv cfg a1 := by
  have hk : ∀ a0 : Abs.State, a0.trace = a.trace →
      a0.idle_process_running = a.idle_process_running → a0.current_pid = a.current_pid →
      Abs.IdleInv cfg a0 := fun a0 h1 h2 h3 =>
    IdleInv_keep hinv [] (fun _ hm => by cases hm) (by rw [h1, List.append_nil]) h2 h3
  unfold Abs.up at h
  split at h
  · cases h
  · split at h
    · split at h
      · injection h with h; subst h; exact hk _ rfl rfl rfl
      · split at h
        · cases h
        · injection h with h; subst h; exact hk _ rfl rfl rfl
    · injection h with h; subst h; exact hk _ rfl rfl rfl

theorem Abs.down_IdleInv {cfg : Config} {clock sem : Int} {a a1 : Abs.State}
    (hinv : Abs.IdleInv cfg a) (h : Abs.down cfg clock sem a = .ok a1) :
    Abs.IdleInv cfg a1 := by
  have hk : ∀ a0 : Abs.State, a0.trace = a.trace →
      a0.idle_process_running = a.idle_process_running → a0.current_pid = a.current_pid →
      Abs.IdleInv cfg a0 := fun a0 h1 h2 h3 =>
    IdleInv_keep hinv [] (fun _ hm => by cases hm) (by rw [h1, List.append_nil]) h2 h3
  unfold Abs.down at h
  split at h
  · cases h
  · split at h
    · split at h
      · cases h
      · split at h
        · cases h
        · refine Abs.round_robin_IdleInv ?_ h
          exact hk _ rfl rfl rfl
    · injection h with h; subst h; exact hk _ rfl rfl rfl

theorem Abs.handle_trap_IdleInv {cfg : Config} {clock R1 R2 R3 : Int} {a a1 : Abs.State}
    (hinv : Abs.IdleInv cfg a) (h : Abs.handle_trap cfg clock R1 R2 R3 a = .ok a1) :
    Abs.IdleInv cfg a1 := by
  have hk : ∀ a0 : Abs.State, a0.trace = a.trace →
      a0.idle_process_running = a.idle_process_running → a0.current_pid = a.current_pid →
      Abs.IdleInv cfg a0 := fun a0 h1 h2 h3 =>
    IdleInv_keep hinv [] (fun _ hm => by cases hm) (by rw [h1, List.append_nil]) h2 h3
  have hl : ∀ (l : TraceLine) (a0 : Abs.State), (∀ t, l ≠ .idle t) →
      a0.trace = a.trace ++ [l] →
      a0.idle_process_running = a.idle_process_running → a0.current_pid = a.current_pid →
      Abs.IdleInv cfg a0 := fun l a0 hl h1 h2 h3 =>
    IdleInv_keep hinv [l] (fun t hm => hl t (List.mem_singleton.1 hm).symm) h1 h2 h3
  unfold Abs.handle_trap at h
  simp only [Abs.State.printf] at h
  split at h
  · split at h
    · cases h
    · split at h
      · cases h
      · refine Abs.round_robin_IdleInv ?_ h
        exact hl (.disk_read clock a.current_pid) _ (fun _ hx => by cases hx) rfl rfl rfl
  split at h
  · injection h with h; subst h
    exact hl (.disk_write clock a.current_pid) _ (fun _ hx => by cases hx) rfl rfl rfl
  split at h
  · split at h
    · cases h
    · split at h
      · cases h
      · refine Abs.round_robin_IdleInv ?_ h
        exact hl (.keyboard_read clock a.current_pid) _ (fun _ hx => by cases hx) rfl rfl rfl
  split at h
  · split at h
    · cases h
    · injection h with h; subst h
      exact hl (.fork clock R2) _ (fun _ hx => by cases hx) rfl rfl rfl
  split at h
  · split at h
    · cases h
    · split at h
      · cases h
      · rename_i e _
        split at h
        · cases h
        · split at h
          · cases h
          · refine Abs.round_robin_IdleInv ?_ h
            exact hl (.exits clock a.current_pid e.total_CPU_time_used) _
                (fun _ hx => by cases hx) rfl rfl rfl
  split at h
  · split at h
    · exact Abs.up_IdleInv
        (hl (.sem_up clock a.current_pid R2)
          { a with trace := a.trace ++ [.sem_up clock a.current_pid R2] }
          (fun _ hx => by cases hx) rfl rfl rfl) h
    · exact Abs.down_IdleInv
        (hl (.sem_down clock a.current_pid R2)
          { a with trace := a.trace ++ [.sem_down clock a.current_pid R2] }
          (fun _ hx => by cases hx) rfl rfl rfl) h
  · injection h with h; subst h; exact hinv

theorem Abs.deliver_IdleInv {cfg : Config} {clock : Int} {e : Event} {a a1 : Abs.State}
    (hinv : Abs.IdleInv cfg a) (h : Abs.deliver cfg clock e a = .ok a1) :
    Abs.IdleInv cfg a1 := by
  have hk : ∀ a0 : Abs.State, a0.trace = a.trace →
      a0.idle_process_running = a.idle_process_running → a0.current_pid = a.current_pid →
      Abs.IdleInv cfg a0 := fun a0 h1 h2 h3 =>
    IdleInv_keep hinv [] (fun _ hm => by cases hm) (by rw [h1, List.append_nil]) h2 h3
  have hl : ∀ (l : TraceLine) (a0 : Abs.State), (∀ t, l ≠ .idle t) →
      a0.trace = a.trace ++ [l] →
      a0.idle_process_running = a.idle_process_running → a0.current_pid = a.current_pid →
      Abs.IdleInv cfg a0 := fun l a0 hl h1 h2 h3 =>
    IdleInv_keep hinv [l] (fun t hm => hl t (List.mem_singleton.1 hm).symm) h1 h2 h3
  have hdev : ∀ (R1 : Int) (l : TraceLine), (∀ t, l ≠ .idle t) →
      Abs.handle_device_interrupt cfg clock R1 l a = .ok a1 → Abs.IdleInv cfg a1 := by
    intro R1 l hln h
    unfold Abs.handle_device_interrupt at h
    simp only [Abs.State.printf] at h
    split at h
    · cases h
    · split at h
      · refine Abs.round_robin_IdleInv ?_ h
        exact hl l _ hln rfl rfl rfl
      · injection h with h; subst h
        exact hl l _ hln rfl rfl rfl
  cases e with
  | trap R1 R2 R3 => exact Abs.handle_trap_IdleInv hinv h
  | clock_interrupt =>
    unfold Abs.deliver Abs.handle_clock_interrupt at h
    simp only at h
    split at h
    · split at h
      · cases h
      · split at h
        · cases h
        · refine Abs.round_robin_IdleInv ?_ h
          exact hk _ rfl rfl rfl
    · injection h with h; subst h; exact hinv
  | disk_interrupt R1 => exact hdev R1 _ (fun _ hx => by cases hx) h
  | keyboard_interrupt R1 => exact hdev R1 _ (fun _ hx => by cases hx) h

theorem view_IdleInv_init {cfg : Config} (hidle : cfg.idleOutside) {clock : Int} {s : KState}
    (h : initialize_kernel cfg clock = .ok s) : Abs.IdleInv cfg (view s) := by
  obtain ⟨t, ht, hs⟩ := initialize_kernel_ok h
  subst hs
  have hv := setState_valid ht
  have hlen : (List.replicate cfg.MAX_NUMBER_OF_PROCESSES
      ({ state := .UNINITIALIZED, total_CPU_time_used := 0 } : PROCESS_TABLE_ENTRY)).length
      = cfg.MAX_NUMBER_OF_PROCESSES := List.length_replicate _ _
  have hne : (0 : Int) ≠ cfg.IDLE_PROCESS := by
    intro h0
    apply hidle
    rw [← h0]
    rw [setState_length ht, hlen] at hv
    exact hv
  refine ⟨?_, ?_, ?_⟩
  · intro i j t u _ hi
    simp [view] at hi
  · intro _ i t hi
    simp [view] at hi
  · show (false = true) ↔ (0 : Int) = cfg.IDLE_PROCESS
    exact ⟨fun hx => (by cases hx), fun hx => absurd hx hne⟩

theorem ReachableVia_IdleInv {cfg : Config} (hidle : cfg.idleOutside)
    {adm : KState → Int → Event → Prop} {s : KState} (hr : ReachableVia cfg adm s) :
    Abs.IdleInv cfg (view s) :=
  ReachableVia_view_inv (Abs.IdleInv cfg) (fun _ _ h => view_IdleInv_init hidle h)
    (fun _ _ _ _ hi h => Abs.deliver_IdleInv hi h) hr

theorem Abs.round_robin_exit_trace {cfg : Config} {clock c : Int} {a0 a1 : Abs.State}
    (tr ls0 : List TraceLine) (h : Abs.round_robin cfg clock a0 = .exit c a1)
    (h0 : a0.trace = tr ++ ls0) (hls : ∀ t, TraceLine.idle t ∉ ls0) :
    ∃ ls, a1.trace = tr ++ ls ∧ ∀ t, TraceLine.idle t ∉ ls := by
  obtain ⟨_, _, _, ha1⟩ := Abs.round_robin_exit h
  refine ⟨ls0 ++ [.deadlock], ?_, ?_⟩
  · rw [ha1]
    show a0.trace ++ [TraceLine.deadlock] = _
    rw [h0, List.append_assoc]
  · intro t hm
    rcases List.mem_append.1 hm with hm | hm
    · exact hls t hm
    · cases List.mem_singleton.1 hm

/-- A handler that halts has appended no idle line to the trace. -/
theorem Abs.deliver_exit_trace {cfg : Config} {clock c : Int} {e : Event} {a a1 : Abs.State}
    (h : Abs.deliver cfg clock e a = .exit c a1) :
    ∃ ls, a1.trace = a.trace ++ ls ∧ ∀ t, TraceLine.idle t ∉ ls := by
  have rr0 : ∀ a0 : Abs.State, Abs.round_robin cfg clock a0 = .exit c a1 →
      a0.trace = a.trace → ∃ ls, a1.trace = a.trace ++ ls ∧ ∀ t, TraceLine.idle t ∉ ls :=
    fun a0 h0 ht => Abs.round_robin_exit_trace a.trace [] h0 (by rw [ht, List.append_nil])
      (fun _ hm => by cases hm)
  have rr1 : ∀ (l : TraceLine) (a0 : Abs.State), (∀ t, l ≠ .idle t) →
      Abs.round_robin cfg clock a0 = .exit c a1 → a0.trace = a.trace ++ [l] →
      ∃ ls, a1.trace = a.trace ++ ls ∧ ∀ t, TraceLine.idle t ∉ ls :=
    fun l a0 hl h0 ht => Abs.round_robin_exit_trace a.trace [l] h0 ht
      (fun t hm => hl t (List.mem_singleton.1 hm).symm)
  have hdev : ∀ (R1 : Int) (l : TraceLine), (∀ t, l ≠ .idle t) →
      Abs.handle_device_interrupt cfg clock R1 l a = .exit c a1 →
      ∃ ls, a1.trace = a.trace ++ ls ∧ ∀ t, TraceLine.idle t ∉ ls := by
    intro R1 l hln h
    unfold Abs.handle_device_interrupt at h
    simp only [Abs.State.printf] at h
    split at h
    · cases h
    · split at h
      · exact rr1 l _ hln h rfl
      · cases h
  cases e with
  | trap R1 R2 R3 =>
    unfold Abs.deliver Abs.handle_trap at h
    simp only [Abs.State.printf] at h
    split at h
    · split at h
      · cases h
      · split at h
        · cases h
        · exact rr1 (.disk_read clock a.current_pid) _ (fun _ hx => by cases hx) h rfl
    split at h
    · cases h
    split at h
    · split at h
      · cases h
      · split at h
        · cases h
        · exact rr1 (.keyboard_read clock a.current_pid) _ (fun _ hx => by cases hx) h rfl
    split at h
    · split at h
      · cases h
      · cases h
    split at h
    · split at h
      · cases h
      · split at h
        · cases h
        · rename_i e _
          split at h
          · injection h with _ hs
            subst hs
            refine ⟨[.exits clock a.current_pid e.total_CPU_time_used, .no_more_processes], ?_,
              ?_⟩
            · simp
            · intro t hm
              simp at hm
          · split at h
            · cases h
            · exact rr1 (.exits clock a.current_pid e.total_CPU_time_used) _
                (fun _ hx => by cases hx) h rfl
    split at h
    · split at h
      · unfold Abs.up at h
        simp only at h
        split at h
        · cases h
        · split at h
          · split at h
            · cases h
            · split at h
              · cases h
              · cases h
          · cases h
      · unfold Abs.down at h
        simp only at h
        split at h
        · cases h
        · split at h
          · split at h
            · cases h
            · split at h
              · cases h
              · exact rr1 (.sem_down clock a.current_pid R2) _ (fun _ hx => by cases hx) h rfl
          · cases h
    · cases h
  | clock_interrupt =>
    unfold Abs.deliver Abs.handle_clock_interrupt at h
    simp only at h
    split at h
    · split at h
      · cases h
      · split at h
        · cases h
        · exact rr0 _ h rfl
    · cases h
  | disk_interrupt R1 => exact hdev R1 _ (fun _ hx => by cases hx) h
  | keyboard_interrupt R1 => exact hdev R1 _ (fun _ hx => by cases hx) h

/-- C18. Idle is logged once per idle interval.  In the trace of every state reachable
from boot, and in the trace left by a handler that halts in such a state, two
"Processor is idle" lines never occur without a "Process pid runs" line between
them; in every reachable state the idle flag is set exactly when `current_pid` is the
idle sentinel; and `round_robin`, run on any state with well-formed queues that hold
no sentinel, appends the idle line exactly when it finds the ready queue empty while
the idle flag is clear, and appends no idle line otherwise. -/
theorem idle_logged_once (cfg : Config) (hidle : cfg.idleOutside) (s : KState)
    (hr : Reachable cfg s) (tr : List TraceLine)
    (htr : tr = s.trace ∨ ∃ clock e c s1, deliver cfg clock e s = .exit c s1 ∧ tr = s1.trace) :
    (∀ (i j : Nat) (t u : Int), i < j → tr[i]? = some (.idle t) → tr[j]? = some (.idle u) →
      ∃ (k : Nat) (v pid : Int), i < k ∧ k < j ∧ tr[k]? = some (.runs v pid)) ∧
    (s.idle_process_running = true ↔ s.current_pid = cfg.IDLE_PROCESS) ∧
    (∀ (s0 : KState) (clock : Int) (s1 : KState), WF s0 →
      (∀ p ∈ readyQueue s0, p ≠ cfg.IDLE_PROCESS) → round_robin cfg clock s0 = .ok s1 →
      (s1.trace = s0.trace ++ [.idle clock] ∧ readyQueue s0 = [] ∧
          s0.idle_process_running = false) ∨
        ((∃ ls, s1.trace = s0.trace ++ ls ∧ ∀ t, TraceLine.idle t ∉ ls) ∧
          ¬ (readyQueue s0 = [] ∧ s0.idle_process_running = false))) := by
  have hinv : Abs.IdleInv cfg (view s) := ReachableVia_IdleInv hidle hr
  refine ⟨?_, hinv.2.2, ?_⟩
  · rcases htr with rfl | ⟨clock, e, c, s1, hd, rfl⟩
    · exact hinv.1
    · have hsim := (deliver_view cfg clock e s (ReachableVia_WF hr)).1
      rw [hd] at hsim
      obtain ⟨ls, hls, hno⟩ := Abs.deliver_exit_trace hsim.symm
      have hk : Abs.IdleInv cfg { view s with trace := (view s).trace ++ ls } :=
        IdleInv_keep hinv ls hno rfl rfl rfl
      have h1 := hk.1
      have hls' : s1.trace = s.trace ++ ls := hls
      rw [hls']
      exact h1
  · intro s0 clock s1 hw hq hrr
    have hsim := (round_robin_view cfg clock s0 hw).1
    rw [hrr] at hsim
    have habs : Abs.round_robin cfg clock (view s0) = .ok (view s1) := hsim.symm
    rcases Abs.round_robin_eq cfg clock (view s0) with
      ⟨hhead, ⟨_, he⟩ | ⟨_, he⟩⟩ | ⟨p, rest, hrq, hne, ⟨_, he⟩ | ⟨t, _, he⟩⟩
    · rw [he] at habs; cases habs
    · have hempty : readyQueue s0 = [] := by
        cases hc : readyQueue s0 with
        | nil => rfl
        | cons x r =>
          exfalso
          have hx : (view s0).rq = x :: r := hc
          rw [hx] at hhead
          simp only [List.head?_cons, Option.getD_some] at hhead
          exact hq x (by rw [hc]; exact List.mem_cons_self _ _) hhead
      rw [he] at habs
      injection habs with habs
      have htrace : s1.trace = if s0.idle_process_running = false
          then s0.trace ++ [.idle clock] else s0.trace :=
        (congrArg Abs.State.trace habs).symm
      cases hfl : s0.idle_process_running with
      | false =>
        left
        rw [hfl] at htrace
        exact ⟨htrace, hempty, rfl⟩
      | true =>
        right
        rw [hfl] at htrace
        refine ⟨⟨[], ?_, fun _ hm => by cases hm⟩, fun hx => by cases hx.2⟩
        rw [List.append_nil]
        exact htrace
    · rw [he] at habs; cases habs
    · rw [he] at habs
      injection habs with habs
      have htrace : s1.trace = s0.trace ++ [.runs clock p] :=
        (congrArg Abs.State.trace habs).symm
      right
      refine ⟨⟨[.runs clock p], htrace, fun _ hm => by cases List.mem_singleton.1 hm⟩, ?_⟩
      intro hx
      have hrq' : readyQueue s0 = p :: rest := hrq
      rw [hrq'] at hx
      cases hx.1

/-- Witness for C18: the idle state `exIdle`, whose trace holds one idle line. -/
theorem idle_logged_once_witness :
    cfg0.idleOutside ∧ Reachable cfg0 exIdle ∧ exIdle.trace = [.disk_read 7 0, .idle 7] ∧
    ((∀ (i j : Nat) (t u : Int), i < j → exIdle.trace[i]? = some (.idle t) →
        exIdle.trace[j]? = some (.idle u) →
        ∃ (k : Nat) (v pid : Int), i < k ∧ k < j ∧ exIdle.trace[k]? = some (.runs v pid)) ∧
      (exIdle.idle_process_running = true ↔ exIdle.current_pid = cfg0.IDLE_PROCESS) ∧
      (∀ (s0 : KState) (clock : Int) (s1 : KState), WF s0 →
        (∀ p ∈ readyQueue s0, p ≠ cfg0.IDLE_PROCESS) → round_robin cfg0 clock s0 = .ok s1 →
        (s1.trace = s0.trace ++ [.idle clock] ∧ readyQueue s0 = [] ∧
            s0.idle_process_running = false) ∨
          ((∃ ls, s1.trace = s0.trace ++ ls ∧ ∀ t, TraceLine.idle t ∉ ls) ∧
            ¬ (readyQueue s0 = [] ∧ s0.idle_process_running = false)))) :=
  ⟨by decide, exIdle_reachable_any, rfl,
    idle_logged_once cfg0 (by decide) exIdle exIdle_reachable_any exIdle.trace (Or.inl rfl)⟩

/-! ## The queue discipline is an invariant of proper runs -/

theorem setState_index {tbl t : List PROCESS_TABLE_ENTRY} {i : Int} {st : PROCESS_STATE}
    (h : setState tbl i st = some t) : 0 ≤ i ∧ i < (tbl.length : Int) := by
  have := setState_valid h
  rwa [setState_length h] at this

theorem addTime_index {tbl t : List PROCESS_TABLE_ENTRY} {i d : Int}
    (h : addTime tbl i d = some t) : 0 ≤ i ∧ i < (tbl.length : Int) := by
  have := addTime_valid h
  rwa [addTime_length h] at this

theorem QueueInv_intro {cfg : Config} {a : Abs.State}
    (h1 : QInv (stateFn a.process_table) a.rq a.semaphores a.trace)
    (h2 : a.current_pid = cfg.IDLE_PROCESS ∨
      stateFn a.process_table a.current_pid = some .RUNNING)
    (h3 : a.process_table.length = cfg.MAX_NUMBER_OF_PROCESSES)
    (h4 : a.num_processes = liveCount a.process_table) : Abs.QueueInv cfg a :=
  ⟨h1, h2, h3, h4⟩

/-- In a state satisfying the queue discipline, a `current_pid` that is a table index
is the `RUNNING` process. -/
theorem QueueInv_cur_running {cfg : Config} (hidle : cfg.idleOutside) {a : Abs.State}
    (hinv : Abs.QueueInv cfg a)
    (hv : 0 ≤ a.current_pid ∧ a.current_pid < (a.process_table.length : Int)) :
    stateFn a.process_table a.current_pid = some .RUNNING := by
  rcases hinv.2.1 with h | h
  · exfalso
    apply hidle
    rw [← h, ← hinv.2.2.1]
    exact hv
  · exact h

/-- What the discipline gives about the `RUNNING` current process. -/
theorem QueueInv_cur_free {cfg : Config} {a : Abs.State} (hinv : Abs.QueueInv cfg a)
    (hrun : stateFn a.process_table a.current_pid = some .RUNNING) :
    a.current_pid ∉ a.rq ∧ (∀ e ∈ a.semaphores, a.current_pid ∉ e.waiting) ∧
      pendingRequest a.trace a.current_pid = false :=
  QInv_free hinv.1 hrun (by decide) (by decide)

theorem liveCount_setState_live {tbl t : List PROCESS_TABLE_ENTRY} {i : Int}
    {st st0 : PROCESS_STATE} (h : setState tbl i st = some t) (h0 : stateFn tbl i = some st0)
    (h1 : st0 ≠ .UNINITIALIZED) (h2 : st ≠ .UNINITIALIZED) : liveCount t = liveCount tbl := by
  rw [liveCount_setState h h0, if_neg h1, if_neg h2]
  omega

theorem Abs.round_robin_QueueInv {cfg : Config} {clock : Int} {a a1 : Abs.State}
    (hq : QInv (stateFn a.process_table) a.rq a.semaphores a.trace)
    (hlen : a.process_table.length = cfg.MAX_NUMBER_OF_PROCESSES)
    (hnum : a.num_processes = liveCount a.process_table)
    (h : Abs.round_robin cfg clock a = .ok a1) : Abs.QueueInv cfg a1 := by
  rcases Abs.round_robin_eq cfg clock a with
    ⟨_, ⟨_, he⟩ | ⟨_, he⟩⟩ | ⟨p, rest, hrq, hne, ⟨_, he⟩ | ⟨t, ht, he⟩⟩
  · rw [he] at h; cases h
  · rw [he] at h
    injection h with h
    subst h
    refine QueueInv_intro ?_ (Or.inl rfl) hlen hnum
    show QInv (stateFn a.process_table) a.rq.tail a.semaphores
      (if a.idle_process_running = false then a.trace ++ [.idle clock] else a.trace)
    split
    · exact QInv_trace (QInv_rq_tail hq) _ (fun _ _ => rfl)
    · exact QInv_rq_tail hq
  · rw [he] at h; cases h
  · rw [he] at h
    injection h with h
    subst h
    rw [hrq] at hq
    have hp : stateFn a.process_table p = some .READY := hq.1 p (List.mem_cons_self _ _)
    refine QueueInv_intro ?_ (Or.inr ?_) ((setState_length ht).trans hlen) ?_
    · show QInv (stateFn t) rest a.semaphores (a.trace ++ [.runs clock p])
      rw [stateFn_setState_eq ht]
      exact QInv_trace (QInv_dispatch hq) _ (fun _ _ => rfl)
    · show stateFn t p = some .RUNNING
      rw [stateFn_setState ht, if_pos rfl]
    · show a.num_processes = liveCount t
      rw [liveCount_setState_live ht hp (by decide) (by decide)]
      exact hnum

theorem Abs.up_QueueInv {cfg : Config} {sem : Int} {a a1 : Abs.State}
    (hinv : Abs.QueueInv cfg a) (h : Abs.up sem a = .ok a1) : Abs.QueueInv cfg a1 := by
  obtain ⟨hq, hcur, hlen, hnum⟩ := hinv
  unfold Abs.up at h
  split at h
  · cases h
  · rename_i e he
    have hval : ∀ v : Int, QInv (stateFn a.process_table) a.rq
        (a.semaphores.set sem.toNat { e with value := v }) a.trace :=
      fun v => QInv_sem_shrink hq he (List.Sublist.refl _)
    split at h
    · split at h
      · injection h with h; subst h
        exact QueueInv_intro (hval _) hcur hlen hnum
      · rename_i pid rest hwait
        split at h
        · cases h
        · rename_i t ht
          injection h with h; subst h
          have hmem : e ∈ a.semaphores := List.getElem?_mem (arrGet_eq_some he).2
          have hpb : stateFn a.process_table pid = some .BLOCKED :=
            hq.2.2.1 e hmem pid (by rw [hwait]; exact List.mem_cons_self _ _)
          refine QueueInv_intro ?_ ?_ ((setState_length ht).trans hlen) ?_
          · show QInv (stateFn t) (a.rq ++ [pid])
              (a.semaphores.set sem.toNat { e with waiting := rest }) a.trace
            rw [stateFn_setState_eq ht]
            exact QInv_wake hq he hwait
          · rcases hcur with hc | hc
            · exact Or.inl hc
            · right
              show stateFn t a.current_pid = some .RUNNING
              rw [stateFn_setState ht]
              split
              · rename_i heq
                rw [heq, hpb] at hc
                cases hc
              · exact hc
          · show a.num_processes = liveCount t
            rw [liveCount_setState_live ht hpb (by decide) (by decide)]
            exact hnum
    · injection h with h; subst h
      exact QueueInv_intro (hval _) hcur hlen hnum

theorem Abs.down_QueueInv {cfg : Config} (hidle : cfg.idleOutside) {clock sem : Int}
    {a a1 : Abs.State} (hinv : Abs.QueueInv cfg a) (h : Abs.down cfg clock sem a = .ok a1) :
    Abs.QueueInv cfg a1 := by
  have hinv0 := hinv
  obtain ⟨hq, hcur, hlen, hnum⟩ := hinv
  unfold Abs.down at h
  split at h
  · cases h
  · rename_i e he
    split at h
    · split at h
      · cases h
      · rename_i t1 ht1
        split at h
        · cases h
        · rename_i t2 ht2
          have hrun := QueueInv_cur_running hidle hinv0 (setState_index ht1)
          obtain ⟨hf1, hf2, hf3⟩ := QueueInv_cur_free hinv0 hrun
          refine Abs.round_robin_QueueInv ?_ ?_ ?_ h
          · show QInv (stateFn t2) a.rq
              (a.semaphores.set sem.toNat { e with waiting := e.waiting ++ [a.current_pid] })
              a.trace
            rw [stateFn_addTime_eq ht2, stateFn_setState_eq ht1]
            exact QInv_wait_snoc (QInv_update hq .BLOCKED hf1 hf2 (Or.inr rfl)) he
              (Function.update_same _ _ _) hf2 hf3
          · exact (addTime_length ht2).trans ((setState_length ht1).trans hlen)
          · show a.num_processes = liveCount t2
            rw [liveCount_addTime ht2,
              liveCount_setState_live ht1 hrun (by decide) (by decide)]
            exact hnum
    · injection h with h; subst h
      exact QueueInv_intro (QInv_sem_shrink hq he (List.Sublist.refl _)) hcur hlen hnum

/-- A read request of the running process: what the dispatcher is handed. -/
theorem QueueInv_request_step {cfg : Config} (hidle : cfg.idleOutside) {a : Abs.State}
    (hinv : Abs.QueueInv cfg a) {t1 t2 : List PROCESS_TABLE_ENTRY} {d : Int} (l : TraceLine)
    (hl : ∀ p b, pendingStep p b l = if a.current_pid = p then true else b)
    (ht1 : setState a.process_table a.current_pid .BLOCKED = some t1)
    (ht2 : addTime t1 a.current_pid d = some t2) :
    QInv (stateFn t2) a.rq a.semaphores (a.trace ++ [l]) ∧
      t2.length = cfg.MAX_NUMBER_OF_PROCESSES ∧ a.num_processes = liveCount t2 := by
  have hrun := QueueInv_cur_running hidle hinv (setState_index ht1)
  obtain ⟨hf1, hf2, _⟩ := QueueInv_cur_free hinv hrun
  refine ⟨?_, (addTime_length ht2).trans ((setState_length ht1).trans hinv.2.2.1), ?_⟩
  · rw [stateFn_addTime_eq ht2, stateFn_setState_eq ht1]
    exact QInv_request hinv.1 l hl hf1 hf2
  · rw [liveCount_addTime ht2, liveCount_setState_live ht1 hrun (by decide) (by decide)]
    exact hinv.2.2.2

theorem Abs.handle_trap_QueueInv {cfg : Config} (hidle : cfg.idleOutside)
    {clock R1 R2 R3 : Int} {a a1 : Abs.State} (hinv : Abs.QueueInv cfg a)
    (hfork : R1 = cfg.FORK_PROGRAM → stateFn a.process_table R2 = some .UNINITIALIZED)
    (h : Abs.handle_trap cfg clock R1 R2 R3 a = .ok a1) : Abs.QueueInv cfg a1 := by
  have hinv0 := hinv
  obtain ⟨hq, hcur, hlen, hnum⟩ := hinv
  have hline : ∀ l : TraceLine, (∀ p b, pendingStep p b l = b) →
      Abs.QueueInv cfg { a with trace := a.trace ++ [l] } := fun l hl =>
    QueueInv_intro (QInv_trace hq l hl) hcur hlen hnum
  unfold Abs.handle_trap at h
  simp only [Abs.State.printf] at h
  split at h
  · split at h
    · cases h
    · rename_i t1 ht1
      split at h
      · cases h
      · rename_i t2 ht2
        obtain ⟨h1, h2, h3⟩ := QueueInv_request_step hidle hinv0
          (.disk_read clock a.current_pid) (fun _ _ => rfl) ht1 ht2
        refine Abs.round_robin_QueueInv ?_ ?_ ?_ h
        · exact h1
        · exact h2
        · exact h3
  split at h
  · injection h with h; subst h
    exact QueueInv_intro (QInv_trace hq _ (fun _ _ => rfl)) hcur hlen hnum
  split at h
  · split at h
    · cases h
    · rename_i t1 ht1
      split at h
      · cases h
      · rename_i t2 ht2
        obtain ⟨h1, h2, h3⟩ := QueueInv_request_step hidle hinv0
          (.keyboard_read clock a.current_pid) (fun _ _ => rfl) ht1 ht2
        refine Abs.round_robin_QueueInv ?_ ?_ ?_ h
        · exact h1
        · exact h2
        · exact h3
  split at h
  · rename_i hop
    split at h
    · cases h
    · rename_i t ht
      injection h with h; subst h
      have hun := hfork hop
      have hq1 : QInv (stateFn a.process_table) a.rq a.semaphores
          (a.trace ++ [.fork clock R2]) := QInv_trace hq _ (fun _ _ => rfl)
      obtain ⟨hf1, hf2, hf3⟩ := QInv_free hq1 hun (by decide) (by decide)
      refine QueueInv_intro ?_ ?_ ((setState_length ht).trans hlen) ?_
      · show QInv (stateFn t) (a.rq ++ [R2]) a.semaphores (a.trace ++ [.fork clock R2])
        rw [stateFn_setState_eq ht]
        exact QInv_make_ready hq1 hf1 hf2 hf3
      · rcases hcur with hc | hc
        · exact Or.inl hc
        · right
          show stateFn t a.current_pid = some .RUNNING
          rw [stateFn_setState ht]
          split
          · rename_i heq
            rw [heq, hun] at hc
            cases hc
          · exact hc
      · show a.num_processes + 1 = liveCount t
        rw [liveCount_setState ht hun, if_pos rfl, if_neg (by decide), hnum]
        omega
  split at h
  · split at h
    · cases h
    · rename_i t1 ht1
      split at h
      · cases h
      · rename_i e _
        split at h
        · cases h
        · split at h
          · cases h
          · rename_i t2 ht2
            have hrun := QueueInv_cur_running hidle hinv0 (addTime_index ht1)
            obtain ⟨hf1, hf2, hf3⟩ := QueueInv_cur_free hinv0 hrun
            have hrun1 : stateFn t1 a.current_pid = some .RUNNING := by
              rw [stateFn_addTime_eq ht1]; exact hrun
            refine Abs.round_robin_QueueInv ?_ ?_ ?_ h
            · show QInv (stateFn t2) a.rq a.semaphores
                (a.trace ++ [.exits clock a.current_pid e.total_CPU_time_used])
              rw [stateFn_setState_eq ht2, stateFn_addTime_eq ht1]
              exact QInv_trace (QInv_update hq .UNINITIALIZED hf1 hf2 (Or.inl hf3)) _
                (fun _ _ => rfl)
            · exact (setState_length ht2).trans ((addTime_length ht1).trans hlen)
            · show a.num_processes - 1 = liveCount t2
              rw [liveCount_setState ht2 hrun1, if_neg (by decide), if_pos rfl,
                liveCount_addTime ht1, hnum]
              omega
  split at h
  · split at h
    · exact Abs.up_QueueInv (hline (.sem_up clock a.current_pid R2) (fun _ _ => rfl)) h
    · exact Abs.down_QueueInv hidle
        (hline (.sem_down clock a.current_pid R2) (fun _ _ => rfl)) h
  · injection h with h; subst h; exact hinv0

theorem Abs.handle_clock_interrupt_QueueInv {cfg : Config} (hidle : cfg.idleOutside)
    {clock : Int} {a a1 : Abs.State} (hinv : Abs.QueueInv cfg a)
    (h : Abs.handle_clock_interrupt cfg clock a = .ok a1) : Abs.QueueInv cfg a1 := by
  have hinv0 := hinv
  obtain ⟨hq, hcur, hlen, hnum⟩ := hinv
  unfold Abs.handle_clock_interrupt at h
  split at h
  · split at h
    · cases h
    · rename_i t1 ht1
      split at h
      · cases h
      · rename_i t2 ht2
        have hrun := QueueInv_cur_running hidle hinv0 (addTime_index ht1)
        obtain ⟨hf1, hf2, hf3⟩ := QueueInv_cur_free hinv0 hrun
        have hrun1 : stateFn t1 a.current_pid = some .RUNNING := by
          rw [stateFn_addTime_eq ht1]; exact hrun
        refine Abs.round_robin_QueueInv ?_ ?_ ?_ h
        · show QInv (stateFn t2) (a.rq ++ [a.current_pid]) a.semaphores a.trace
          rw [stateFn_setState_eq ht2, stateFn_addTime_eq ht1]
          exact QInv_make_ready hq hf1 hf2 hf3
        · exact (setState_length ht2).trans ((addTime_length ht1).trans hlen)
        · show a.num_processes = liveCount t2
          rw [liveCount_setState_live ht2 hrun1 (by decide) (by decide),
            liveCount_addTime ht1]
          exact hnum
  · injection h with h; subst h; exact hinv0

theorem Abs.handle_device_interrupt_QueueInv {cfg : Config} {clock R1 : Int}
    {line : TraceLine} {a a1 : Abs.State} (hinv : Abs.QueueInv cfg a)
    (hl : ∀ p b, pendingStep p b line = if R1 = p then false else b)
    (hb : stateFn a.process_table R1 = some .BLOCKED)
    (hp : pendingRequest a.trace R1 = true)
    (h : Abs.handle_device_interrupt cfg clock R1 line a = .ok a1) :
    Abs.QueueInv cfg a1 := by
  obtain ⟨hq, hcur, hlen, hnum⟩ := hinv
  unfold Abs.handle_device_interrupt at h
  simp only [Abs.State.printf] at h
  split at h
  · cases h
  · rename_i t ht
    have h1 : QInv (stateFn t) (a.rq ++ [R1]) a.semaphores (a.trace ++ [line]) := by
      rw [stateFn_setState_eq ht]
      exact QInv_completion hq line hl hb hp
    have h2 : t.length = cfg.MAX_NUMBER_OF_PROCESSES := (setState_length ht).trans hlen
    have h3 : a.num_processes = liveCount t := by
      rw [liveCount_setState_live ht hb (by decide) (by decide)]
      exact hnum
    split at h
    · refine Abs.round_robin_QueueInv ?_ ?_ ?_ h
      · exact h1
      · exact h2
      · exact h3
    · injection h with h; subst h
      refine QueueInv_intro h1 ?_ h2 h3
      rcases hcur with hc | hc
      · exact Or.inl hc
      · right
        show stateFn t a.current_pid = some .RUNNING
        rw [stateFn_setState ht]
        split
        · rename_i heq
          rw [heq, hb] at hc
          cases hc
        · exact hc

theorem Abs.deliver_QueueInv {cfg : Config} (hidle : cfg.idleOutside) {clock : Int}
    {e : Event} {a a1 : Abs.State} (hinv : Abs.QueueInv cfg a)
    (hfork : forkNamesUninit cfg a.process_table e)
    (hcomp : completionNamesPending a.process_table a.trace e)
    (h : Abs.deliver cfg clock e a = .ok a1) : Abs.QueueInv cfg a1 := by
  cases e with
  | trap R1 R2 R3 => exact Abs.handle_trap_QueueInv hidle hinv hfork h
  | clock_interrupt => exact Abs.handle_clock_interrupt_QueueInv hidle hinv h
  | disk_interrupt R1 =>
    have h0 : Abs.handle_device_interrupt cfg clock R1 (.disk_interrupt clock R1) a = .ok a1 := h
    refine Abs.handle_device_interrupt_QueueInv hinv ?_ hcomp.1 hcomp.2 h0
    exact fun _ _ => rfl
  | keyboard_interrupt R1 =>
    have h0 : Abs.handle_device_interrupt cfg clock R1 (.keyboard_interrupt clock R1) a
        = .ok a1 := h
    refine Abs.handle_device_interrupt_QueueInv hinv ?_ hcomp.1 hcomp.2 h0
    exact fun _ _ => rfl

theorem liveCount_replicate_uninit (n : Nat) (c : Int) :
    liveCount (List.replicate n
      ({ state := .UNINITIALIZED, total_CPU_time_used := c } : PROCESS_TABLE_ENTRY)) = 0 := by
  induction n with
  | zero => rfl
  | succ n ih =>
    rw [List.replicate_succ, liveCount_cons, ih]
    simp

theorem view_QueueInv_init {cfg : Config} {clock : Int} {s : KState}
    (h : initialize_kernel cfg clock = .ok s) : Abs.QueueInv cfg (view s) := by
  obtain ⟨t, ht, hs⟩ := initialize_kernel_ok h
  subst hs
  have hun : stateFn (List.replicate cfg.MAX_NUMBER_OF_PROCESSES
      ({ state := .UNINITIALIZED, total_CPU_time_used := 0 } : PROCESS_TABLE_ENTRY)) 0
      = some .UNINITIALIZED := by
    obtain ⟨e, he, _⟩ := setState_some ht
    have hmem := List.getElem?_mem (arrGet_eq_some he).2
    rw [List.eq_of_mem_replicate hmem] at he
    unfold stateFn
    rw [he]
    rfl
  refine QueueInv_intro ?_ (Or.inr ?_) ?_ ?_
  · show QInv (stateFn t) [] (semView [] (List.replicate NUMBER_OF_SEMAPHORES
      { value := INITIAL_SEMAPHORE_VALUE, q := emptyQueue })) []
    have hw : ∀ e ∈ semView [] (List.replicate NUMBER_OF_SEMAPHORES
        ({ value := INITIAL_SEMAPHORE_VALUE, q := emptyQueue } : SEMAPHORE)),
        e.waiting = [] := by
      intro e he
      unfold semView at he
      obtain ⟨x, hx, rfl⟩ := List.mem_map.1 he
      rw [List.eq_of_mem_replicate hx]
      rfl
    refine ⟨fun p hp => (by cases hp), List.nodup_nil, ?_, ?_, ?_, ?_⟩
    · intro e he w hwm
      rw [hw e he] at hwm
      cases hwm
    · intro e he
      rw [hw e he]
      exact List.nodup_nil
    · intro i j ei ej _ hi _ w hwm
      rw [hw ei (List.getElem?_mem hi)] at hwm
      cases hwm
    · intro p hp
      cases hp
  · show stateFn t 0 = some .RUNNING
    rw [stateFn_setState ht, if_pos rfl]
  · show t.length = cfg.MAX_NUMBER_OF_PROCESSES
    rw [setState_length ht, List.length_replicate]
  · show (1 : Int) = liveCount t
    rw [liveCount_setState ht hun, if_pos rfl, if_neg (by decide), liveCount_replicate_uninit]
    rfl

theorem ReachableVia_QueueInv {cfg : Config} (hidle : cfg.idleOutside) {s : KState}
    (hr : ReachableVia cfg (readyQueueUse cfg) s) : Abs.QueueInv cfg (view s) := by
  induction hr with
  | boot clock s h => exact view_QueueInv_init h
  | step s clock e s1 hr0 ha hd ih =>
    exact Abs.deliver_QueueInv hidle ih ha.1 ha.2 (deliver_ok_view (ReachableVia_WF hr0) hd)

/-! ## C13, C20, C17 and C15: ready queue, partition, live count, `END_PROGRAM` -/

theorem properUse_readyQueueUse (cfg : Config) (s : KState) (c : Int) (e : Event)
    (h : properUse cfg s c e) : readyQueueUse cfg s c e :=
  ⟨h.1, h.2.1⟩

theorem exFork_proper : ReachableVia cfg0 (properUse cfg0) exFork :=
  .step exBoot 0 (.trap 3 1 0) exFork (exBoot_reachable _)
    (by unfold properUse forkNamesUninit completionNamesPending trapByRunning; decide)
    (by decide)

theorem exBlocked_proper : ReachableVia cfg0 (properUse cfg0) exBlocked :=
  .step exDown 10 (.trap 5 3 0) exBlocked
    (.step exFork 5 (.trap 5 3 0) exDown exFork_proper
      (by unfold properUse forkNamesUninit completionNamesPending trapByRunning; decide)
      (by decide))
    (by unfold properUse forkNamesUninit completionNamesPending trapByRunning; decide)
    (by decide)

/-- C17 (as amended). Live-process count: in every state reachable from boot by
handler invocations in which every `FORK_PROGRAM` names an `UNINITIALIZED` table
entry, every completion interrupt names a process `BLOCKED` with a device request
pending and every trap is issued by the `RUNNING` process (the idle sentinel not
being a table index), `num_processes` equals the number of table entries whose state
is not `UNINITIALIZED` and is not negative; it is 1 immediately after boot. -/
theorem live_count (cfg : Config) (hidle : cfg.idleOutside) (s : KState)
    (hr : ReachableVia cfg (properUse cfg) s) :
    s.num_processes = liveCount s.process_table ∧ 0 ≤ s.num_processes ∧
    (∀ clock s0, initialize_kernel cfg clock = .ok s0 →
      s0.num_processes = 1 ∧ liveCount s0.process_table = 1) := by
  have hinv : Abs.QueueInv cfg (view s) :=
    ReachableVia_QueueInv hidle (ReachableVia_mono (properUse_readyQueueUse cfg) hr)
  have hnum : s.num_processes = liveCount s.process_table := hinv.2.2.2
  refine ⟨hnum, ?_, ?_⟩
  · rw [hnum]
    unfold liveCount
    exact Int.ofNat_nonneg _
  · intro clock s0 h0
    have h1 : s0.num_processes = liveCount s0.process_table := (view_QueueInv_init h0).2.2.2
    obtain ⟨t, _, hs⟩ := initialize_kernel_ok h0
    have h2 : s0.num_processes = 1 := by rw [hs]
    exact ⟨h2, by rw [← h1, h2]⟩

/-- Witness for C17 (as amended): the state `exBlocked`, with two live processes. -/
theorem live_count_witness :
    cfg0.idleOutside ∧ ReachableVia cfg0 (properUse cfg0) exBlocked ∧
    liveCount exBlocked.process_table = 2 ∧
    (exBlocked.num_processes = liveCount exBlocked.process_table ∧
      0 ≤ exBlocked.num_processes ∧
      (∀ clock s0, initialize_kernel cfg0 clock = .ok s0 →
        s0.num_processes = 1 ∧ liveCount s0.process_table = 1)) :=
  ⟨by decide, exBlocked_proper, by decide,
    live_count cfg0 (by decide) exBlocked exBlocked_proper⟩

/-- C17 (as stated) fails: a completion interrupt is a handler invocation that the
stated conditions do not restrict.  Right after boot the disk completion with operand
1 marks the `UNINITIALIZED` entry 1 `READY`; the state reached has two entries that
are not `UNINITIALIZED` while `num_processes` is still 1. -/
theorem stray_completion_breaks_count :
    ∃ s1, bootAndRun cfg0 0 [(3, .disk_interrupt 1)] = .ok s1 ∧
      ReachableVia cfg0 (liveCountUse cfg0) s1 ∧
      s1.num_processes = 1 ∧ liveCount s1.process_table = 2 ∧
      s1.num_processes ≠ liveCount s1.process_table :=
  ⟨{ exBoot with
      process_table := [⟨.RUNNING, 0⟩, ⟨.READY, 0⟩, ⟨.UNINITIALIZED, 0⟩, ⟨.UNINITIALIZED, 0⟩]
      heap := [⟨none, 1⟩]
      rq := ⟨some 0, some 0⟩
      outstanding_requests := -1
      trace := [.disk_interrupt 3 1] },
    by decide,
    .step exBoot 3 (.disk_interrupt 1) _ (exBoot_reachable _)
      (by unfold liveCountUse forkNamesUninit trapByRunning; decide) (by decide),
    by decide, by decide, by decide⟩

end Kernel
